import Mathlib

/-!
Verification of the core diff engine of the compare-plugin repository
(src/src/Engine/Engine.cpp), shallowly embedded in Lean 4.

Modelling conventions:
* machine `uint64_t` arithmetic is `Nat` reduced modulo `2 ^ 64`;
* document bytes are `Nat` values (0 .. 255);
* a Scintilla document is a `List (List Nat)`: the list of its lines,
  each line given by its bytes without the end-of-line characters
  (a document always has at least one line; the completely empty
  document is `[[]]`);
* C++ raw pointers between blocks are replaced by indices into the
  block vector;
* the external `DiffCalc` component (diff.h, not part of the sources
  under verification) is a parameter of the functions that call it;
  a simple executable LCS model is provided for concrete evaluation;
* the progress dialog is modelled by a presence flag together with an
  oracle `Nat → Bool` consulted at the points where the source calls
  `Advance` / `NextPhase` (`false` means the user cancelled), with a
  tick counter threaded through the computation.
-/

namespace Engine

/-- 64-bit truncation used for all `uint64_t` arithmetic. -/
def mod64 (n : Nat) : Nat := n % (2 ^ 64)

/-- The hash seed `cHashSeed = 0x84222325` from the source. -/
def cHashSeed : Nat := 0x84222325

/-- Embedding of `Hash(uint64_t hval, char letter)`:
`hval ^= letter; hval += (hval<<1)+(hval<<4)+(hval<<5)+(hval<<7)+(hval<<8)+(hval<<40)`. -/
def hashChar (hval letter : Nat) : Nat :=
  let h := mod64 (Nat.xor hval letter)
  mod64 (h + (h <<< 1) + (h <<< 4) + (h <<< 5) + (h <<< 7) + (h <<< 8) + (h <<< 40))

/-- ASCII lower-casing of one byte, as done by `toLowerCase` on the line buffer. -/
def toLowerByte (b : Nat) : Nat :=
  if 65 ≤ b ∧ b ≤ 90 then b + 32 else b

/-- ASCII lower-casing of a whole line buffer. -/
def toLowerCase (line : List Nat) : List Nat := line.map toLowerByte

/-- The three character classes of the tokenizer (`enum class charType`). -/
inductive charType where
  | SPACECHAR
  | ALPHANUMCHAR
  | OTHERCHAR
deriving DecidableEq, Repr

/-- Modelled from the spec: `IsCharAlphaNumericA` is a Windows API whose
implementation is not part of the repository; per the spec design note the
classification is ASCII-only in practice, i.e. bytes 0x30–0x39, 0x41–0x5A,
0x61–0x7A. -/
def IsCharAlphaNumericA (b : Nat) : Bool :=
  (0x30 ≤ b ∧ b ≤ 0x39) ∨ (0x41 ≤ b ∧ b ≤ 0x5A) ∨ (0x61 ≤ b ∧ b ≤ 0x7A)

/-- Embedding of `getCharType(char letter)`. -/
def getCharType (letter : Nat) : charType :=
  if letter = 0x20 ∨ letter = 0x09 then charType.SPACECHAR
  else if IsCharAlphaNumericA letter ∨ letter = 0x5F then charType.ALPHANUMCHAR
  else charType.OTHERCHAR

/-- The user settings consulted by the engine (`UserSettings`).  Views are
numbers: `MAIN_VIEW = 0`, `SUB_VIEW = 1`. -/
structure UserSettings where
  IgnoreCase : Bool
  IgnoreSpaces : Bool
  DetectMoves : Bool
  OldFileViewId : Nat
deriving Repr, DecidableEq

def MAIN_VIEW : Nat := 0
def SUB_VIEW : Nat := 1

/-- `section_t {off, len}`: a range of lines.  The C++ fields are `int`; all
values reachable in the engine are non-negative, so `Nat` is used. -/
structure section_t where
  off : Nat
  len : Nat
deriving Repr, DecidableEq

/-- `DocCmpInfo {view, section, blockDiffMask}`.  The `section` field is named
`sec` because `section` is a Lean keyword. -/
structure DocCmpInfo where
  view : Nat
  sec : section_t
  blockDiffMask : Nat
deriving Repr, DecidableEq

/-- `struct Word`.  In C++, equality of `Word`s is defined solely by `hash`;
the executable DiffCalc model below compares hashes accordingly. -/
structure Word where
  type : charType
  line : Nat
  pos : Nat
  length : Nat
  hash : Nat
deriving Repr, DecidableEq

/-- The progress-dialog collaborator: a presence flag (`ProgressDlg::Get()`
may be null) and an oracle consulted at each `Advance`/`NextPhase` call
(`false` = the user cancelled). -/
structure Progress where
  present : Bool
  oracle : Nat → Bool

/-- One progress call: the continue flag and the next tick.  When no dialog is
present the source skips the call entirely. -/
def progressStep (p : Progress) (tick : Nat) : Bool × Nat :=
  if p.present then (p.oracle tick, tick + 1) else (true, tick)

/-! ### Scintilla document model -/

/-- `SCI_GETLENGTH`: total byte length of the document text, with one
line-ending byte between consecutive lines. -/
def sciLength (doc : List (List Nat)) : Nat :=
  (doc.map List.length).sum + (doc.length - 1)

/-- The line count as computed at the start of `computeLineHashes`:
`SCI_GETLENGTH` is asked first and a zero-length document keeps line count 0,
otherwise `SCI_GETLINECOUNT` is used. -/
def sciLineCountFor (doc : List (List Nat)) : Nat :=
  if sciLength doc = 0 then 0 else doc.length

/-- The text of one document line (between `SCI_POSITIONFROMLINE` and
`SCI_GETLINEENDPOSITION`), i.e. without the end-of-line characters. -/
def sciLine (doc : List (List Nat)) (lineNum : Nat) : List Nat :=
  doc.getD lineNum []

/-! ### Line hashing (`computeLineHashes`) -/

/-- The hash of one line as computed by the inner loop of
`computeLineHashes`: case folding when `IgnoreCase`, skipping space and tab
when `IgnoreSpaces`.  The source leaves the seed untouched for a line of zero
length (`if (lineEnd - lineStart)` guard); for non-empty lines the fold below
also keeps the seed when every byte is skipped. -/
def lineHash (settings : UserSettings) (line0 : List Nat) : Nat :=
  if line0 = [] then cHashSeed
  else
    let line := if settings.IgnoreCase then toLowerCase line0 else line0
    line.foldl
      (fun h b => if settings.IgnoreSpaces ∧ (b = 0x20 ∨ b = 0x09) then h else hashChar h b)
      cHashSeed

def monitorCancelEveryXLine : Nat := 500

/-- The hashing loop of `computeLineHashes` (`for lineNum in [0, len)`), with
the periodic `Advance` cancellation check.  Returns `none` when cancelled (the
source returns an empty vector). -/
def lineHashesLoop (p : Progress) (settings : UserSettings) (doc : List (List Nat))
    (off len : Nat) (lineNum tick : Nat) (acc : List Nat) : Option (List Nat) × Nat :=
  if lineNum < len then
    let step := if lineNum % monitorCancelEveryXLine = 0 then progressStep p tick else (true, tick)
    if step.1 then
      lineHashesLoop p settings doc off len (lineNum + 1) step.2
        (acc ++ [lineHash settings (sciLine doc (lineNum + off))])
    else (none, step.2)
  else (some acc, tick)
termination_by len - lineNum

/-- The section-length clamping at the start of `computeLineHashes`:
`if (len <= 0 || off + len > lineCount) len = lineCount - off`.  (`len ≤ 0`
is `len = 0` in the `Nat` model; the subtraction is the C++ one for the
valid inputs `off ≤ lineCount` the engine is called with.) -/
def clampSection (sec : section_t) (lineCount : Nat) : section_t :=
  if sec.len = 0 ∨ sec.off + sec.len > lineCount then
    { sec with len := lineCount - sec.off }
  else sec

/-- Embedding of `computeLineHashes`.  Returns the hash vector (empty on
cancellation), the updated `DocCmpInfo` (the source updates
`doc.section.len` in place) and the new progress tick. -/
def computeLineHashes (p : Progress) (doc : List (List Nat)) (docInfo : DocCmpInfo)
    (settings : UserSettings) (tick : Nat) : List Nat × DocCmpInfo × Nat :=
  let sec1 := clampSection docInfo.sec (sciLineCountFor doc)
  match lineHashesLoop p settings doc sec1.off sec1.len 0 tick [] with
  | (none, tick') => ([], { docInfo with sec := sec1 }, tick')
  | (some hs, tick') =>
    if sec1.len ≠ 0 ∧ hs.getLast? = some cHashSeed then
      (hs.dropLast, { docInfo with sec := { sec1 with len := sec1.len - 1 } }, tick')
    else (hs, { docInfo with sec := sec1 }, tick')

/-- The hash sequence of the clamped section before the trailing-blank
trimming: one `lineHash` per section line. -/
def rawLineHashes (doc : List (List Nat)) (off len : Nat) (settings : UserSettings) :
    List Nat :=
  (List.range len).map (fun n => lineHash settings (sciLine doc (n + off)))

/-! ### Tokenizer (`getWords`) -/

/-- Whether the word in progress is emitted:
`!settings.IgnoreSpaces || word.type != charType::SPACECHAR`. -/
def keepWord (settings : UserSettings) (w : Word) : Bool :=
  !settings.IgnoreSpaces || decide (w.type ≠ charType.SPACECHAR)

/-- The inner loop of `getWords` (`for (int i = 1; i < lineLen; ++i)`): `rest`
holds the bytes not consumed yet, `i` is the index of its first byte, `word`
the run in progress, `acc` the words emitted so far. -/
def getWordsLoop (settings : UserSettings) (ln : Nat) :
    List Nat → Nat → Word → List Word → List Word
  | [], _, word, acc => if keepWord settings word then acc ++ [word] else acc
  | b :: rest, i, word, acc =>
    let newType := getCharType b
    if newType = word.type then
      getWordsLoop settings ln rest (i + 1)
        { word with length := word.length + 1, hash := hashChar word.hash b } acc
    else
      getWordsLoop settings ln rest (i + 1)
        { type := newType, line := ln, pos := i, length := 1, hash := hashChar cHashSeed b }
        (if keepWord settings word then acc ++ [word] else acc)

/-- Tokenization of a single line: the per-line body of `getWords` (case
folding, then the maximal-run loop).  An empty line yields no words
(`if (lineLen > 0)` guard). -/
def tokenizeLine (settings : UserSettings) (ln : Nat) (line0 : List Nat) : List Word :=
  match (if settings.IgnoreCase then toLowerCase line0 else line0) with
  | [] => []
  | b :: rest =>
    getWordsLoop settings ln rest 1
      { type := getCharType b, line := ln, pos := 0, length := 1, hash := hashChar cHashSeed b } []

/-- Embedding of `getWords`: tokenize `lineCount` document lines starting at
`lineOffset`; the `line` field of the words is the chunk-relative number. -/
def getWords (doc : List (List Nat)) (lineOffset lineCount : Nat)
    (settings : UserSettings) : List (List Word) :=
  (List.range lineCount).map
    (fun lineNum => tokenizeLine settings lineNum (sciLine doc (lineNum + lineOffset)))

/-! ### Spec-side view of the tokenizer output -/

/-- Spec-side description of a tokenized line: the maximal same-class runs of
a byte list, each given by its start position and its bytes. -/
def specRuns (i : Nat) (l : List Nat) : List (Nat × List Nat) :=
  match l with
  | [] => []
  | b :: rest =>
    let t := getCharType b
    let run := rest.takeWhile (fun c => decide (getCharType c = t))
    (i, b :: run) ::
      specRuns (i + 1 + run.length) (rest.dropWhile (fun c => decide (getCharType c = t)))
termination_by l.length
decreasing_by
  simp only [List.length_cons]
  have h := List.takeWhile_append_dropWhile (fun c => decide (getCharType c = getCharType b)) rest
  have h2 : ((rest.takeWhile (fun c => decide (getCharType c = getCharType b))) ++
      (rest.dropWhile (fun c => decide (getCharType c = getCharType b)))).length = rest.length := by
    rw [h]
  simp only [List.length_append] at h2
  omega

/-- The `Word` record corresponding to one maximal run. -/
def wordOfRun (ln : Nat) (r : Nat × List Nat) : Word :=
  { type := getCharType (r.2.headD 0)
    line := ln
    pos := r.1
    length := r.2.length
    hash := r.2.foldl hashChar cHashSeed }

/-! ### Block-diff data model -/

/-- `enum class diff_type`. -/
inductive diff_type where
  | DIFF_MATCH
  | DIFF_IN_1
  | DIFF_IN_2
deriving DecidableEq, Repr

/-- `struct diffLine {line, changes}`. -/
structure diffLine where
  line : Nat
  changes : List section_t := []
deriving Repr, DecidableEq

/-- `struct blockDiffInfo`.  The C++ `matchBlock` pointer is modelled as an
index into the block vector (`none` = null). -/
structure blockDiffInfo where
  matchBlock : Option Nat := none
  changedLines : List diffLine := []
  matchList : List (section_t × Bool) := []
deriving Repr, DecidableEq

/-- `diff_info<blockDiffInfo>`: one block of the line-level diff. -/
structure diffInfo where
  type : diff_type
  off : Nat
  len : Nat
  info : blockDiffInfo := {}
deriving Repr, DecidableEq

instance : Inhabited diffInfo :=
  ⟨{ type := diff_type.DIFF_MATCH, off := 0, len := 0 }⟩

/-- `diff_info<void>`: a raw span as produced by `DiffCalc` (type, offset in
its source, length), before any engine bookkeeping is attached. -/
structure Span where
  type : diff_type
  off : Nat
  len : Nat
deriving Repr, DecidableEq

/-- Wrapping a raw span into a block with default-constructed info, as
`DiffCalc<uint64_t, blockDiffInfo>` does. -/
def spanToDiffInfo (s : Span) : diffInfo :=
  { type := s.type, off := s.off, len := s.len }

/-- `blockDiffInfo::matchedSection(line, isMoved)`: length of the first
recorded match containing `line` (0 when none) together with its moved flag
(the C++ out-parameter, untouched — here `false` — when no match is found). -/
def matchedSection (info : blockDiffInfo) (line : Nat) : Nat × Bool :=
  match info.matchList.find?
      (fun m => decide (line ≥ m.1.off) && decide (line < m.1.off + m.1.len)) with
  | some m => (m.1.len, m.2)
  | none => (0, false)

/-! ### MoveFinder (`findMatches`, `findBetterMatch`, `findMoves`) -/

/-- `struct MatchInfo`; the block pointers of the match lists are indices into
the block vector, paired with the match start offset inside that block. -/
structure MatchInfo where
  sec : section_t := { off := 0, len := 0 }
  matchesIn1 : List (Nat × Nat) := []
  matchesIn2 : List (Nat × Nat) := []
deriving Repr, DecidableEq

/-- Backward run extension (the first inner `for` of `findMatches`): how many
steps both cursors can move back while `ok` keeps holding on the new pair of
positions. -/
def extendBack (ok : Nat → Nat → Bool) : Nat → Nat → Nat
  | 0, _ => 0
  | _ + 1, 0 => 0
  | i + 1, j + 1 => if ok i j then extendBack ok i j + 1 else 0

/-- Forward run extension (the second inner `for` of `findMatches`): how many
steps both cursors can move forward below the two block lengths while `ok`
keeps holding. -/
def extendFwd (ok : Nat → Nat → Bool) (len1 len2 : Nat) (i j : Nat) : Nat :=
  if i < len1 ∧ j < len2 then
    if ok i j then extendFwd ok len1 len2 (i + 1) (j + 1) + 1 else 0
  else 0
termination_by len1 - i

/-- The per-position predicate of the extension loops of `findMatches`: the
doc-2 position is not inside an already recorded match and the two line
hashes coincide. -/
def extOk (h1 h2 : List Nat) (diff1 diff2 : diffInfo) (s1 s2 : Nat) : Bool :=
  decide ((matchedSection diff2.info s2).1 = 0) &&
    (h1.getD (diff1.off + s1) 0 == h2.getD (diff2.off + s2) 0)

/-- The `ei2` loop of `findMatches` over one `DIFF_IN_2` block `diff2` (block
index `di2`), threading the candidate `mi` and `minMatchLen`.  The index jump
after recording a candidate is written `ei2 + 1 + fwd`, which equals the
source's `start2 + matchLen` because `start2 = ei2 - back` and
`matchLen = back + 1 + fwd`. -/
def findMatchesInner (h1 h2 : List Nat) (diff1 : diffInfo) (ei1 : Nat)
    (diff2 : diffInfo) (di2 : Nat) (ei2 : Nat) (mi : MatchInfo) (minMatchLen : Nat) :
    MatchInfo × Nat :=
  if _h : ei2 + minMatchLen ≤ diff2.len then
    if h1.getD (diff1.off + ei1) 0 ≠ h2.getD (diff2.off + ei2) 0 then
      findMatchesInner h1 h2 diff1 ei1 diff2 di2 (ei2 + 1) mi minMatchLen
    else
      let ml := (matchedSection diff2.info ei2).1
      if _hml : ml ≠ 0 then
        findMatchesInner h1 h2 diff1 ei1 diff2 di2 (ei2 + ml) mi minMatchLen
      else
        let ok := extOk h1 h2 diff1 diff2
        let back := extendBack ok ei1 ei2
        let fwd := extendFwd ok diff1.len diff2.len (ei1 + 1) (ei2 + 1)
        let start1 := ei1 - back
        let start2 := ei2 - back
        let matchLen := back + 1 + fwd
        if mi.sec.len > matchLen then
          findMatchesInner h1 h2 diff1 ei1 diff2 di2 (ei2 + 1) mi minMatchLen
        else
          let mi' :=
            if mi.sec.len < matchLen then
              { mi with sec := { off := start1, len := matchLen }, matchesIn2 := [] }
            else mi
          let minMatchLen' := if mi.sec.len < matchLen then matchLen else minMatchLen
          let mi'' := { mi' with matchesIn2 := mi'.matchesIn2 ++ [(di2, start2)] }
          findMatchesInner h1 h2 diff1 ei1 diff2 di2 (ei2 + 1 + fwd) mi'' minMatchLen'
  else (mi, minMatchLen)
termination_by diff2.len + 1 - ei2
decreasing_by all_goals omega

/-- The outer loop of `findMatches` over the block vector, visiting the
`DIFF_IN_2` blocks in order. -/
def findMatchesBlocks (h1 h2 : List Nat) (diff1 : diffInfo) (ei1 : Nat) :
    List (Nat × diffInfo) → MatchInfo → Nat → MatchInfo × Nat
  | [], mi, mml => (mi, mml)
  | (di2, diff2) :: rest, mi, mml =>
    if diff2.type = diff_type.DIFF_IN_2 then
      let r := findMatchesInner h1 h2 diff1 ei1 diff2 di2 0 mi mml
      findMatchesBlocks h1 h2 diff1 ei1 rest r.1 r.2
    else findMatchesBlocks h1 h2 diff1 ei1 rest mi mml

/-- Embedding of `findMatches`: scan every `DIFF_IN_2` block for the best runs
matching element `ei1` of `diff1`.  The source clears the caller's `mi`
(`sec.len`, both match lists) before the scan; the initial `sec.off` is never
read before being written, so the scan starts from the default `MatchInfo`. -/
def findMatches (blockDiffs : List diffInfo) (h1 h2 : List Nat)
    (diff1 : diffInfo) (ei1 : Nat) : MatchInfo :=
  (findMatchesBlocks h1 h2 diff1 ei1 blockDiffs.enum {} 1).1

/-- The mutable state of the best-match search of `findMoves`: the block
holding the current best match (`bestMatchDiff`, as an index), the element
index `ei` in it, and the best `MatchInfo`. -/
structure BestMatch where
  bestIdx : Nat
  ei : Nat
  mi : MatchInfo
deriving Repr, DecidableEq

/-- The `i` loop of `findBetterMatch` over block `diff` (index `di`).  The
index jump after an accepted candidate is written
`max (mi.sec.off + mi.sec.len) (i + 1)`: the candidate section returned by
`findMatches` for element `i` always contains `i`, so the `max` equals the
source's `i = mi.sec.off + mi.sec.len - 1; ++i` on every reachable input
while making the index progress structural. -/
def findBetterMatchLoop (blockDiffs : List diffInfo) (h1 h2 : List Nat)
    (di : Nat) (diff : diffInfo) (i : Nat) (st : BestMatch) : BestMatch :=
  if _h : i + st.mi.sec.len ≤ diff.len then
    let bestOff := (blockDiffs.getD st.bestIdx default).off
    if h1.getD (diff.off + i) 0 ≠ h1.getD (bestOff + st.ei) 0 then
      findBetterMatchLoop blockDiffs h1 h2 di diff (i + 1) st
    else
      let ml := (matchedSection diff.info i).1
      if _hml : ml ≠ 0 then
        findBetterMatchLoop blockDiffs h1 h2 di diff (i + ml) st
      else
        let mi := findMatches blockDiffs h1 h2 diff i
        if mi.sec.len = 0 then
          findBetterMatchLoop blockDiffs h1 h2 di diff (i + 1) st
        else if st.mi.sec.len < mi.sec.len then
          findBetterMatchLoop blockDiffs h1 h2 di diff
            (max (mi.sec.off + mi.sec.len) (i + 1)) { bestIdx := di, ei := i, mi := mi }
        else if st.mi.sec.len = mi.sec.len then
          let same := (List.range mi.sec.len).all (fun k =>
            h1.getD ((blockDiffs.getD st.bestIdx default).off + st.mi.sec.off + k) 0 ==
              h1.getD (diff.off + mi.sec.off + k) 0)
          if same then
            findBetterMatchLoop blockDiffs h1 h2 di diff
              (max (mi.sec.off + mi.sec.len) (i + 1))
              { st with mi :=
                  { st.mi with matchesIn1 := st.mi.matchesIn1 ++ [(di, mi.sec.off)] } }
          else
            findBetterMatchLoop blockDiffs h1 h2 di diff (i + 1) st
        else
          findBetterMatchLoop blockDiffs h1 h2 di diff (i + 1) st
  else st
termination_by diff.len + 1 - i
decreasing_by all_goals omega

/-- Embedding of `findBetterMatch` on block index `di`: scan for another
occurrence yielding an equal (alternate source) or longer (new best) match.
TheC++ pointer test `&diff == bestMatchDiff` is the index test
`di = st.bestIdx`. -/
def findBetterMatch (blockDiffs : List diffInfo) (h1 h2 : List Nat)
    (di : Nat) (st : BestMatch) : BestMatch :=
  match blockDiffs[di]? with
  | none => st
  | some diff =>
    let i0 := if di = st.bestIdx then st.mi.sec.off + st.mi.sec.len else 0
    findBetterMatchLoop blockDiffs h1 h2 di diff i0 st

/-- Append one `Match` entry to the info of block `idx`
(`info.matches.emplace_back(make_pair(section, isMoved))`). -/
def appendMatch (blockDiffs : List diffInfo) (idx : Nat) (sec : section_t)
    (isMoved : Bool) : List diffInfo :=
  match blockDiffs[idx]? with
  | none => blockDiffs
  | some bd =>
    blockDiffs.set idx
      { bd with info := { bd.info with matchList := bd.info.matchList ++ [(sec, isMoved)] } }

/-- The moved flag computed at commit time (Engine.cpp:458):
`(matchesIn1.size() + 1 == matchesIn2.size()) && !((sec.len == 1) && (matchesIn2.size() > 1))`. -/
def movedFlag (mi : MatchInfo) : Bool :=
  decide (mi.matchesIn1.length + 1 = mi.matchesIn2.length) &&
    !(decide (mi.sec.len = 1) && decide (mi.matchesIn2.length > 1))

/-- The commit step of `findMoves` (Engine.cpp:458-470): append the match
entry to the best block, then to every alternate doc-1 source block, then to
every doc-2 target block, all with the same moved flag. -/
def commitMove (blockDiffs : List diffInfo) (st : BestMatch) : List diffInfo :=
  let flag := movedFlag st.mi
  let bds1 := appendMatch blockDiffs st.bestIdx
    { off := st.mi.sec.off, len := st.mi.sec.len } flag
  let bds2 := st.mi.matchesIn1.foldl
    (fun acc m => appendMatch acc m.1 { off := m.2, len := st.mi.sec.len } flag) bds1
  st.mi.matchesIn2.foldl
    (fun acc m => appendMatch acc m.1 { off := m.2, len := st.mi.sec.len } flag) bds2

/-- Total length of all blocks (iteration bound for the `findMoves` inner
loop, see `findMovesInner`). -/
def totalLen (blockDiffs : List diffInfo) : Nat :=
  (blockDiffs.map (fun bd => bd.len)).sum

/-- The `ei1` loop of `findMoves` over the `DIFF_IN_1` block `di1`.  The
source re-examines the same element after a commit whose primary anchor was
elsewhere (`--ei1`), so plain structural recursion on `ei1` is unavailable;
`fuel` bounds the iteration count instead.  Every iteration either advances
`ei1` or commits a match, and every commit records at least one previously
unmatched doc-2 position, so the iteration count is at most
`(block length + 1) × (total doc-2 length + 1)`; `findMoves` passes fuel
above that bound, hence the fuel is never exhausted on real inputs. -/
def findMovesInner (h1 h2 : List Nat) (di1 : Nat) :
    Nat → Nat → List diffInfo → List diffInfo
  | 0, _, bds => bds
  | fuel + 1, ei1, bds =>
    match bds[di1]? with
    | none => bds
    | some diff1 =>
      if ei1 < diff1.len then
        let ml := (matchedSection diff1.info ei1).1
        if ml ≠ 0 then findMovesInner h1 h2 di1 fuel (ei1 + ml) bds
        else if h1.getD (diff1.off + ei1) 0 = cHashSeed then
          findMovesInner h1 h2 di1 fuel (ei1 + 1) bds
        else
          let best0 : BestMatch :=
            { bestIdx := di1, ei := ei1, mi := findMatches bds h1 h2 diff1 ei1 }
          if best0.mi.sec.len = 0 then findMovesInner h1 h2 di1 fuel (ei1 + 1) bds
          else
            let st1 := findBetterMatch bds h1 h2 di1 best0
            let st2 := (List.range (bds.length - (di1 + 1))).foldl
              (fun st k =>
                let di2 := di1 + 1 + k
                if (bds.getD di2 default).type = diff_type.DIFF_IN_1 then
                  findBetterMatch bds h1 h2 di2 st
                else st) st1
            let bds' := commitMove bds st2
            if st2.bestIdx = di1 ∧ st2.ei = ei1 then
              findMovesInner h1 h2 di1 fuel (st2.mi.sec.off + st2.mi.sec.len) bds'
            else
              findMovesInner h1 h2 di1 fuel ei1 bds'
      else bds

/-- Embedding of `findMoves`: for every `DIFF_IN_1` block, match its
uncovered non-blank elements against the `DIFF_IN_2` blocks and commit the
best runs. -/
def findMoves (blockDiffs : List diffInfo) (h1 h2 : List Nat) : List diffInfo :=
  (List.range blockDiffs.length).foldl
    (fun bds di1 =>
      if (bds.getD di1 default).type = diff_type.DIFF_IN_1 then
        findMovesInner h1 h2 di1
          ((totalLen bds + 1) * ((bds.getD di1 default).len + 1) + 1) 0 bds
      else bds)
    blockDiffs

/-! ### BlockPairComparer (`compareBlocks`, `compareLines`) -/

instance : Inhabited Word :=
  ⟨{ type := charType.OTHERCHAR, line := 0, pos := 0, length := 0, hash := 0 }⟩

/-- The type of the external word-level `DiffCalc` (diff.h is not among the
sources under verification): word sequences in, spans out. -/
def WordDiff := List Word → List Word → List Span

/-- `struct conv_key {convergence, line1, line2}`. -/
structure conv_key where
  convergence : Nat
  line1 : Nat
  line2 : Nat
deriving Repr, DecidableEq

/-- `conv_key::operator<`: convergence descending, then `line1` ascending,
then `line2` ascending. -/
def convLt (a b : conv_key) : Bool :=
  decide (a.convergence > b.convergence) ||
    (decide (a.convergence = b.convergence) &&
      (decide (a.line1 < b.line1) ||
        (decide (a.line1 = b.line1) && decide (a.line2 < b.line2))))

/-- Ordered insertion into the `std::set<conv_key>`: keep the list sorted by
`convLt`; an equivalent key (neither less than the other) is already present
and is not inserted again. -/
def setInsert (x : conv_key) : List conv_key → List conv_key
  | [] => [x]
  | y :: ys =>
    if convLt x y then x :: y :: ys
    else if convLt y x then y :: setInsert x ys
    else y :: ys

/-- Sum of the word lengths of a line
(`for (word : chunk[line]) lineLen += word.length`). -/
def lineByteLen (ws : List Word) : Nat := (ws.map (fun w => w.length)).sum

/-- The matched word count of a word diff: total length of its MATCH spans. -/
def diffMatchCount (spans : List Span) : Nat :=
  ((spans.filter (fun ld => ld.type = diff_type.DIFF_MATCH)).map (fun ld => ld.len)).sum

/-- The matched byte count of a word diff: for every MATCH span, the lengths
of the spanned words of the first (longer) line
(`for i < ld.len: linesLenConvergence += pLine1[ld.off + i].length`). -/
def diffMatchByteCount (pLine1 : List Word) (spans : List Span) : Nat :=
  ((spans.filter (fun ld => ld.type = diff_type.DIFF_MATCH)).map
    (fun ld => ((List.range ld.len).map (fun i => (pLine1.getD (ld.off + i) default).length)).sum)).sum

/-- The inner `line2` loop of the candidate collection in `compareBlocks`.
`line1Len` is the running denominator: the source declares `line1Len` outside
this loop and executes `if (line1Len < line2Len) line1Len = line2Len;` inside
it, so the enlarged value persists for the later `line2` iterations. -/
def collectLine2 (DW : WordDiff) (chunk1 chunk2 : List (List Word))
    (info2 : blockDiffInfo) (line1 : Nat) (line2 : Nat)
    (line1Len : Nat) (ocSet : List conv_key) : Nat × List conv_key :=
  if hlt : line2 < chunk2.length then
    let words2 := chunk2.getD line2 []
    if words2.isEmpty then
      collectLine2 DW chunk1 chunk2 info2 line1 (line2 + 1) line1Len ocSet
    else
      let ms := matchedSection info2 line2
      if hms : ms.1 ≠ 0 ∧ ms.2 then
        collectLine2 DW chunk1 chunk2 info2 line1 (line2 + ms.1) line1Len ocSet
      else
        let words1 := chunk1.getD line1 []
        let p := if words1.length < words2.length then (words2, words1) else (words1, words2)
        if p.1.length > 2 * p.2.length then
          collectLine2 DW chunk1 chunk2 info2 line1 (line2 + 1) line1Len ocSet
        else
          let linesDiff := DW p.1 p.2
          let line2Len := lineByteLen words2
          let len1 := if line1Len < line2Len then line2Len else line1Len
          let c1 := diffMatchCount linesDiff * 100 / p.1.length
          let c2 := diffMatchByteCount p.1 linesDiff * 100 / len1
          let conv := if c1 < c2 then c2 else c1
          let ocSet' := if conv ≥ 50 then setInsert ⟨conv, line1, line2⟩ ocSet else ocSet
          collectLine2 DW chunk1 chunk2 info2 line1 (line2 + 1) len1 ocSet'
  else (line1Len, ocSet)
termination_by chunk2.length - line2
decreasing_by
  all_goals simp_wf
  all_goals
    first
    | omega
    | (have h1 : (matchedSection info2 line2).1 ≠ 0 := hms.1
       omega)

/-- The outer `line1` loop of the candidate collection in `compareBlocks`:
skip empty lines and lines inside a moved matched section, and run the inner
loop with a fresh `line1Len`. -/
def collectLine1 (DW : WordDiff) (chunk1 chunk2 : List (List Word))
    (info1 info2 : blockDiffInfo) (line1 : Nat) (ocSet : List conv_key) :
    List conv_key :=
  if hlt : line1 < chunk1.length then
    let words1 := chunk1.getD line1 []
    if words1.isEmpty then
      collectLine1 DW chunk1 chunk2 info1 info2 (line1 + 1) ocSet
    else
      let ms := matchedSection info1 line1
      if hms : ms.1 ≠ 0 ∧ ms.2 then
        collectLine1 DW chunk1 chunk2 info1 info2 (line1 + ms.1) ocSet
      else
        let st := collectLine2 DW chunk1 chunk2 info2 line1 0 (lineByteLen words1) ocSet
        collectLine1 DW chunk1 chunk2 info1 info2 (line1 + 1) st.2
  else ocSet
termination_by chunk1.length - line1
decreasing_by
  all_goals simp_wf
  all_goals
    first
    | omega
    | (have h1 : (matchedSection info1 line1).1 ≠ 0 := hms.1
       omega)

/-- Insertion into the `std::map<int, std::pair<int, int>>` of accepted
mappings, keyed by `line1` (kept in ascending key order; `emplace` does not
overwrite an existing key — which cannot occur here because of the used-line
flags). -/
def mapInsert (k : Nat) (v : Nat × Nat) : List (Nat × Nat × Nat) → List (Nat × Nat × Nat)
  | [] => [(k, v)]
  | e :: es =>
    if k < e.1 then (k, v) :: e :: es
    else if e.1 = k then e :: es
    else e :: mapInsert k v es

/-- The greedy fill of one starting position of the mapping search: accept
triples in set order when neither line is used yet; stop as soon as either
side is fully mapped (the `++count == linesCount` break of the source). -/
def greedyFill (n1 n2 : Nat) :
    List conv_key → List Bool → List Bool → Nat → Nat → List (Nat × Nat × Nat) →
    List (Nat × Nat × Nat)
  | [], _, _, _, _, m => m
  | t :: rest, used1, used2, cnt1, cnt2, m =>
    if used1.getD t.line1 false = false ∧ used2.getD t.line2 false = false then
      let m' := mapInsert t.line1 (t.convergence, t.line2) m
      if cnt1 + 1 = n1 ∨ cnt2 + 1 = n2 then m'
      else
        greedyFill n1 n2 rest (used1.set t.line1 true) (used2.set t.line2 true)
          (cnt1 + 1) (cnt2 + 1) m'
    else greedyFill n1 n2 rest used1 used2 cnt1 cnt2 m

/-- The monotone-filtered score of one candidate mapping: iterate in
ascending `line1` and add the convergences of the entries whose `line2`
strictly increases (`lastLine2` starts at -1). -/
def monoScore (m : List (Nat × Nat × Nat)) : Nat :=
  (m.foldl
    (fun st e => if (e.2.2 : Int) > st.2 then (st.1 + e.2.1, (e.2.2 : Int)) else st)
    ((0 : Nat), (-1 : Int))).1

/-- The multi-start mapping search of `compareBlocks`: for every starting
position in the ordered candidate set, greedily fill a mapping and keep the
first one achieving the maximal monotone-filtered score (the
`bestBlockConvergence < currentBlockConvergence` strict-improvement test). -/
def searchBestMapping (n1 n2 : Nat) (oc : List conv_key) : List (Nat × Nat × Nat) :=
  (((List.range oc.length).map (fun s => oc.drop s)).foldl
    (fun best su =>
      let m := greedyFill n1 n2 su (List.replicate n1 false) (List.replicate n2 false) 0 0 []
      let c := monoScore m
      if best.1 < c then (c, m) else best)
    ((0 : Nat), ([] : List (Nat × Nat × Nat)))).2

/-- The byte range covered by one span of a word diff
(`change.off = firstWord.pos`,
`change.len = lastWord.pos + lastWord.length - change.off`). -/
def changeOfSpan (ws : List Word) (ld : Span) : section_t :=
  let firstW := ws.getD ld.off default
  let lastW := ws.getD (ld.off + ld.len - 1) default
  { off := firstW.pos, len := lastW.pos + lastW.length - firstW.pos }

/-- Append one changed-line record to a block's info. -/
def appendChangedLine (bd : diffInfo) (e : diffLine) : diffInfo :=
  { bd with info := { bd.info with changedLines := bd.info.changedLines ++ [e] } }

/-- The loop of `compareLines` over the accepted mapping (ascending `line1`):
entries whose `line2` does not strictly increase are skipped; for the rest the
word vectors are diffed (longer first, destination blocks swapped
accordingly) and, unless the diff is one single MATCH span, a changed-line
record is appended on each side. -/
def compareLinesLoop (DW : WordDiff) (chunk1 chunk2 : List (List Word)) :
    List (Nat × Nat × Nat) → Int → diffInfo × diffInfo → diffInfo × diffInfo
  | [], _, st => st
  | lm :: rest, lastLine2, (bd1, bd2) =>
    if (lm.2.2 : Int) ≤ lastLine2 then
      compareLinesLoop DW chunk1 chunk2 rest lastLine2 (bd1, bd2)
    else
      let line1 := lm.1
      let line2 := lm.2.2
      let l1 := chunk1.getD line1 []
      let l2 := chunk2.getD line2 []
      let swap := l1.length < l2.length
      let pLine1 := if swap then l2 else l1
      let pLine2 := if swap then l1 else l2
      let linesDiff := DW pLine1 pLine2
      if linesDiff.length = 1 ∧
          (linesDiff.getD 0 ⟨diff_type.DIFF_MATCH, 0, 0⟩).type = diff_type.DIFF_MATCH then
        compareLinesLoop DW chunk1 chunk2 rest (line2 : Int) (bd1, bd2)
      else
        let changes1 := (linesDiff.filter (fun ld => ld.type = diff_type.DIFF_IN_1)).map
          (changeOfSpan pLine1)
        let changes2 := (linesDiff.filter (fun ld => ld.type = diff_type.DIFF_IN_2)).map
          (changeOfSpan pLine2)
        let eA : diffLine := { line := if swap then line2 else line1, changes := changes1 }
        let eB : diffLine := { line := if swap then line1 else line2, changes := changes2 }
        let bd1' := if swap then appendChangedLine bd1 eB else appendChangedLine bd1 eA
        let bd2' := if swap then appendChangedLine bd2 eA else appendChangedLine bd2 eB
        compareLinesLoop DW chunk1 chunk2 rest (line2 : Int) (bd1', bd2')

/-- Embedding of `compareLines`. -/
def compareLines (DW : WordDiff) (bd1 bd2 : diffInfo)
    (chunk1 chunk2 : List (List Word)) (lineMappings : List (Nat × Nat × Nat)) :
    diffInfo × diffInfo :=
  compareLinesLoop DW chunk1 chunk2 lineMappings (-1) (bd1, bd2)

/-- Embedding of `compareBlocks`: tokenize both blocks, collect the ordered
candidate set, search the best mapping and, when it is non-empty, run
`compareLines` on it. -/
def compareBlocks (DW : WordDiff) (doc1 doc2 : List (List Nat))
    (settings : UserSettings) (bd1 bd2 : diffInfo) : diffInfo × diffInfo :=
  let chunk1 := getWords doc1 bd1.off bd1.len settings
  let chunk2 := getWords doc2 bd2.off bd2.len settings
  let oc := collectLine1 DW chunk1 chunk2 bd1.info bd2.info 0 []
  let best := searchBestMapping chunk1.length chunk2.length oc
  if best.isEmpty then (bd1, bd2)
  else compareLines DW bd1 bd2 chunk1 chunk2 best

/-! ### FindUnique map building -/

/-- `emplace` / `emplace_back` into the hash → line-indices map: create the
entry with `[i]` on first insertion, append `i` otherwise. -/
def addLineToMap (m : List (Nat × List Nat)) (h i : Nat) : List (Nat × List Nat) :=
  match m with
  | [] => [(h, [i])]
  | e :: es => if e.1 = h then (e.1, e.2 ++ [i]) :: es else e :: addLineToMap es h i

def uniqueLinesMapGo (hashes : List Nat) (i : Nat) (m : List (Nat × List Nat)) :
    List (Nat × List Nat) :=
  match hashes with
  | [] => m
  | h :: rest => uniqueLinesMapGo rest (i + 1) (addLineToMap m h i)

/-- The hash → line-indices map building of `runFindUnique`
(`for (i...) { emplace(hashes[i], {i}); if (!inserted) push_back(i); }`),
modelled as an association list in first-insertion order (the C++
`unordered_map` iteration order is unspecified; the map contents are
order-independent). -/
def uniqueLinesMap (hashes : List Nat) : List (Nat × List Nat) :=
  uniqueLinesMapGo hashes 0 []

/-! ### Executable DiffCalc model

Modelled from the spec: the external `DiffCalc` component lives in diff.h,
which is not among the sources under verification; the spec describes it as a
longest-common-subsequence engine producing MATCH / IN_1 / IN_2 spans whose
restrictions to either input reproduce that input.  The engine functions
above and below take the diff as an oracle parameter; the model here is a
simple executable LCS used to instantiate those oracles on concrete inputs. -/

def lcsList : List Nat → List Nat → List Nat
  | [], _ => []
  | _ :: _, [] => []
  | a :: as, b :: bs =>
    if a = b then a :: lcsList as bs
    else
      let r1 := lcsList (a :: as) bs
      let r2 := lcsList as (b :: bs)
      if r2.length > r1.length then r2 else r1
termination_by l1 l2 => l1.length + l2.length
decreasing_by all_goals (simp only [List.length_cons]; omega)

/-- Lay a common subsequence out as per-run spans (IN_1 gap, IN_2 gap, MATCH
element) with offsets in the respective inputs. -/
def emitSpans : List Nat → List Nat → List Nat → Nat → Nat → List Span
  | as, bs, [], ia, ib =>
    (if as.isEmpty then [] else [⟨diff_type.DIFF_IN_1, ia, as.length⟩]) ++
      (if bs.isEmpty then [] else [⟨diff_type.DIFF_IN_2, ib, bs.length⟩])
  | as, bs, c :: cs, ia, ib =>
    let skipA := as.takeWhile (fun x => decide (x ≠ c))
    let skipB := bs.takeWhile (fun x => decide (x ≠ c))
    let restA := (as.dropWhile (fun x => decide (x ≠ c))).drop 1
    let restB := (bs.dropWhile (fun x => decide (x ≠ c))).drop 1
    (if skipA.isEmpty then [] else [⟨diff_type.DIFF_IN_1, ia, skipA.length⟩]) ++
      (if skipB.isEmpty then [] else [⟨diff_type.DIFF_IN_2, ib, skipB.length⟩]) ++
      (⟨diff_type.DIFF_MATCH, ia + skipA.length, 1⟩ ::
        emitSpans restA restB cs (ia + skipA.length + 1) (ib + skipB.length + 1))

/-- Merge consecutive spans of equal kind. -/
def mergeSpans : List Span → List Span
  | [] => []
  | s :: rest =>
    match mergeSpans rest with
    | [] => [s]
    | t :: ts => if s.type = t.type then { s with len := s.len + t.len } :: ts else s :: t :: ts

/-- The executable diff model on hash sequences. -/
def diffModel (h1 h2 : List Nat) : List Span :=
  mergeSpans (emitSpans h1 h2 (lcsList h1 h2) 0 0)

/-- The executable word-diff model: `Word` equality is hash equality. -/
def wordDiffModel (ws1 ws2 : List Word) : List Span :=
  diffModel (ws1.map (fun w => w.hash)) (ws2.map (fun w => w.hash))

/-! ### Collaborator world state -/

/-- One Scintilla document together with its modify flag
(`SCI_GETMODIFY` / `SCI_SETSAVEPOINT`). -/
structure Doc where
  lines : List (List Nat)
  modified : Bool
deriving Repr, DecidableEq

/-- The collaborator state the engine can observe and mutate: both documents,
the markers and changed-text ranges painted so far. -/
structure World where
  main : Doc
  sub : Doc
  markers : List (Nat × Nat × Nat)
  changedRanges : List (Nat × Nat × Nat)
deriving Repr, DecidableEq

def getDoc (w : World) (view : Nat) : Doc :=
  if view = MAIN_VIEW then w.main else w.sub

def setDoc (w : World) (view : Nat) (d : Doc) : World :=
  if view = MAIN_VIEW then { w with main := d } else { w with sub := d }

/-- `SCI_MARKERADDSET(line, mask)` on a view. -/
def markerAdd (w : World) (view line mask : Nat) : World :=
  { w with markers := w.markers ++ [(view, line, mask)] }

/-- `markTextAsChanged(view, pos, len)`. -/
def markTextAsChanged (w : World) (view pos len : Nat) : World :=
  { w with changedRanges := w.changedRanges ++ [(view, pos, len)] }

/-- `SCI_INSERTTEXT` at position 0 with text `"\n"`: a new empty first line;
the document becomes modified. -/
def insertLeadingNewline (w : World) (view : Nat) : World :=
  let d := getDoc w view
  setDoc w view { lines := [] :: d.lines, modified := true }

/-- `SCI_SETSAVEPOINT`: the document reads unmodified again. -/
def setSavePoint (w : World) (view : Nat) : World :=
  let d := getDoc w view
  setDoc w view { d with modified := false }

/-- `SCI_POSITIONFROMLINE`: byte offset of the start of a line (one
end-of-line byte after every earlier line). -/
def sciPositionFromLine (doc : List (List Nat)) (line : Nat) : Nat :=
  ((doc.take line).map (fun l => l.length + 1)).sum

/-! The marker masks come from the host header (not among the sources); they
are opaque to the engine and modelled as distinct naturals. -/

def MARKER_MASK_ADDED : Nat := 1
def MARKER_MASK_REMOVED : Nat := 2
def MARKER_MASK_ADDED_LOCAL : Nat := 3
def MARKER_MASK_REMOVED_LOCAL : Nat := 4
def MARKER_MASK_MOVED_LINE : Nat := 5
def MARKER_MASK_MOVED_BEGIN : Nat := 6
def MARKER_MASK_MOVED_MID : Nat := 7
def MARKER_MASK_MOVED_END : Nat := 8
def MARKER_MASK_CHANGED : Nat := 9

/-! ### Marker emission (`markSection`, `markLineDiffs`, `markAllDiffs`) -/

/-- The matched-section length used by `markSection`, clamped to the painted
section length (`if (matchedLen > doc.section.len) matchedLen = doc.section.len`). -/
def clampedMatchLen (bd : diffInfo) (secLen i : Nat) : Nat :=
  let ml := (matchedSection bd.info i).1
  if ml > secLen then secLen else ml

/-- The loop of `markSection` (`for (i = off, line = bd.off + off; i < endOff; ...)`). -/
def markSectionLoop (bd : diffInfo) (doc : DocCmpInfo) (endOff : Nat)
    (i line : Nat) (w : World) : World :=
  if _h : i < endOff then
    let matchedLen := clampedMatchLen bd doc.sec.len i
    let isMoved := (matchedSection bd.info i).2
    if hz : clampedMatchLen bd doc.sec.len i = 0 then
      markSectionLoop bd doc endOff (i + 1) (line + 1)
        (markerAdd w doc.view line doc.blockDiffMask)
    else if !isMoved then
      let mark :=
        if doc.blockDiffMask = MARKER_MASK_ADDED then MARKER_MASK_ADDED_LOCAL
        else MARKER_MASK_REMOVED_LOCAL
      let w' := (List.range matchedLen).foldl
        (fun acc j => markerAdd acc doc.view (line + j) mark) w
      markSectionLoop bd doc endOff (i + clampedMatchLen bd doc.sec.len i)
        (line + matchedLen) w'
    else if matchedLen = 1 then
      markSectionLoop bd doc endOff (i + 1) (line + 1)
        (markerAdd w doc.view line MARKER_MASK_MOVED_LINE)
    else
      let w1 := markerAdd w doc.view line MARKER_MASK_MOVED_BEGIN
      let w2 := (List.range (matchedLen - 2)).foldl
        (fun acc j => markerAdd acc doc.view (line + 1 + j) MARKER_MASK_MOVED_MID) w1
      let w3 := markerAdd w2 doc.view (line + matchedLen - 1) MARKER_MASK_MOVED_END
      markSectionLoop bd doc endOff (i + clampedMatchLen bd doc.sec.len i)
        (line + matchedLen) w3
  else w
termination_by endOff - i
decreasing_by all_goals (simp_wf; omega)

/-- Embedding of `markSection`. -/
def markSection (bd : diffInfo) (doc : DocCmpInfo) (w : World) : World :=
  markSectionLoop bd doc (doc.sec.off + doc.sec.len) doc.sec.off (bd.off + doc.sec.off) w

/-- Embedding of `markLineDiffs`: paint the changed byte ranges and the
CHANGED marker, on the block's line and on the partner block's line. -/
def markLineDiffs (w : World) (blockDiffs : List diffInfo) (view1 view2 : Nat)
    (bd : diffInfo) (lineIdx : Nat) : World :=
  let cl := bd.info.changedLines.getD lineIdx { line := 0 }
  let line := bd.off + cl.line
  let linePos := sciPositionFromLine (getDoc w view1).lines line
  let w1 := cl.changes.foldl
    (fun acc ch => markTextAsChanged acc view1 (linePos + ch.off) ch.len) w
  let w2 := markerAdd w1 view1 line MARKER_MASK_CHANGED
  let mb := blockDiffs.getD (bd.info.matchBlock.getD blockDiffs.length) default
  let cl2 := mb.info.changedLines.getD lineIdx { line := 0 }
  let line2 := mb.off + cl2.line
  let linePos2 := sciPositionFromLine (getDoc w view2).lines line2
  let w3 := cl2.changes.foldl
    (fun acc ch => markTextAsChanged acc view2 (linePos2 + ch.off) ch.len) w2
  markerAdd w3 view2 line2 MARKER_MASK_CHANGED

/-- `AlignmentViewData {line, diffMask}`. -/
structure AlignmentViewData where
  line : Nat := 0
  diffMask : Nat := 0
deriving Repr, DecidableEq

/-- `AlignmentPair {main, sub}`. -/
structure AlignmentPair where
  main : AlignmentViewData := {}
  sub : AlignmentViewData := {}
deriving Repr, DecidableEq

/-- The mutable state of the `markAllDiffs` walk: the collaborator world, the
progress tick, the two document cursors (the source reuses
`cmpInfo.doc1/doc2.section` as scratch cursors), the two alignment view
records (`a1` belongs to doc1 — the source's `pMainAlignData` after the
possible swap) and the alignment rows produced so far. -/
structure MarkWalkState where
  w : World
  tick : Nat
  d1 : DocCmpInfo
  d2 : DocCmpInfo
  a1 : AlignmentViewData
  a2 : AlignmentViewData
  align : List AlignmentPair

/-- Push the current alignment pair; `swapped` tells whether doc1 lives in the
sub view, in which case `a1` is the `sub` side of the row
(`if (cmpInfo.doc1.view == SUB_VIEW) std::swap(pMainAlignData, pSubAlignData)`). -/
def pushAlign (swapped : Bool) (st : MarkWalkState) : MarkWalkState :=
  let pair : AlignmentPair :=
    if swapped then { main := st.a2, sub := st.a1 } else { main := st.a1, sub := st.a2 }
  { st with align := st.align ++ [pair] }

/-- The changed-lines sub-walk of `markAllDiffs` for a paired block `bd` with
partner `mb` (`for (int j = 0; j < changedLinesCount; ++j)`). -/
def markPairedChanged (blockDiffs : List diffInfo) (bd mb : diffInfo) (swapped : Bool)
    (j : Nat) (st : MarkWalkState) : MarkWalkState :=
  if _h : j < bd.info.changedLines.length then
    let cl1 := bd.info.changedLines.getD j { line := 0 }
    let cl2 := mb.info.changedLines.getD j { line := 0 }
    let len1 := cl1.line - st.d1.sec.off
    let len2 := cl2.line - st.d2.sec.off
    let st := { st with
      d1 := { st.d1 with sec := { st.d1.sec with len := len1 } },
      d2 := { st.d2 with sec := { st.d2.sec with len := len2 } } }
    let st :=
      if len1 ≠ 0 ∨ len2 ≠ 0 then
        let st := { st with
          a1 := { st.a1 with diffMask := st.d1.blockDiffMask },
          a2 := { st.a2 with diffMask := st.d2.blockDiffMask } }
        let st := pushAlign swapped st
        let st :=
          if len1 ≠ 0 then
            { st with w := markSection bd st.d1 st.w,
                      a1 := { st.a1 with line := st.a1.line + len1 } }
          else st
        let st :=
          if len2 ≠ 0 then
            { st with w := markSection mb st.d2 st.w,
                      a2 := { st.a2 with line := st.a2.line + len2 } }
          else st
        st
      else st
    let st := { st with
      a1 := { st.a1 with diffMask := MARKER_MASK_CHANGED },
      a2 := { st.a2 with diffMask := MARKER_MASK_CHANGED } }
    let st := pushAlign swapped st
    let st := { st with w := markLineDiffs st.w blockDiffs st.d1.view st.d2.view bd j }
    let st := { st with
      d1 := { st.d1 with sec := { st.d1.sec with off := cl1.line + 1 } },
      d2 := { st.d2 with sec := { st.d2.sec with off := cl2.line + 1 } },
      a1 := { st.a1 with line := st.a1.line + 1 },
      a2 := { st.a2 with line := st.a2.line + 1 } }
    markPairedChanged blockDiffs bd mb swapped (j + 1) st
  else st
termination_by bd.info.changedLines.length - j

/-- One `DIFF_MATCH` step of the `markAllDiffs` walk. -/
def markWalkMatch (swapped : Bool) (bd : diffInfo) (st : MarkWalkState) : MarkWalkState :=
  let st := { st with
    a1 := { st.a1 with diffMask := 0 },
    a2 := { st.a2 with diffMask := 0 } }
  let st := pushAlign swapped st
  { st with
    a1 := { st.a1 with line := st.a1.line + bd.len },
    a2 := { st.a2 with line := st.a2.line + bd.len } }

/-- One `DIFF_IN_2` step of the `markAllDiffs` walk. -/
def markWalkIn2 (swapped : Bool) (bd : diffInfo) (st : MarkWalkState) : MarkWalkState :=
  let st := { st with d2 := { st.d2 with sec := { off := 0, len := bd.len } } }
  let st := { st with w := markSection bd st.d2 st.w }
  let st := { st with
    a1 := { st.a1 with diffMask := 0 },
    a2 := { st.a2 with diffMask := st.d2.blockDiffMask } }
  let st := pushAlign swapped st
  { st with a2 := { st.a2 with line := st.a2.line + bd.len } }

/-- One unpaired `DIFF_IN_1` step of the `markAllDiffs` walk. -/
def markWalkIn1Alone (swapped : Bool) (bd : diffInfo) (st : MarkWalkState) : MarkWalkState :=
  let st := { st with d1 := { st.d1 with sec := { off := 0, len := bd.len } } }
  let st := { st with w := markSection bd st.d1 st.w }
  let st := { st with
    a1 := { st.a1 with diffMask := st.d1.blockDiffMask },
    a2 := { st.a2 with diffMask := 0 } }
  let st := pushAlign swapped st
  { st with a1 := { st.a1 with line := st.a1.line + bd.len } }

/-- One paired `DIFF_IN_1` step of the `markAllDiffs` walk: the changed-lines
sub-walk followed by the trailing unpaired sections. -/
def markWalkIn1Paired (blockDiffs : List diffInfo) (swapped : Bool) (bd mb : diffInfo)
    (st : MarkWalkState) : MarkWalkState :=
  let st := { st with
    d1 := { st.d1 with sec := { st.d1.sec with off := 0 } },
    d2 := { st.d2 with sec := { st.d2.sec with off := 0 } } }
  let st := markPairedChanged blockDiffs bd mb swapped 0 st
  let len1 := bd.len - st.d1.sec.off
  let len2 := mb.len - st.d2.sec.off
  let st := { st with
    d1 := { st.d1 with sec := { st.d1.sec with len := len1 } },
    d2 := { st.d2 with sec := { st.d2.sec with len := len2 } } }
  if len1 ≠ 0 ∨ len2 ≠ 0 then
    let st := { st with
      a1 := { st.a1 with diffMask := st.d1.blockDiffMask },
      a2 := { st.a2 with diffMask := st.d2.blockDiffMask } }
    let st := pushAlign swapped st
    let st :=
      if len1 ≠ 0 then
        { st with w := markSection bd st.d1 st.w,
                  a1 := { st.a1 with line := st.a1.line + len1 } }
      else st
    if len2 ≠ 0 then
      { st with w := markSection mb st.d2 st.w,
                a2 := { st.a2 with line := st.a2.line + len2 } }
    else st
  else st

/-- The block walk of `markAllDiffs` (`for (int i = 0; i < blockDiffSize; ++i)`),
with one `Advance` cancellation check per iteration; a paired `DIFF_IN_1`
consumes its partner too (`++i`). -/
def markAllDiffsLoop (p : Progress) (blockDiffs : List diffInfo)
    (swapped : Bool) (i : Nat) (st : MarkWalkState) : Bool × MarkWalkState :=
  if _h : i < blockDiffs.length then
    let bd := blockDiffs.getD i default
    let step : MarkWalkState × Nat :=
      match bd.type with
      | diff_type.DIFF_MATCH => (markWalkMatch swapped bd st, i + 1)
      | diff_type.DIFF_IN_2 => (markWalkIn2 swapped bd st, i + 1)
      | diff_type.DIFF_IN_1 =>
        match bd.info.matchBlock with
        | some mbi =>
          let mb := blockDiffs.getD mbi default
          (markWalkIn1Paired blockDiffs swapped bd mb st, i + 2)
        | none => (markWalkIn1Alone swapped bd st, i + 1)
    let pr := progressStep p step.1.tick
    let st' := { step.1 with tick := pr.2 }
    if pr.1 then markAllDiffsLoop p blockDiffs swapped step.2 st'
    else (false, st')
  else (true, st)
termination_by blockDiffs.length - i
decreasing_by
  all_goals simp_wf
  all_goals (repeat' split)
  all_goals omega

/-- Embedding of `markAllDiffs`: returns the success flag (false =
cancelled), the final world, progress tick, alignment rows and document
cursors. -/
def markAllDiffs (p : Progress) (w : World) (tick : Nat) (blockDiffs : List diffInfo)
    (doc1 doc2 : DocCmpInfo) (selectionCompare : Bool) :
    Bool × MarkWalkState :=
  let swapped := doc1.view = SUB_VIEW
  let st0 : MarkWalkState :=
    { w := w, tick := tick, d1 := doc1, d2 := doc2,
      a1 := { line := doc1.sec.off, diffMask := 0 },
      a2 := { line := doc2.sec.off, diffMask := 0 },
      align := [] }
  let r := markAllDiffsLoop p blockDiffs swapped 0 st0
  if !r.1 then (false, r.2)
  else
    let st := r.2
    let st :=
      if selectionCompare then
        pushAlign swapped
          { st with a1 := { st.a1 with diffMask := 0 }, a2 := { st.a2 with diffMask := 0 } }
      else st
    let pr := progressStep p st.tick
    (pr.1, { st with tick := pr.2 })

/-! ### Orchestrator (`runCompare`, `runFindUnique`, `compareViews`) -/

/-- `enum class CompareResult`. -/
inductive CompareResult where
  | COMPARE_MATCH
  | COMPARE_MISMATCH
  | COMPARE_CANCELLED
  | COMPARE_ERROR
deriving DecidableEq, Repr

/-- The output of `runCompare`: the result, the final collaborator world and
progress tick, the alignment rows, and (for inspection) the final block
vector and document infos. -/
structure CompareOut where
  result : CompareResult
  w : World
  tick : Nat
  align : List AlignmentPair
  blocks : List diffInfo
  doc1 : DocCmpInfo
  doc2 : DocCmpInfo

/-- The `i` loop of `runCompare` doing the block compares: wire each
`DIFF_IN_1 / DIFF_IN_2` pair and run `compareBlocks` on it, with one
`Advance` cancellation check per block. -/
def blockComparesLoop (p : Progress) (DW : WordDiff) (w : World)
    (doc1 doc2 : DocCmpInfo) (settings : UserSettings) (i tick : Nat)
    (bds : List diffInfo) : Bool × List diffInfo × Nat :=
  if _h : i < bds.length then
    let bds' :=
      if (bds.getD i default).type = diff_type.DIFF_IN_2 ∧ i ≠ 0 ∧
          (bds.getD (i - 1) default).type = diff_type.DIFF_IN_1 then
        let bd1 := bds.getD (i - 1) default
        let bd2 := bds.getD i default
        let bd1 := { bd1 with info := { bd1.info with matchBlock := some i } }
        let bd2 := { bd2 with info := { bd2.info with matchBlock := some (i - 1) } }
        let r := compareBlocks DW (getDoc w doc1.view).lines (getDoc w doc2.view).lines
          settings bd1 bd2
        (bds.set (i - 1) r.1).set i r.2
      else bds
    let pr := progressStep p tick
    if pr.1 then blockComparesLoop p DW w doc1 doc2 settings (i + 1) pr.2 bds'
    else (false, bds', pr.2)
  else (true, bds, tick)
termination_by bds.length - i
decreasing_by
  all_goals simp_wf
  all_goals split
  all_goals (try simp only [List.length_set])
  all_goals omega

/-- The tail of `runCompare` from the point where both hash sequences are
known (factored out so the shared values stay bound variables). -/
def runCompareAfterHashes (p : Progress) (D : List Nat → List Nat → List Span)
    (DW : WordDiff) (w : World) (selectionCompare : Bool) (h1 h2 : List Nat)
    (doc1_1 doc2_1 : DocCmpInfo) (settings : UserSettings) (tick : Nat) : CompareOut :=
  let swapped := h1.length < h2.length
  let ph1 := if swapped then h2 else h1
  let ph2 := if swapped then h1 else h2
  let d1 := if swapped then doc2_1 else doc1_1
  let d2 := if swapped then doc1_1 else doc2_1
  let blockDiffs0 := (D ph1 ph2).map spanToDiffInfo
  if blockDiffs0.length = 1 ∧ (blockDiffs0.getD 0 default).type = diff_type.DIFF_MATCH then
    { result := CompareResult.COMPARE_MATCH, w := w, tick := tick, align := [],
      blocks := blockDiffs0, doc1 := d1, doc2 := d2 }
  else
    let blockDiffs1 :=
      if settings.DetectMoves then findMoves blockDiffs0 ph1 ph2 else blockDiffs0
    -- Leading-annotation workaround: the block vector is never empty here
    -- on real inputs (the C++ reads blockDiffs[0] unconditionally); for an
    -- empty vector the model takes the MATCH default, skipping the insert.
    let needNewline :=
      (blockDiffs1.getD 0 default).type ≠ diff_type.DIFF_MATCH ∧
        (d1.sec.off = 0 ∨ d2.sec.off = 0)
    let doc1Modified := (getDoc w d1.view).modified
    let doc2Modified := (getDoc w d2.view).modified
    let w1 :=
      if needNewline then
        let wA := insertLeadingNewline w d1.view
        let wB := if !doc1Modified then setSavePoint wA d1.view else wA
        let wC := insertLeadingNewline wB d2.view
        if !doc2Modified then setSavePoint wC d2.view else wC
      else w
    let d1a :=
      if needNewline then { d1 with sec := { d1.sec with off := d1.sec.off + 1 } } else d1
    let d2a :=
      if needNewline then { d2 with sec := { d2.sec with off := d2.sec.off + 1 } } else d2
    let blockDiffs2 :=
      if d1a.sec.off ≠ 0 ∨ d2a.sec.off ≠ 0 then
        blockDiffs1.map (fun bd =>
          if bd.type = diff_type.DIFF_IN_1 ∨ bd.type = diff_type.DIFF_MATCH then
            { bd with off := bd.off + d1a.sec.off }
          else { bd with off := bd.off + d2a.sec.off })
      else blockDiffs1
    let pr3 := progressStep p tick
    if !pr3.1 then
      { result := CompareResult.COMPARE_CANCELLED, w := w1, tick := pr3.2, align := [],
        blocks := blockDiffs2, doc1 := d1a, doc2 := d2a }
    else
      let bc := blockComparesLoop p DW w1 d1a d2a settings 0 pr3.2 blockDiffs2
      if !bc.1 then
        { result := CompareResult.COMPARE_CANCELLED, w := w1, tick := bc.2.2, align := [],
          blocks := bc.2.1, doc1 := d1a, doc2 := d2a }
      else
        let pr4 := progressStep p bc.2.2
        if !pr4.1 then
          { result := CompareResult.COMPARE_CANCELLED, w := w1, tick := pr4.2, align := [],
            blocks := bc.2.1, doc1 := d1a, doc2 := d2a }
        else
          let mk := markAllDiffs p w1 pr4.2 bc.2.1 d1a d2a selectionCompare
          if !mk.1 then
            { result := CompareResult.COMPARE_CANCELLED, w := mk.2.w, tick := mk.2.tick,
              align := mk.2.align, blocks := bc.2.1, doc1 := mk.2.d1, doc2 := mk.2.d2 }
          else
            { result := CompareResult.COMPARE_MISMATCH, w := mk.2.w, tick := mk.2.tick,
              align := mk.2.align, blocks := bc.2.1, doc1 := mk.2.d1, doc2 := mk.2.d2 }

/-- Embedding of `runCompare`.  `D` is the line-level `DiffCalc` oracle and
`DW` the word-level one (diff.h is not among the sources). -/
def runCompare (p : Progress) (D : List Nat → List Nat → List Span) (DW : WordDiff)
    (w : World) (mainViewSection subViewSection : section_t)
    (settings : UserSettings) : CompareOut :=
  let doc1_0 : DocCmpInfo :=
    { view := MAIN_VIEW, sec := mainViewSection,
      blockDiffMask :=
        if settings.OldFileViewId = MAIN_VIEW then MARKER_MASK_REMOVED else MARKER_MASK_ADDED }
  let doc2_0 : DocCmpInfo :=
    { view := SUB_VIEW, sec := subViewSection,
      blockDiffMask :=
        if settings.OldFileViewId = MAIN_VIEW then MARKER_MASK_ADDED else MARKER_MASK_REMOVED }
  let selectionCompare := mainViewSection.len ≠ 0 ∨ subViewSection.len ≠ 0
  let r1 := computeLineHashes p (getDoc w doc1_0.view).lines doc1_0 settings 0
  let h1 := r1.1
  let doc1_1 := r1.2.1
  let pr1 := progressStep p r1.2.2
  if !pr1.1 then
    { result := CompareResult.COMPARE_CANCELLED, w := w, tick := pr1.2, align := [],
      blocks := [], doc1 := doc1_1, doc2 := doc2_0 }
  else
    let r2 := computeLineHashes p (getDoc w doc2_0.view).lines doc2_0 settings pr1.2
    let h2 := r2.1
    let doc2_1 := r2.2.1
    let pr2 := progressStep p r2.2.2
    if !pr2.1 then
      { result := CompareResult.COMPARE_CANCELLED, w := w, tick := pr2.2, align := [],
        blocks := [], doc1 := doc1_1, doc2 := doc2_1 }
    else
      runCompareAfterHashes p D DW w
        (decide selectionCompare) h1 h2 doc1_1 doc2_1 settings pr2.2

/-- Paint the markers for one group of unique lines
(`CallScintilla(view, SCI_MARKERADDSET, line + section.off, mask)`). -/
def markUniqueLines (w : World) (view offAdj mask : Nat) (lines : List Nat) : World :=
  lines.foldl (fun acc ln => markerAdd acc view (ln + offAdj) mask) w

/-- Embedding of `runFindUnique`.  The `unordered_map` iteration order is
unspecified in C++; the model iterates in first-insertion order (the set of
painted lines and the result are iteration-order independent). -/
def runFindUnique (p : Progress) (w : World)
    (mainViewSection subViewSection : section_t) (settings : UserSettings) :
    CompareResult × World × Nat × List AlignmentPair :=
  let doc1_0 : DocCmpInfo :=
    { view := MAIN_VIEW, sec := mainViewSection,
      blockDiffMask :=
        if settings.OldFileViewId = MAIN_VIEW then MARKER_MASK_REMOVED else MARKER_MASK_ADDED }
  let doc2_0 : DocCmpInfo :=
    { view := SUB_VIEW, sec := subViewSection,
      blockDiffMask :=
        if settings.OldFileViewId = MAIN_VIEW then MARKER_MASK_ADDED else MARKER_MASK_REMOVED }
  let r1 := computeLineHashes p (getDoc w doc1_0.view).lines doc1_0 settings 0
  let doc1 := r1.2.1
  let pr1 := progressStep p r1.2.2
  if !pr1.1 then (CompareResult.COMPARE_CANCELLED, w, pr1.2, [])
  else
    let r2 := computeLineHashes p (getDoc w doc2_0.view).lines doc2_0 settings pr1.2
    let doc2 := r2.2.1
    let pr2 := progressStep p r2.2.2
    if !pr2.1 then (CompareResult.COMPARE_CANCELLED, w, pr2.2, [])
    else
      let doc1UniqueLines := uniqueLinesMap r1.1
      let pr3 := progressStep p pr2.2
      if !pr3.1 then (CompareResult.COMPARE_CANCELLED, w, pr3.2, [])
      else
        let doc2UniqueLines := uniqueLinesMap r2.1
        let pr4 := progressStep p pr3.2
        if !pr4.1 then (CompareResult.COMPARE_CANCELLED, w, pr4.2, [])
        else
          let res := doc1UniqueLines.foldl
            (fun (st : World × List (Nat × List Nat) × Nat) e =>
              match st.2.1.find? (fun e2 => e2.1 == e.1) with
              | some _ => (st.1, st.2.1.filter (fun e2 => !(e2.1 == e.1)), st.2.2)
              | none =>
                (markUniqueLines st.1 doc1.view doc1.sec.off doc1.blockDiffMask e.2,
                  st.2.1, st.2.2 + e.2.length))
            (w, doc2UniqueLines, 0)
          if res.2.2 = 0 ∧ res.2.1.isEmpty then
            (CompareResult.COMPARE_MATCH, res.1, pr4.2, [])
          else
            let w2 := res.2.1.foldl
              (fun acc e => markUniqueLines acc doc2.view doc2.sec.off doc2.blockDiffMask e.2)
              res.1
            let align : AlignmentPair :=
              { main := { line := mainViewSection.off, diffMask := 0 },
                sub := { line := subViewSection.off, diffMask := 0 } }
            (CompareResult.COMPARE_MISMATCH, w2, pr4.2, [align])

/-- An opaque exception raised by a collaborator call or an internal
invariant during a compare. -/
inductive EngineExc where
  | exc
deriving DecidableEq, Repr

/-- The `try`/`catch` structure of `compareViews`, generic in the outcome of
the guarded body (in the real code the body may raise through collaborator
calls).  `result` is initialized to `COMPARE_ERROR` and the dialog is opened
when `progressInfo` is non-null; on a normal outcome the result is the body's
and the dialog is closed; on an exception the dialog is closed, a message box
is shown, and the initial `COMPARE_ERROR` is returned.  The returned booleans
are (dialog open at exit, message box shown). -/
def compareViewsCatch (progressInfo : Bool)
    (body : Except EngineExc CompareResult) : CompareResult × Bool × Bool :=
  let result0 := CompareResult.COMPARE_ERROR
  let _dialogOpenAtEntry := progressInfo
  match body with
  | Except.ok r => (r, false, false)
  | Except.error _ => (result0, false, true)

/-- Embedding of `compareViews`: dispatch on the mode and run the body under
the catch structure (the embedded bodies are total, so the normal outcome is
always taken; `compareViewsCatch` carries the exception behavior). -/
def compareViews (p : Progress) (D : List Nat → List Nat → List Span) (DW : WordDiff)
    (w : World) (mainViewSection subViewSection : section_t) (findUniqueMode : Bool)
    (settings : UserSettings) (progressInfo : Bool) : CompareResult × Bool × Bool :=
  compareViewsCatch progressInfo
    (Except.ok
      (if findUniqueMode then (runFindUnique p w mainViewSection subViewSection settings).1
       else (runCompare p D DW w mainViewSection subViewSection settings).result))

/-- The clamped section `computeLineHashes` works on. -/
def secOf (doc : List (List Nat)) (docInfo : DocCmpInfo) : section_t :=
  clampSection docInfo.sec (sciLineCountFor doc)

/-- The untrimmed hash sequence of the clamped section. -/
def rawOf (doc : List (List Nat)) (docInfo : DocCmpInfo) (settings : UserSettings) :
    List Nat :=
  rawLineHashes doc (secOf doc docInfo).off (secOf doc docInfo).len settings

/-- Spec-side view of the hash map: the positions (starting at `i`) at which
hash `h` occurs in the hash sequence, in ascending order. -/
def hashOccs : List Nat → Nat → Nat → List Nat
  | [], _, _ => []
  | x :: r, i, h => (if x = h then [i] else []) ++ hashOccs r (i + 1) h

/-- Lookup in the association-list model of the hash map. -/
def mapFind : List (Nat × List Nat) → Nat → Option (List Nat)
  | [], _ => none
  | e :: es, h => if e.1 = h then some e.2 else mapFind es h

/-- Spec-side view of the monotone filter of `compareLines`: the mapping
entries whose `line2` strictly exceeds every earlier retained `line2`
(`lastLine2` threading). -/
def retainPairs (lms : List (Nat × Nat × Nat)) (last : Int) : List (Nat × Nat × Nat) :=
  match lms with
  | [] => []
  | lm :: rest =>
    if (lm.2.2 : Int) ≤ last then retainPairs rest last
    else lm :: retainPairs rest (lm.2.2 : Int)

/-- Spec-side view of one `compareLines` pair: `none` when the word diff is a
single MATCH span, otherwise the two changed-line records — the first always
destined for block 1 (carrying `line1`), the second for block 2 (carrying
`line2`), regardless of the internal swap. -/
def pairEmits (DW : WordDiff) (chunk1 chunk2 : List (List Word))
    (lm : Nat × Nat × Nat) : Option (diffLine × diffLine) :=
  let l1 := chunk1.getD lm.1 []
  let l2 := chunk2.getD lm.2.2 []
  let swap := l1.length < l2.length
  let pLine1 := if swap then l2 else l1
  let pLine2 := if swap then l1 else l2
  let linesDiff := DW pLine1 pLine2
  if linesDiff.length = 1 ∧
      (linesDiff.getD 0 ⟨diff_type.DIFF_MATCH, 0, 0⟩).type = diff_type.DIFF_MATCH then
    none
  else
    let changes1 := (linesDiff.filter (fun ld => ld.type = diff_type.DIFF_IN_1)).map
      (changeOfSpan pLine1)
    let changes2 := (linesDiff.filter (fun ld => ld.type = diff_type.DIFF_IN_2)).map
      (changeOfSpan pLine2)
    if swap then
      some ({ line := lm.1, changes := changes2 }, { line := lm.2.2, changes := changes1 })
    else
      some ({ line := lm.1, changes := changes1 }, { line := lm.2.2, changes := changes2 })

/-- The per-pair convergence asserted by the claim (spec-side): the byte
ratio divides by the byte count of the longer of the two lines of the pair
only. -/
def claimedPairConvergence (DW : WordDiff) (words1 words2 : List Word) : Nat :=
  let p := if words1.length < words2.length then (words2, words1) else (words1, words2)
  let d := DW p.1 p.2
  max (diffMatchCount d * 100 / p.1.length)
    (diffMatchByteCount p.1 d * 100 / max (lineByteLen words1) (lineByteLen words2))

/-- The per-pair convergence the code computes, given the running denominator
`runLen` (the mutated `line1Len`) in force when the pair is evaluated. -/
def codePairConvergence (DW : WordDiff) (words1 words2 : List Word) (runLen : Nat) : Nat :=
  let p := if words1.length < words2.length then (words2, words1) else (words1, words2)
  let d := DW p.1 p.2
  max (diffMatchCount d * 100 / p.1.length)
    (diffMatchByteCount p.1 d * 100 / max runLen (lineByteLen words2))

/-- Spec-side greedy fill of the mapping search, written from the claim: walk
the ordered candidates, accept a triple when neither its `line1` nor its
`line2` occurs in the mapping built so far, and stop as soon as either side
is fully mapped or the list ends. -/
def specGreedy (n1 n2 : Nat) : List conv_key → List (Nat × Nat × Nat) →
    List (Nat × Nat × Nat)
  | [], m => m
  | t :: rest, m =>
    if ∀ e ∈ m, e.1 ≠ t.line1 ∧ e.2.2 ≠ t.line2 then
      let m' := mapInsert t.line1 (t.convergence, t.line2) m
      if m'.length = n1 ∨ m'.length = n2 then m'
      else specGreedy n1 n2 rest m'
    else specGreedy n1 n2 rest m

/-- The line-level diff a cancellation-free run of `runCompare` works on:
the hash sequences of both clamped sections, swapped so the longer one comes
first, fed to the `DiffCalc` oracle. -/
def runCompareLineDiff (p : Progress) (D : List Nat → List Nat → List Span)
    (w : World) (mainViewSection subViewSection : section_t)
    (settings : UserSettings) : List diffInfo :=
  let doc1_0 : DocCmpInfo :=
    { view := MAIN_VIEW, sec := mainViewSection,
      blockDiffMask :=
        if settings.OldFileViewId = MAIN_VIEW then MARKER_MASK_REMOVED else MARKER_MASK_ADDED }
  let doc2_0 : DocCmpInfo :=
    { view := SUB_VIEW, sec := subViewSection,
      blockDiffMask :=
        if settings.OldFileViewId = MAIN_VIEW then MARKER_MASK_ADDED else MARKER_MASK_REMOVED }
  let r1 := computeLineHashes p (getDoc w doc1_0.view).lines doc1_0 settings 0
  let h1 := r1.1
  let pr1 := progressStep p r1.2.2
  let r2 := computeLineHashes p (getDoc w doc2_0.view).lines doc2_0 settings pr1.2
  let h2 := r2.1
  let swapped := h1.length < h2.length
  let ph1 := if swapped then h2 else h1
  let ph2 := if swapped then h1 else h2
  (D ph1 ph2).map spanToDiffInfo

/-- The shape of a block: its kind, offset and length (everything except the
attached bookkeeping info). -/
def blockShape (bd : diffInfo) : diff_type × Nat × Nat := (bd.type, bd.off, bd.len)

/-- The two per-document compare infos (clamped, trailing-blank-trimmed
sections) computed at the start of a `runCompare` run. -/
def runCompareDocInfos (p : Progress) (w : World) (mainViewSection subViewSection : section_t)
    (settings : UserSettings) : DocCmpInfo × DocCmpInfo :=
  let doc1_0 : DocCmpInfo :=
    { view := MAIN_VIEW, sec := mainViewSection,
      blockDiffMask :=
        if settings.OldFileViewId = MAIN_VIEW then MARKER_MASK_REMOVED else MARKER_MASK_ADDED }
  let doc2_0 : DocCmpInfo :=
    { view := SUB_VIEW, sec := subViewSection,
      blockDiffMask :=
        if settings.OldFileViewId = MAIN_VIEW then MARKER_MASK_ADDED else MARKER_MASK_REMOVED }
  let r1 := computeLineHashes p (getDoc w doc1_0.view).lines doc1_0 settings 0
  let pr1 := progressStep p r1.2.2
  let r2 := computeLineHashes p (getDoc w doc2_0.view).lines doc2_0 settings pr1.2
  (r1.2.1, r2.2.1)

/-- Whether a `runCompare` run swaps the two documents: the doc-1 hash
sequence is shorter than the doc-2 one. -/
def runCompareSwap (p : Progress) (w : World) (mainViewSection subViewSection : section_t)
    (settings : UserSettings) : Bool :=
  let doc1_0 : DocCmpInfo :=
    { view := MAIN_VIEW, sec := mainViewSection,
      blockDiffMask :=
        if settings.OldFileViewId = MAIN_VIEW then MARKER_MASK_REMOVED else MARKER_MASK_ADDED }
  let doc2_0 : DocCmpInfo :=
    { view := SUB_VIEW, sec := subViewSection,
      blockDiffMask :=
        if settings.OldFileViewId = MAIN_VIEW then MARKER_MASK_ADDED else MARKER_MASK_REMOVED }
  let r1 := computeLineHashes p (getDoc w doc1_0.view).lines doc1_0 settings 0
  let pr1 := progressStep p r1.2.2
  let r2 := computeLineHashes p (getDoc w doc2_0.view).lines doc2_0 settings pr1.2
  decide (r1.1.length < r2.1.length)

/-- The two hash sequences of a `runCompare` run. -/
def runCompareHashes (p : Progress) (w : World) (mainViewSection subViewSection : section_t)
    (settings : UserSettings) : List Nat × List Nat :=
  let doc1_0 : DocCmpInfo :=
    { view := MAIN_VIEW, sec := mainViewSection,
      blockDiffMask :=
        if settings.OldFileViewId = MAIN_VIEW then MARKER_MASK_REMOVED else MARKER_MASK_ADDED }
  let doc2_0 : DocCmpInfo :=
    { view := SUB_VIEW, sec := subViewSection,
      blockDiffMask :=
        if settings.OldFileViewId = MAIN_VIEW then MARKER_MASK_ADDED else MARKER_MASK_REMOVED }
  let r1 := computeLineHashes p (getDoc w doc1_0.view).lines doc1_0 settings 0
  let pr1 := progressStep p r1.2.2
  let r2 := computeLineHashes p (getDoc w doc2_0.view).lines doc2_0 settings pr1.2
  (r1.1, r2.1)

/-- The progress tick after both hash computations of a `runCompare` run. -/
def runCompareTick2 (p : Progress) (w : World) (mainViewSection subViewSection : section_t)
    (settings : UserSettings) : Nat :=
  let doc1_0 : DocCmpInfo :=
    { view := MAIN_VIEW, sec := mainViewSection,
      blockDiffMask :=
        if settings.OldFileViewId = MAIN_VIEW then MARKER_MASK_REMOVED else MARKER_MASK_ADDED }
  let doc2_0 : DocCmpInfo :=
    { view := SUB_VIEW, sec := subViewSection,
      blockDiffMask :=
        if settings.OldFileViewId = MAIN_VIEW then MARKER_MASK_ADDED else MARKER_MASK_REMOVED }
  let r1 := computeLineHashes p (getDoc w doc1_0.view).lines doc1_0 settings 0
  let pr1 := progressStep p r1.2.2
  let r2 := computeLineHashes p (getDoc w doc2_0.view).lines doc2_0 settings pr1.2
  (progressStep p r2.2.2).2

/-- The moves-annotated line diff of a `runCompare` run (`findMoves` applied
when DetectMoves is on); block shapes agree with `runCompareLineDiff`. -/
def runCompareMovesDiff (p : Progress) (D : List Nat → List Nat → List Span)
    (w : World) (mainViewSection subViewSection : section_t)
    (settings : UserSettings) : List diffInfo :=
  let doc1_0 : DocCmpInfo :=
    { view := MAIN_VIEW, sec := mainViewSection,
      blockDiffMask :=
        if settings.OldFileViewId = MAIN_VIEW then MARKER_MASK_REMOVED else MARKER_MASK_ADDED }
  let doc2_0 : DocCmpInfo :=
    { view := SUB_VIEW, sec := subViewSection,
      blockDiffMask :=
        if settings.OldFileViewId = MAIN_VIEW then MARKER_MASK_ADDED else MARKER_MASK_REMOVED }
  let r1 := computeLineHashes p (getDoc w doc1_0.view).lines doc1_0 settings 0
  let h1 := r1.1
  let pr1 := progressStep p r1.2.2
  let r2 := computeLineHashes p (getDoc w doc2_0.view).lines doc2_0 settings pr1.2
  let h2 := r2.1
  let swapped := h1.length < h2.length
  let ph1 := if swapped then h2 else h1
  let ph2 := if swapped then h1 else h2
  if settings.DetectMoves then findMoves ((D ph1 ph2).map spanToDiffInfo) ph1 ph2
  else (D ph1 ph2).map spanToDiffInfo

/-- The spec condition for the leading-newline workaround: the first block of
the line-level diff is not of kind MATCH, and at least one compared section
starts at document offset 0. -/
def runCompareNewlineCond (p : Progress) (D : List Nat → List Nat → List Span)
    (w : World) (mainViewSection subViewSection : section_t)
    (settings : UserSettings) : Prop :=
  ((runCompareLineDiff p D w mainViewSection subViewSection settings).getD 0 default).type ≠
      diff_type.DIFF_MATCH ∧
    ((runCompareDocInfos p w mainViewSection subViewSection settings).1.sec.off = 0 ∨
      (runCompareDocInfos p w mainViewSection subViewSection settings).2.sec.off = 0)

/-- The spec side of the monotone score filter: traverse the mapping in
order and keep the entries whose `line2` strictly exceeds the `line2` of the
last kept entry (starting from -1). -/
def monoFilter : Int → List (Nat × Nat × Nat) → List (Nat × Nat × Nat)
  | _, [] => []
  | last, e :: es =>
    if (e.2.2 : Int) > last then e :: monoFilter (e.2.2 : Int) es
    else monoFilter last es

/-- The greedy mapping of one starting position of the mapping search, run
from fresh used-flag vectors and an empty map. -/
def greedyOf (n1 n2 : Nat) (su : List conv_key) : List (Nat × Nat × Nat) :=
  greedyFill n1 n2 su (List.replicate n1 false) (List.replicate n2 false) 0 0 []

/-- One step of the best-mapping fold: compute the greedy mapping of this
start, score it, and keep it iff it strictly improves on the best so far. -/
def searchStep (n1 n2 : Nat) (best : Nat × List (Nat × Nat × Nat))
    (su : List conv_key) : Nat × List (Nat × Nat × Nat) :=
  let m := greedyFill n1 n2 su (List.replicate n1 false) (List.replicate n2 false) 0 0 []
  let c := monoScore m
  if best.1 < c then (c, m) else best

/-! ## Theorems -/

theorem lineHashesLoop_no_cancel (p : Progress) (settings : UserSettings)
    (doc : List (List Nat)) (off len : Nat) (hp : ∀ n, p.oracle n = true) :
    ∀ (d lineNum tick : Nat) (acc : List Nat), len - lineNum = d →
      (lineHashesLoop p settings doc off len lineNum tick acc).1 =
        some (acc ++ (List.range' lineNum (len - lineNum)).map
          (fun i => lineHash settings (sciLine doc (i + off)))) := by
  intro d
  induction d with
  | zero =>
    intro lineNum tick acc hd
    rw [lineHashesLoop]
    have hnlt : ¬ lineNum < len := by omega
    simp [hnlt, hd]
  | succ n ih =>
    intro lineNum tick acc hd
    rw [lineHashesLoop]
    have hlt : lineNum < len := by omega
    have hstep : ∀ tick0 : Nat,
        (if lineNum % monitorCancelEveryXLine = 0 then progressStep p tick0
          else (true, tick0)).1 = true := by
      intro tick0
      split
      · simp only [progressStep]
        split
        · exact hp tick0
        · rfl
      · rfl
    simp only [hlt, if_true, hstep, if_pos]
    rw [ih (lineNum + 1) _ _ (by omega)]
    rw [show len - lineNum = (len - (lineNum + 1)) + 1 by omega, List.range'_succ lineNum _ 1]
    simp [List.append_assoc]

theorem rawLineHashes_eq_range' (doc : List (List Nat)) (off len : Nat)
    (settings : UserSettings) :
    rawLineHashes doc off len settings =
      (List.range' 0 len).map (fun i => lineHash settings (sciLine doc (i + off))) := by
  rw [rawLineHashes, ← List.range_eq_range']

/-- Claim C10: after line hashing, if the compared section is non-empty and
its final line hashes to the seed, that final hash is removed and the
section length decremented by one; otherwise the hash sequence is returned
unchanged.  The returned sequence is always a prefix of the untrimmed one of
length at least its length minus one, so only the last line is ever trimmed,
never an interior blank line.  (Holds for every run that is not cancelled;
`computeLineHashes` is shared by the compare and find-unique modes.) -/
theorem C10_trailing_blank_trim (p : Progress) (doc : List (List Nat))
    (docInfo : DocCmpInfo) (settings : UserSettings) (tick : Nat)
    (hp : ∀ n, p.oracle n = true) :
    ((rawOf doc docInfo settings ≠ [] ∧
        (rawOf doc docInfo settings).getLast? = some cHashSeed) →
      (computeLineHashes p doc docInfo settings tick).1 =
          (rawOf doc docInfo settings).dropLast ∧
        (computeLineHashes p doc docInfo settings tick).2.1.sec =
          { off := (secOf doc docInfo).off, len := (secOf doc docInfo).len - 1 }) ∧
    (¬(rawOf doc docInfo settings ≠ [] ∧
        (rawOf doc docInfo settings).getLast? = some cHashSeed) →
      (computeLineHashes p doc docInfo settings tick).1 = rawOf doc docInfo settings ∧
        (computeLineHashes p doc docInfo settings tick).2.1.sec = secOf doc docInfo) ∧
    (computeLineHashes p doc docInfo settings tick).1 =
      (rawOf doc docInfo settings).take
        (computeLineHashes p doc docInfo settings tick).1.length ∧
    (rawOf doc docInfo settings).length - 1 ≤
      (computeLineHashes p doc docInfo settings tick).1.length := by
  have hraw : rawOf doc docInfo settings =
      (List.range' 0 ((secOf doc docInfo).len)).map
        (fun i => lineHash settings (sciLine doc (i + (secOf doc docInfo).off))) := by
    rw [rawOf, rawLineHashes_eq_range']
  have hfst : (lineHashesLoop p settings doc (secOf doc docInfo).off
      (secOf doc docInfo).len 0 tick []).1 = some (rawOf doc docInfo settings) := by
    rw [lineHashesLoop_no_cancel p settings doc (secOf doc docInfo).off
      (secOf doc docInfo).len hp ((secOf doc docInfo).len - 0) 0 tick [] rfl]
    rw [hraw]
    simp
  have hlen : (rawOf doc docInfo settings).length = (secOf doc docInfo).len := by
    rw [hraw]; simp
  rcases hLL : lineHashesLoop p settings doc (secOf doc docInfo).off
      (secOf doc docInfo).len 0 tick [] with ⟨o, t⟩
  have ho : o = some (rawOf doc docInfo settings) := by
    have := hfst
    rw [hLL] at this
    exact this
  subst ho
  have hLL' : lineHashesLoop p settings doc
      (clampSection docInfo.sec (sciLineCountFor doc)).off
      (clampSection docInfo.sec (sciLineCountFor doc)).len 0 tick [] =
      (some (rawOf doc docInfo settings), t) := hLL
  have hcomp : computeLineHashes p doc docInfo settings tick =
      (if (secOf doc docInfo).len ≠ 0 ∧
          (rawOf doc docInfo settings).getLast? = some cHashSeed then
        ((rawOf doc docInfo settings).dropLast,
          { docInfo with sec :=
            { off := (secOf doc docInfo).off, len := (secOf doc docInfo).len - 1 } }, t)
      else
        (rawOf doc docInfo settings, { docInfo with sec := secOf doc docInfo }, t)) := by
    rw [computeLineHashes]
    simp only [hLL']
    rw [secOf]
  have hne : rawOf doc docInfo settings ≠ [] ↔ (secOf doc docInfo).len ≠ 0 := by
    rw [← hlen]
    simp [List.length_eq_zero]
  refine ⟨?_, ?_, ?_, ?_⟩
  · intro hcond
    rw [hcomp, if_pos ⟨hne.mp hcond.1, hcond.2⟩]
    exact ⟨rfl, rfl⟩
  · intro hcond
    have hn : ¬((secOf doc docInfo).len ≠ 0 ∧
        (rawOf doc docInfo settings).getLast? = some cHashSeed) := by
      intro h
      exact hcond ⟨hne.mpr h.1, h.2⟩
    rw [hcomp, if_neg hn]
    exact ⟨rfl, rfl⟩
  · rw [hcomp]
    split
    · rw [List.dropLast_eq_take]
      simp [List.length_dropLast, List.take_take]
    · simp
  · rw [hcomp]
    split
    · simp only [List.length_dropLast]
      omega
    · simp

/-- Witness for C10: a two-line document whose second line is empty (the
blank hash equals the seed); the hypotheses hold and the trailing hash is
trimmed. -/
theorem C10_trailing_blank_trim_witness :
    (∀ n, (Progress.mk false (fun _ => true)).oracle n = true) ∧
    ((rawOf [[97], []] ⟨0, ⟨0, 0⟩, 0⟩ ⟨false, false, false, 0⟩ ≠ [] ∧
        (rawOf [[97], []] ⟨0, ⟨0, 0⟩, 0⟩ ⟨false, false, false, 0⟩).getLast? =
          some cHashSeed) →
      (computeLineHashes (Progress.mk false (fun _ => true)) [[97], []] ⟨0, ⟨0, 0⟩, 0⟩
          ⟨false, false, false, 0⟩ 0).1 =
        (rawOf [[97], []] ⟨0, ⟨0, 0⟩, 0⟩ ⟨false, false, false, 0⟩).dropLast ∧
      (computeLineHashes (Progress.mk false (fun _ => true)) [[97], []] ⟨0, ⟨0, 0⟩, 0⟩
          ⟨false, false, false, 0⟩ 0).2.1.sec =
        { off := (secOf [[97], []] ⟨0, ⟨0, 0⟩, 0⟩).off,
          len := (secOf [[97], []] ⟨0, ⟨0, 0⟩, 0⟩).len - 1 }) ∧
    rawOf [[97], []] ⟨0, ⟨0, 0⟩, 0⟩ ⟨false, false, false, 0⟩ ≠ [] ∧
    (rawOf [[97], []] ⟨0, ⟨0, 0⟩, 0⟩ ⟨false, false, false, 0⟩).getLast? =
      some cHashSeed :=
  ⟨fun _ => rfl,
    (C10_trailing_blank_trim (Progress.mk false (fun _ => true)) [[97], []]
      ⟨0, ⟨0, 0⟩, 0⟩ ⟨false, false, false, 0⟩ 0 (fun _ => rfl)).1,
    by decide, by decide⟩

theorem mapFind_addLineToMap (h i : Nat) :
    ∀ (m : List (Nat × List Nat)) (h' : Nat),
      mapFind (addLineToMap m h i) h' =
        if h' = h then
          match mapFind m h with
          | some l => some (l ++ [i])
          | none => some [i]
        else mapFind m h' := by
  intro m
  induction m with
  | nil =>
    intro h'
    by_cases hh : h' = h
    · subst hh
      simp [addLineToMap, mapFind]
    · have hh' : ¬ h = h' := fun hc => hh hc.symm
      simp [addLineToMap, mapFind, hh, hh']
  | cons e es ih =>
    intro h'
    by_cases he : e.1 = h
    · by_cases hh : h' = h
      · subst hh
        simp [addLineToMap, he, mapFind]
      · have hne : ¬ e.1 = h' := fun hc => hh (by rw [← hc, he])
        have hh' : ¬ h = h' := fun hc => hh hc.symm
        simp [addLineToMap, he, mapFind, hne, hh, hh']
    · by_cases hh : h' = h
      · subst hh
        have : ¬ e.1 = h' := he
        simp [addLineToMap, he, mapFind, this, ih]
      · by_cases he' : e.1 = h'
        · simp [addLineToMap, he, mapFind, he', hh]
        · simp [addLineToMap, he, mapFind, he', hh, ih]

theorem mapFind_uniqueLinesMapGo :
    ∀ (hs : List Nat) (i : Nat) (m : List (Nat × List Nat)) (h : Nat),
      mapFind (uniqueLinesMapGo hs i m) h =
        match mapFind m h with
        | some l => some (l ++ hashOccs hs i h)
        | none => if hashOccs hs i h = [] then none else some (hashOccs hs i h) := by
  intro hs
  induction hs with
  | nil =>
    intro i m h
    simp only [uniqueLinesMapGo, hashOccs]
    match hm : mapFind m h with
    | some l => simp
    | none => simp
  | cons x r ih =>
    intro i m h
    simp only [uniqueLinesMapGo]
    rw [ih]
    rw [mapFind_addLineToMap]
    by_cases hx : x = h
    · subst hx
      simp only [hashOccs, if_pos rfl, List.singleton_append, if_pos rfl]
      match hm : mapFind m x with
      | some l => simp [List.append_assoc]
      | none => simp
    · have hx' : ¬ h = x := fun hc => hx hc.symm
      simp only [hashOccs, if_neg hx, List.nil_append, if_neg hx']

/-- The amended claim C2: the per-document hash-to-line-indices maps of
`runFindUnique` contain an entry for every hash that occurs, including the
blank seed hash, with the ascending list of all its line indices — no
blank-hash filtering happens for either value of `IgnoreSpaces` (the map
builder does not consult the settings at all), so blank-hash lines always
participate in the residual computation. -/
theorem C2_amended_blank_lines_always_mapped (hashes : List Nat) (h : Nat) :
    mapFind (uniqueLinesMap hashes) h =
      if hashOccs hashes 0 h = [] then none else some (hashOccs hashes 0 h) := by
  rw [uniqueLinesMap, mapFind_uniqueLinesMapGo]
  rfl

/-- Counterexample to C2 as stated: with `IgnoreSpaces` set, the document
whose lines are `""` and `"x"` hashes to `[seed, hash of "x"]`; the claim says
the seed entry is omitted from the map, but the built map contains the seed
hash with line index 0. -/
theorem C2_counterexample :
    (⟨false, true, false, 0⟩ : UserSettings).IgnoreSpaces = true ∧
    mapFind
      (uniqueLinesMap
        (computeLineHashes (Progress.mk false (fun _ => true)) [[], [120]]
          ⟨0, ⟨0, 0⟩, 0⟩ ⟨false, true, false, 0⟩ 0).1)
      cHashSeed = some [0] := by
  constructor
  · rfl
  · have h1 := lineHashesLoop_no_cancel (Progress.mk false (fun _ => true))
      ⟨false, true, false, 0⟩ [[], [120]] 0 2 (fun _ => rfl) 2 0 0 [] rfl
    simp only [computeLineHashes]
    norm_num [clampSection, sciLineCountFor, sciLength]
    rcases hLL : lineHashesLoop (Progress.mk false (fun _ => true)) ⟨false, true, false, 0⟩
        [[], [120]] 0 2 0 0 [] with ⟨o, t⟩
    rw [hLL] at h1
    simp only at h1
    subst h1
    norm_num [List.range', sciLine, lineHash]
    simp [uniqueLinesMap, uniqueLinesMapGo, addLineToMap, mapFind, cHashSeed, hashChar, mod64]

theorem getWordsLoop_acc (settings : UserSettings) (ln : Nat) :
    ∀ (rest : List Nat) (i : Nat) (word : Word) (acc : List Word),
      getWordsLoop settings ln rest i word acc =
        acc ++ getWordsLoop settings ln rest i word [] := by
  intro rest
  induction rest with
  | nil =>
    intro i word acc
    simp only [getWordsLoop]
    split
    · simp
    · simp
  | cons b r ih =>
    intro i word acc
    simp only [getWordsLoop]
    split
    · exact ih (i + 1) _ acc
    · rw [ih (i + 1) _ (if keepWord settings word then acc ++ [word] else acc),
        ih (i + 1) _ (if keepWord settings word then [] ++ [word] else [])]
      split
      · simp
      · simp

theorem getWordsLoop_filter (settings : UserSettings) (ln : Nat) :
    ∀ (rest : List Nat) (i : Nat) (word : Word) (acc : List Word),
      getWordsLoop { settings with IgnoreSpaces := true } ln rest i word
          (acc.filter (fun w => w.type != charType.SPACECHAR)) =
        (getWordsLoop { settings with IgnoreSpaces := false } ln rest i word acc).filter
          (fun w => w.type != charType.SPACECHAR) := by
  intro rest
  induction rest with
  | nil =>
    intro i word acc
    simp only [getWordsLoop, keepWord]
    by_cases hw : word.type = charType.SPACECHAR
    · simp [hw, List.filter, bne_iff_ne]
    · have hb : (word.type != charType.SPACECHAR) = true := by simp [bne_iff_ne, hw]
      simp [hw, List.filter, hb]
  | cons b r ih =>
    intro i word acc
    simp only [getWordsLoop]
    split
    · exact ih (i + 1) _ acc
    · have hacc : (if keepWord { settings with IgnoreSpaces := true } word then
          acc.filter (fun w => w.type != charType.SPACECHAR) ++ [word]
          else acc.filter (fun w => w.type != charType.SPACECHAR)) =
          (acc ++ [word]).filter (fun w => w.type != charType.SPACECHAR) := by
        simp only [keepWord, List.filter_append]
        by_cases hw : word.type = charType.SPACECHAR
        · simp [hw, List.filter, bne_iff_ne]
        · have hb : (word.type != charType.SPACECHAR) = true := by simp [bne_iff_ne, hw]
          simp [hw, List.filter, hb]
      rw [hacc, ih]
      have hkf : keepWord { settings with IgnoreSpaces := false } word = true := by
        simp [keepWord]
      rw [hkf]
      simp

theorem tokenizeLine_filter (settings : UserSettings) (ln : Nat) (line : List Nat) :
    tokenizeLine { settings with IgnoreSpaces := true } ln line =
      (tokenizeLine { settings with IgnoreSpaces := false } ln line).filter
        (fun w => w.type != charType.SPACECHAR) := by
  simp only [tokenizeLine]
  match (if settings.IgnoreCase then toLowerCase line else line) with
  | [] => rfl
  | b :: rest =>
    have := getWordsLoop_filter settings ln rest 1
      { type := getCharType b, line := ln, pos := 0, length := 1,
        hash := hashChar cHashSeed b } []
    simpa using this

theorem specRuns_nil (i : Nat) : specRuns i [] = [] := by
  rw [specRuns.eq_def]

theorem specRuns_cons (i b : Nat) (rest : List Nat) :
    specRuns i (b :: rest) =
      (i, b :: rest.takeWhile (fun c => decide (getCharType c = getCharType b))) ::
        specRuns
          (i + 1 + (rest.takeWhile (fun c => decide (getCharType c = getCharType b))).length)
          (rest.dropWhile (fun c => decide (getCharType c = getCharType b))) := by
  rw [specRuns.eq_def]

theorem getWordsLoop_specRuns (settings : UserSettings)
    (hIS : settings.IgnoreSpaces = false) (ln : Nat) :
    ∀ (rest : List Nat) (i : Nat) (word : Word),
      getWordsLoop settings ln rest i word [] =
        Word.mk word.type word.line word.pos
            (word.length +
              (rest.takeWhile (fun c => decide (getCharType c = word.type))).length)
            ((rest.takeWhile (fun c => decide (getCharType c = word.type))).foldl
              hashChar word.hash) ::
          (specRuns (i + (rest.takeWhile (fun c => decide (getCharType c = word.type))).length)
            (rest.dropWhile (fun c => decide (getCharType c = word.type)))).map
            (wordOfRun ln) := by
  intro rest
  induction rest with
  | nil =>
    intro i word
    have hk : keepWord settings word = true := by simp [keepWord, hIS]
    simp only [getWordsLoop, hk, if_pos, List.takeWhile_nil, List.dropWhile_nil,
      List.length_nil, List.foldl_nil, Nat.add_zero, specRuns_nil, List.map_nil,
      List.nil_append]
  | cons b r ih =>
    intro i word
    simp only [getWordsLoop]
    by_cases hb : getCharType b = word.type
    · rw [if_pos hb]
      rw [ih (i + 1) { word with length := word.length + 1, hash := hashChar word.hash b }]
      have htw : (b :: r).takeWhile (fun c => decide (getCharType c = word.type)) =
          b :: r.takeWhile (fun c => decide (getCharType c = word.type)) := by
        simp [List.takeWhile_cons, hb]
      have hdw : (b :: r).dropWhile (fun c => decide (getCharType c = word.type)) =
          r.dropWhile (fun c => decide (getCharType c = word.type)) := by
        simp [List.dropWhile_cons, hb]
      rw [htw, hdw]
      simp only [List.length_cons, List.foldl_cons, List.cons.injEq, Word.mk.injEq]
      and_intros
      all_goals first | trivial | omega | (congr 2 <;> first | trivial | omega)
    · rw [if_neg hb]
      rw [getWordsLoop_acc]
      have hk : keepWord settings word = true := by simp [keepWord, hIS]
      rw [hk]
      simp only [if_pos, List.nil_append, List.singleton_append]
      rw [ih (i + 1)
        { type := getCharType b, line := ln, pos := i, length := 1,
          hash := hashChar cHashSeed b }]
      have htw : (b :: r).takeWhile (fun c => decide (getCharType c = word.type)) = [] := by
        simp [List.takeWhile_cons, hb]
      have hdw : (b :: r).dropWhile (fun c => decide (getCharType c = word.type)) =
          b :: r := by
        simp [List.dropWhile_cons, hb]
      rw [htw, hdw]
      rw [specRuns_cons]
      simp only [List.map_cons, List.takeWhile_nil, List.length_nil, Nat.add_zero,
        List.foldl_nil, List.cons.injEq, Word.mk.injEq, wordOfRun, List.headD_cons,
        List.length_cons, List.foldl_cons]
      and_intros
      all_goals first | trivial | omega | (congr 2 <;> first | trivial | omega)

/-- The tokenization of one line with no space dropping is exactly the
maximal-run decomposition of the (possibly case-folded) line. -/
theorem tokenizeLine_eq_specRuns (settings : UserSettings)
    (hIS : settings.IgnoreSpaces = false) (ln : Nat) (line : List Nat) :
    tokenizeLine settings ln line =
      (specRuns 0 (if settings.IgnoreCase then toLowerCase line else line)).map
        (wordOfRun ln) := by
  rcases hfold : (if settings.IgnoreCase then toLowerCase line else line) with _ | ⟨b, rest⟩
  · simp only [tokenizeLine, hfold, specRuns_nil, List.map_nil]
  · simp only [tokenizeLine, hfold]
    rw [getWordsLoop_specRuns settings hIS ln rest 1
      { type := getCharType b, line := ln, pos := 0, length := 1,
        hash := hashChar cHashSeed b }]
    rw [specRuns_cons]
    simp only [List.map_cons, List.cons.injEq, wordOfRun, List.headD_cons,
      List.length_cons, List.foldl_cons, Word.mk.injEq]
    and_intros
    all_goals first | trivial | omega | (congr 2 <;> first | trivial | omega)

theorem dropWhile_length_le (p : Nat → Bool) (l : List Nat) :
    (l.dropWhile p).length ≤ l.length := by
  have h := List.takeWhile_append_dropWhile p l
  have h2 : (l.takeWhile p ++ l.dropWhile p).length = l.length := by rw [h]
  simp only [List.length_append] at h2
  omega

theorem dropWhile_head_false (p : Nat → Bool) :
    ∀ (l : List Nat) (c : Nat) (cs : List Nat), l.dropWhile p = c :: cs → p c = false := by
  intro l
  induction l with
  | nil => intro c cs h; simp [List.dropWhile] at h
  | cons a l ih =>
    intro c cs h
    rw [List.dropWhile_cons] at h
    split at h
    · exact ih c cs h
    · cases h
      rename_i hpa
      simpa using hpa

theorem specRuns_join (n : Nat) :
    ∀ (l : List Nat), l.length ≤ n → ∀ i, ((specRuns i l).map (fun r => r.2)).flatten = l := by
  induction n with
  | zero =>
    intro l hl i
    have : l = [] := by
      cases l
      · rfl
      · simp at hl
    subst this
    simp [specRuns_nil]
  | succ n ih =>
    intro l hl i
    cases l with
    | nil => simp [specRuns_nil]
    | cons b r =>
      rw [specRuns_cons]
      simp only [List.map_cons, List.flatten_cons]
      rw [ih _ (by
        have := dropWhile_length_le (fun c => decide (getCharType c = getCharType b)) r
        simp only [List.length_cons] at hl
        omega)]
      simp only [List.cons_append, List.cons.injEq, true_and]
      exact List.takeWhile_append_dropWhile _ _

theorem specRuns_chain_pos (n : Nat) :
    ∀ (l : List Nat), l.length ≤ n → ∀ i,
      (specRuns i l).Chain' (fun r1 r2 => r2.1 = r1.1 + r1.2.length) := by
  induction n with
  | zero =>
    intro l hl i
    have : l = [] := by
      cases l
      · rfl
      · simp at hl
    subst this
    simp [specRuns_nil]
  | succ n ih =>
    intro l hl i
    cases l with
    | nil => simp [specRuns_nil]
    | cons b r =>
      rw [specRuns_cons]
      rw [List.chain'_cons']
      constructor
      · intro y hy
        rcases hdw : r.dropWhile (fun c => decide (getCharType c = getCharType b)) with
          _ | ⟨c, cs⟩
        · rw [hdw, specRuns_nil] at hy
          simp at hy
        · rw [hdw, specRuns_cons] at hy
          simp only [List.head?_cons, Option.mem_def, Option.some.injEq] at hy
          subst hy
          simp [List.length_cons]
          omega
      · apply ih
        have := dropWhile_length_le (fun c => decide (getCharType c = getCharType b)) r
        simp only [List.length_cons] at hl
        omega

theorem specRuns_elems (n : Nat) :
    ∀ (l : List Nat), l.length ≤ n → ∀ i r, r ∈ specRuns i l →
      r.2 ≠ [] ∧ ∀ c ∈ r.2, getCharType c = getCharType (r.2.headD 0) := by
  induction n with
  | zero =>
    intro l hl i r hr
    have : l = [] := by
      cases l
      · rfl
      · simp at hl
    subst this
    rw [specRuns_nil] at hr
    simp at hr
  | succ n ih =>
    intro l hl i r hr
    cases l with
    | nil =>
      rw [specRuns_nil] at hr
      simp at hr
    | cons b rest =>
      rw [specRuns_cons] at hr
      rcases List.mem_cons.mp hr with hr | hr
      · subst hr
        refine ⟨by simp, ?_⟩
        intro c hc
        simp only [List.headD_cons]
        rcases List.mem_cons.mp hc with hc | hc
        · subst hc; rfl
        · have := List.mem_takeWhile_imp hc
          simpa using this
      · exact ih _ (by
          have := dropWhile_length_le (fun c => decide (getCharType c = getCharType b)) rest
          simp only [List.length_cons] at hl
          omega) _ r hr

theorem specRuns_chain_max (n : Nat) :
    ∀ (l : List Nat), l.length ≤ n → ∀ i,
      (specRuns i l).Chain'
        (fun r1 r2 => getCharType (r1.2.headD 0) ≠ getCharType (r2.2.headD 0)) := by
  induction n with
  | zero =>
    intro l hl i
    have : l = [] := by
      cases l
      · rfl
      · simp at hl
    subst this
    simp [specRuns_nil]
  | succ n ih =>
    intro l hl i
    cases l with
    | nil => simp [specRuns_nil]
    | cons b rest =>
      rw [specRuns_cons]
      rw [List.chain'_cons']
      constructor
      · intro y hy
        rcases hdw : rest.dropWhile (fun c => decide (getCharType c = getCharType b)) with
          _ | ⟨c, cs⟩
        · rw [hdw, specRuns_nil] at hy
          simp at hy
        · rw [hdw, specRuns_cons] at hy
          simp only [List.head?_cons, Option.mem_def, Option.some.injEq] at hy
          subst hy
          simp only [List.headD_cons]
          have hc := dropWhile_head_false _ rest c cs hdw
          simp only [decide_eq_false_iff_not] at hc
          exact fun h => hc h.symm
      · apply ih
        have := dropWhile_length_le (fun c => decide (getCharType c = getCharType b)) rest
        simp only [List.length_cons] at hl
        omega

theorem getCharType_space_iff (b : Nat) :
    getCharType b = charType.SPACECHAR ↔ (b = 0x20 ∨ b = 0x09) := by
  by_cases h1 : b = 0x20 ∨ b = 0x09
  · simp [getCharType, h1]
  · by_cases h2 : (IsCharAlphaNumericA b : Prop) ∨ b = 0x5F
    · simp [getCharType, h1, h2]
    · simp [getCharType, h1, h2]

theorem getCharType_alnum_iff (b : Nat) :
    getCharType b = charType.ALPHANUMCHAR ↔
      ((0x30 ≤ b ∧ b ≤ 0x39) ∨ (0x41 ≤ b ∧ b ≤ 0x5A) ∨ (0x61 ≤ b ∧ b ≤ 0x7A) ∨
        b = 0x5F) := by
  have hA : (IsCharAlphaNumericA b : Prop) ↔
      ((0x30 ≤ b ∧ b ≤ 0x39) ∨ (0x41 ≤ b ∧ b ≤ 0x5A) ∨ (0x61 ≤ b ∧ b ≤ 0x7A)) := by
    simp [IsCharAlphaNumericA]
  by_cases h1 : b = 0x20 ∨ b = 0x09
  · simp only [getCharType, h1, if_true]
    constructor
    · intro h; cases h
    · intro h; exfalso; rcases h1 with h1 | h1 <;> subst h1 <;> omega
  · by_cases h2 : (IsCharAlphaNumericA b : Prop) ∨ b = 0x5F
    · simp only [getCharType, h1, if_false, h2, if_true]
      constructor
      · intro _
        rcases h2 with h2 | h2
        · rcases hA.mp h2 with h | h | h
          · exact Or.inl h
          · exact Or.inr (Or.inl h)
          · exact Or.inr (Or.inr (Or.inl h))
        · exact Or.inr (Or.inr (Or.inr h2))
      · intro _; trivial
    · simp only [getCharType, h1, if_false, h2]
      constructor
      · intro h; cases h
      · intro h
        exfalso
        apply h2
        rcases h with h | h | h | h
        · exact Or.inl (hA.mpr (Or.inl h))
        · exact Or.inl (hA.mpr (Or.inr (Or.inl h)))
        · exact Or.inl (hA.mpr (Or.inr (Or.inr h)))
        · exact Or.inr h

theorem getCharType_other_iff (b : Nat) :
    getCharType b = charType.OTHERCHAR ↔
      (¬(b = 0x20 ∨ b = 0x09) ∧
        ¬((0x30 ≤ b ∧ b ≤ 0x39) ∨ (0x41 ≤ b ∧ b ≤ 0x5A) ∨ (0x61 ≤ b ∧ b ≤ 0x7A) ∨
          b = 0x5F)) := by
  rcases htype : getCharType b with _ | _ | _
  · have h := (getCharType_space_iff b).mp htype
    constructor
    · intro hc; cases hc
    · intro hc; exact absurd h hc.1
  · have h := (getCharType_alnum_iff b).mp htype
    constructor
    · intro hc; cases hc
    · intro hc; exact absurd h hc.2
  · constructor
    · intro _
      constructor
      · intro hs
        rw [(getCharType_space_iff b).mpr hs] at htype
        cases htype
      · intro ha
        rw [(getCharType_alnum_iff b).mpr ha] at htype
        cases htype
    · intro _; rfl

theorem getCharType_toLowerByte (b : Nat) :
    getCharType (toLowerByte b) = getCharType b := by
  by_cases h : 65 ≤ b ∧ b ≤ 90
  · have hb : toLowerByte b = b + 32 := by simp [toLowerByte, h]
    rw [hb]
    rw [(getCharType_alnum_iff (b + 32)).mpr (by omega),
      (getCharType_alnum_iff b).mpr (by omega)]
  · simp [toLowerByte, h]

theorem tokenizeLine_eq_filtered_specRuns (settings : UserSettings) (ln : Nat)
    (line : List Nat) :
    tokenizeLine settings ln line =
      ((specRuns 0 (if settings.IgnoreCase then toLowerCase line else line)).map
        (wordOfRun ln)).filter (keepWord settings) := by
  obtain ⟨ic, is, dm, ov⟩ := settings
  cases is with
  | false =>
    rw [tokenizeLine_eq_specRuns ⟨ic, false, dm, ov⟩ rfl]
    have hf : ∀ ws : List Word, ws.filter (keepWord ⟨ic, false, dm, ov⟩) = ws := by
      intro ws
      apply List.filter_eq_self.mpr
      intro a _
      simp [keepWord]
    rw [hf]
  | true =>
    rw [show (⟨ic, true, dm, ov⟩ : UserSettings) =
      { (⟨ic, true, dm, ov⟩ : UserSettings) with IgnoreSpaces := true } from rfl,
      tokenizeLine_filter]
    rw [show ({ (⟨ic, true, dm, ov⟩ : UserSettings) with IgnoreSpaces := false } :
      UserSettings) = ⟨ic, false, dm, ov⟩ from rfl]
    rw [tokenizeLine_eq_specRuns ⟨ic, false, dm, ov⟩ rfl]
    apply List.filter_congr
    intro w _
    by_cases hw : w.type = charType.SPACECHAR
    · simp [keepWord, hw]
    · have hb : (w.type != charType.SPACECHAR) = true := by simp [bne_iff_ne, hw]
      simp [keepWord, hw, hb]

/-- Claim C7: the tokenizer classifies bytes as SPACE exactly for 0x20/0x09,
as ALNUM exactly for ASCII alphanumerics and underscore, as OTHER otherwise
(classification is invariant under the case folding); each line is emitted as
its maximal same-class runs — the runs concatenate back to the processed
line, their positions are consecutive starting at 0, each run is non-empty
and uniform in class, and adjacent runs have different classes — and the
emitted words are exactly those runs filtered by the space-dropping predicate
(`keepWord`), which drops a word only when `IgnoreSpaces` is set and the word
is a SPACE run. -/
theorem C7_tokenizer_classification_and_runs :
    (∀ b : Nat, getCharType b = charType.SPACECHAR ↔ (b = 0x20 ∨ b = 0x09)) ∧
    (∀ b : Nat, getCharType b = charType.ALPHANUMCHAR ↔
      ((0x30 ≤ b ∧ b ≤ 0x39) ∨ (0x41 ≤ b ∧ b ≤ 0x5A) ∨ (0x61 ≤ b ∧ b ≤ 0x7A) ∨
        b = 0x5F)) ∧
    (∀ b : Nat, getCharType b = charType.OTHERCHAR ↔
      (¬(b = 0x20 ∨ b = 0x09) ∧
        ¬((0x30 ≤ b ∧ b ≤ 0x39) ∨ (0x41 ≤ b ∧ b ≤ 0x5A) ∨ (0x61 ≤ b ∧ b ≤ 0x7A) ∨
          b = 0x5F))) ∧
    (∀ b : Nat, getCharType (toLowerByte b) = getCharType b) ∧
    (∀ (settings : UserSettings) (ln : Nat) (line : List Nat),
      tokenizeLine settings ln line =
        ((specRuns 0 (if settings.IgnoreCase then toLowerCase line else line)).map
          (wordOfRun ln)).filter (keepWord settings)) ∧
    (∀ (settings : UserSettings) (w : Word),
      keepWord settings w = false ↔
        (settings.IgnoreSpaces = true ∧ w.type = charType.SPACECHAR)) ∧
    (∀ (l : List Nat) (i : Nat), ((specRuns i l).map (fun r => r.2)).flatten = l) ∧
    (∀ (l : List Nat) (i : Nat),
      (specRuns i l).Chain' (fun r1 r2 => r2.1 = r1.1 + r1.2.length)) ∧
    (∀ (b : Nat) (rest : List Nat) (i : Nat),
      (specRuns i (b :: rest)).head? =
        some (i, b :: rest.takeWhile (fun c => decide (getCharType c = getCharType b)))) ∧
    (∀ (l : List Nat) (i : Nat) (r : Nat × List Nat), r ∈ specRuns i l →
      r.2 ≠ [] ∧ ∀ c ∈ r.2, getCharType c = getCharType (r.2.headD 0)) ∧
    (∀ (l : List Nat) (i : Nat),
      (specRuns i l).Chain'
        (fun r1 r2 => getCharType (r1.2.headD 0) ≠ getCharType (r2.2.headD 0))) := by
  refine ⟨getCharType_space_iff, getCharType_alnum_iff, getCharType_other_iff,
    getCharType_toLowerByte, tokenizeLine_eq_filtered_specRuns, ?_, ?_, ?_, ?_, ?_, ?_⟩
  · intro settings w
    cases hIS : settings.IgnoreSpaces
    · simp [keepWord, hIS]
    · by_cases hw : w.type = charType.SPACECHAR
      · simp [keepWord, hIS, hw]
      · simp [keepWord, hIS, hw]
  · intro l i
    exact specRuns_join l.length l (Nat.le_refl _) i
  · intro l i
    exact specRuns_chain_pos l.length l (Nat.le_refl _) i
  · intro b rest i
    rw [specRuns_cons]
    rfl
  · intro l i r hr
    exact specRuns_elems l.length l (Nat.le_refl _) i r hr
  · intro l i
    exact specRuns_chain_max l.length l (Nat.le_refl _) i

/-- Witness for C7: the classification of the underscore byte, and the
tokenization of the line `"a b"` (bytes 97, 32, 98) with `IgnoreSpaces` set —
the SPACE run is dropped —, with the run membership hypothesis discharged on
the first run of that line. -/
theorem C7_tokenizer_classification_and_runs_witness :
    (getCharType 0x5F = charType.ALPHANUMCHAR ↔
      ((0x30 ≤ 0x5F ∧ 0x5F ≤ 0x39) ∨ (0x41 ≤ 0x5F ∧ 0x5F ≤ 0x5A) ∨
        (0x61 ≤ 0x5F ∧ 0x5F ≤ 0x7A) ∨ 0x5F = 0x5F)) ∧
    (tokenizeLine ⟨false, true, false, 0⟩ 0 [97, 32, 98] =
      ((specRuns 0 (if (⟨false, true, false, 0⟩ : UserSettings).IgnoreCase then
          toLowerCase [97, 32, 98] else [97, 32, 98])).map
        (wordOfRun 0)).filter (keepWord ⟨false, true, false, 0⟩)) ∧
    ((0, [97]) ∈ specRuns 0 [97, 32, 98] ∧
      ((0, [97]) : Nat × List Nat).2 ≠ [] ∧
      ∀ c ∈ ((0, [97]) : Nat × List Nat).2,
        getCharType c = getCharType (((0, [97]) : Nat × List Nat).2.headD 0)) :=
  ⟨C7_tokenizer_classification_and_runs.2.1 0x5F,
    C7_tokenizer_classification_and_runs.2.2.2.2.1 ⟨false, true, false, 0⟩ 0 [97, 32, 98],
    by
      have hm : ((0, [97]) : Nat × List Nat) ∈ specRuns 0 [97, 32, 98] := by
        rw [specRuns_cons]
        simp [List.takeWhile, getCharType, IsCharAlphaNumericA]
      exact ⟨hm,
        C7_tokenizer_classification_and_runs.2.2.2.2.2.2.2.2.2.1 [97, 32, 98] 0 (0, [97]) hm⟩⟩

theorem appendMatch_matchList (bds : List diffInfo) (idx : Nat) (sec : section_t)
    (f : Bool) (j : Nat) :
    ((appendMatch bds idx sec f).getD j default).info.matchList =
      if j = idx ∧ j < bds.length then
        (bds.getD j default).info.matchList ++ [(sec, f)]
      else (bds.getD j default).info.matchList := by
  rw [appendMatch]
  rcases hidx : bds[idx]? with _ | bd
  · have hge : ¬ idx < bds.length := by
      intro hlt
      rw [List.getElem?_eq_getElem hlt] at hidx
      cases hidx
    have : ¬ (j = idx ∧ j < bds.length) := by
      rintro ⟨rfl, hlt⟩
      exact hge hlt
    rw [if_neg this]
  · have hlt : idx < bds.length := by
      by_contra hge
      rw [List.getElem?_eq_none (by omega)] at hidx
      cases hidx
    by_cases hj : j = idx
    · subst hj
      rw [if_pos ⟨rfl, hlt⟩]
      have hset := List.getElem?_set_eq_of_lt
        { bd with info :=
          { bd.info with matchList := bd.info.matchList ++ [(sec, f)] } } (l := bds) hlt
      simp [List.getD, hset, hidx]
    · rw [if_neg (by intro hc; exact hj hc.1)]
      simp [List.getD, List.getElem?_set_ne (fun hc => hj hc.symm)]

theorem appendMatch_length (bds : List diffInfo) (idx : Nat) (sec : section_t)
    (f : Bool) : (appendMatch bds idx sec f).length = bds.length := by
  rw [appendMatch]
  rcases bds[idx]? with _ | bd
  · rfl
  · simp

theorem foldl_appendMatch_suffix (L : Nat) (f : Bool) :
    ∀ (ms : List (Nat × Nat)) (acc : List diffInfo) (j : Nat),
      ∃ new : List (section_t × Bool),
        ((ms.foldl (fun a m => appendMatch a m.1 { off := m.2, len := L } f) acc).getD j
            default).info.matchList =
          (acc.getD j default).info.matchList ++ new ∧
        ∀ e ∈ new, e.2 = f := by
  intro ms
  induction ms with
  | nil =>
    intro acc j
    exact ⟨[], by simp, by simp⟩
  | cons m rest ih =>
    intro acc j
    obtain ⟨new, hnew, hflag⟩ := ih (appendMatch acc m.1 { off := m.2, len := L } f) j
    rw [List.foldl_cons]
    rw [hnew, appendMatch_matchList]
    by_cases hc : j = m.1 ∧ j < acc.length
    · rw [if_pos hc]
      refine ⟨(⟨{ off := m.2, len := L }, f⟩ : section_t × Bool) :: new, by simp, ?_⟩
      intro e he
      rcases List.mem_cons.mp he with he | he
      · rw [he]
      · exact hflag e he
    · rw [if_neg hc]
      exact ⟨new, rfl, hflag⟩

/-- Claim C1: for every run committed by the move finder, the `Match`
entries appended to all participating blocks (the best doc-1 block, the
alternate doc-1 source blocks and the doc-2 target blocks) all carry
`isMoved` equal to the commit-time flag, which is true exactly when the
number of recorded doc-1 alternate sources plus one equals the number of
recorded doc-2 targets and it is not the case that the run length is 1 with
more than one doc-2 target; every entry present after the commit is either an
old entry or carries that flag, and the best block receives the run's own
entry with that flag. -/
theorem C1_commit_moved_flag (bds : List diffInfo) (st : BestMatch) :
    (movedFlag st.mi = true ↔
      (st.mi.matchesIn1.length + 1 = st.mi.matchesIn2.length ∧
        ¬(st.mi.sec.len = 1 ∧ 1 < st.mi.matchesIn2.length))) ∧
    (∀ j : Nat, ∃ new : List (section_t × Bool),
      ((commitMove bds st).getD j default).info.matchList =
        (bds.getD j default).info.matchList ++ new ∧
      ∀ e ∈ new, e.2 = movedFlag st.mi) ∧
    (st.bestIdx < bds.length →
      ((⟨st.mi.sec.off, st.mi.sec.len⟩ : section_t), movedFlag st.mi) ∈
        ((commitMove bds st).getD st.bestIdx default).info.matchList) := by
  have hstep : ∀ j, ∃ new : List (section_t × Bool),
      ((commitMove bds st).getD j default).info.matchList =
        (bds.getD j default).info.matchList ++ new ∧
      ∀ e ∈ new, e.2 = movedFlag st.mi := by
    intro j
    rw [commitMove]
    obtain ⟨new2, hnew2, hflag2⟩ := foldl_appendMatch_suffix st.mi.sec.len (movedFlag st.mi)
      st.mi.matchesIn2
      (st.mi.matchesIn1.foldl
        (fun acc m => appendMatch acc m.1 { off := m.2, len := st.mi.sec.len }
          (movedFlag st.mi))
        (appendMatch bds st.bestIdx { off := st.mi.sec.off, len := st.mi.sec.len }
          (movedFlag st.mi))) j
    obtain ⟨new1, hnew1, hflag1⟩ := foldl_appendMatch_suffix st.mi.sec.len (movedFlag st.mi)
      st.mi.matchesIn1
      (appendMatch bds st.bestIdx { off := st.mi.sec.off, len := st.mi.sec.len }
        (movedFlag st.mi)) j
    rw [hnew2, hnew1, appendMatch_matchList]
    by_cases hc : j = st.bestIdx ∧ j < bds.length
    · rw [if_pos hc]
      refine ⟨(⟨{ off := st.mi.sec.off, len := st.mi.sec.len }, movedFlag st.mi⟩ :
          section_t × Bool) :: (new1 ++ new2), by simp, ?_⟩
      intro e he
      rcases List.mem_cons.mp he with he | he
      · rw [he]
      · rcases List.mem_append.mp he with he | he
        · exact hflag1 e he
        · exact hflag2 e he
    · rw [if_neg hc]
      refine ⟨new1 ++ new2, by simp, ?_⟩
      intro e he
      rcases List.mem_append.mp he with he | he
      · exact hflag1 e he
      · exact hflag2 e he
  refine ⟨?_, hstep, ?_⟩
  · rw [movedFlag]
    constructor
    · intro h
      have h1 := (Bool.and_eq_true _ _).mp h
      refine ⟨by simpa using h1.1, ?_⟩
      intro hc
      have := h1.2
      simp only [Bool.not_eq_true', Bool.and_eq_false_iff] at this
      rcases this with h2 | h2
      · simp [hc.1] at h2
      · simp at h2
        omega
    · intro h
      simp only [Bool.and_eq_true, Bool.not_eq_true', Bool.and_eq_false_iff]
      refine ⟨by simpa using h.1, ?_⟩
      by_cases hl : st.mi.sec.len = 1
      · right
        have := h.2
        simp only [decide_eq_false_iff_not]
        intro hgt
        exact this ⟨hl, by omega⟩
      · left
        simp [hl]
  · intro hlt
    rw [commitMove]
    obtain ⟨new2, hnew2, _⟩ := foldl_appendMatch_suffix st.mi.sec.len (movedFlag st.mi)
      st.mi.matchesIn2
      (st.mi.matchesIn1.foldl
        (fun acc m => appendMatch acc m.1 { off := m.2, len := st.mi.sec.len }
          (movedFlag st.mi))
        (appendMatch bds st.bestIdx { off := st.mi.sec.off, len := st.mi.sec.len }
          (movedFlag st.mi))) st.bestIdx
    obtain ⟨new1, hnew1, _⟩ := foldl_appendMatch_suffix st.mi.sec.len (movedFlag st.mi)
      st.mi.matchesIn1
      (appendMatch bds st.bestIdx { off := st.mi.sec.off, len := st.mi.sec.len }
        (movedFlag st.mi)) st.bestIdx
    rw [hnew2, hnew1, appendMatch_matchList, if_pos ⟨rfl, hlt⟩]
    simp

/-- Witness for C1: a one-block vector and a best match with no alternate
doc-1 sources and one doc-2 target; the commit appends the run entry to the
best block. -/
theorem C1_commit_moved_flag_witness :
    (BestMatch.mk 0 0 ⟨⟨0, 2⟩, [], [(1, 0)]⟩).bestIdx <
        ([⟨diff_type.DIFF_IN_1, 0, 2, {}⟩] : List diffInfo).length ∧
    ((⟨(BestMatch.mk 0 0 ⟨⟨0, 2⟩, [], [(1, 0)]⟩).mi.sec.off,
        (BestMatch.mk 0 0 ⟨⟨0, 2⟩, [], [(1, 0)]⟩).mi.sec.len⟩ : section_t),
      movedFlag (BestMatch.mk 0 0 ⟨⟨0, 2⟩, [], [(1, 0)]⟩).mi) ∈
      ((commitMove [⟨diff_type.DIFF_IN_1, 0, 2, {}⟩]
          (BestMatch.mk 0 0 ⟨⟨0, 2⟩, [], [(1, 0)]⟩)).getD
        (BestMatch.mk 0 0 ⟨⟨0, 2⟩, [], [(1, 0)]⟩).bestIdx default).info.matchList :=
  ⟨by decide,
    (C1_commit_moved_flag [⟨diff_type.DIFF_IN_1, 0, 2, {}⟩]
      (BestMatch.mk 0 0 ⟨⟨0, 2⟩, [], [(1, 0)]⟩)).2.2 (by decide)⟩

theorem diffInfo_append_nil (bd : diffInfo) :
    ({ bd with info :=
      { bd.info with changedLines := bd.info.changedLines ++ [] } } : diffInfo) = bd := by
  cases bd with
  | mk t o l info =>
    cases info with
    | mk mb cl ml => simp

theorem compareLinesLoop_eq (DW : WordDiff) (c1 c2 : List (List Word)) :
    ∀ (lms : List (Nat × Nat × Nat)) (last : Int) (bd1 bd2 : diffInfo),
      compareLinesLoop DW c1 c2 lms last (bd1, bd2) =
        ({ bd1 with info := { bd1.info with changedLines := bd1.info.changedLines ++
            ((retainPairs lms last).filterMap (pairEmits DW c1 c2)).map Prod.fst } },
         { bd2 with info := { bd2.info with changedLines := bd2.info.changedLines ++
            ((retainPairs lms last).filterMap (pairEmits DW c1 c2)).map Prod.snd } }) := by
  intro lms
  induction lms with
  | nil =>
    intro last bd1 bd2
    simp only [compareLinesLoop, retainPairs, List.filterMap_nil, List.map_nil]
    rw [diffInfo_append_nil, diffInfo_append_nil]
  | cons lm rest ih =>
    intro last bd1 bd2
    by_cases hskip : (lm.2.2 : Int) ≤ last
    · simp only [compareLinesLoop, retainPairs, hskip, if_true, if_pos]
      exact ih last bd1 bd2
    · by_cases hsm : (DW (if (c1.getD lm.1 []).length < (c2.getD lm.2.2 []).length then
            c2.getD lm.2.2 [] else c1.getD lm.1 [])
          (if (c1.getD lm.1 []).length < (c2.getD lm.2.2 []).length then
            c1.getD lm.1 [] else c2.getD lm.2.2 [])).length = 1 ∧
          ((DW (if (c1.getD lm.1 []).length < (c2.getD lm.2.2 []).length then
            c2.getD lm.2.2 [] else c1.getD lm.1 [])
          (if (c1.getD lm.1 []).length < (c2.getD lm.2.2 []).length then
            c1.getD lm.1 [] else c2.getD lm.2.2 [])).getD 0
            ⟨diff_type.DIFF_MATCH, 0, 0⟩).type = diff_type.DIFF_MATCH
      · simp only [compareLinesLoop, retainPairs, hskip, if_false, if_neg,
          List.filterMap_cons, pairEmits, hsm, if_true, if_pos]
        exact ih (lm.2.2 : Int) bd1 bd2
      · simp only [compareLinesLoop, retainPairs, hskip, if_false, if_neg,
          List.filterMap_cons, pairEmits, hsm]
        by_cases hswap : (c1.getD lm.1 []).length < (c2.getD lm.2.2 []).length
        · simp only [hswap, if_true, if_pos]
          rw [ih (lm.2.2 : Int)]
          simp only [appendChangedLine, List.map_cons]
          simp [Prod.mk.injEq, List.append_assoc]
        · simp only [hswap, if_false, if_neg]
          rw [ih (lm.2.2 : Int)]
          simp only [appendChangedLine, List.map_cons]
          simp [Prod.mk.injEq, List.append_assoc]

theorem retainPairs_sublist :
    ∀ (lms : List (Nat × Nat × Nat)) (last : Int), (retainPairs lms last).Sublist lms := by
  intro lms
  induction lms with
  | nil => intro last; simp [retainPairs]
  | cons lm rest ih =>
    intro last
    rw [retainPairs]
    split
    · exact (ih last).cons lm
    · exact (ih (lm.2.2 : Int)).cons₂ lm

theorem retainPairs_b_bound :
    ∀ (lms : List (Nat × Nat × Nat)) (last : Int) (e : Nat × Nat × Nat),
      e ∈ retainPairs lms last → last < (e.2.2 : Int) := by
  intro lms
  induction lms with
  | nil => intro last e he; simp [retainPairs] at he
  | cons lm rest ih =>
    intro last e he
    rw [retainPairs] at he
    split at he
    · exact ih last e he
    · rcases List.mem_cons.mp he with he | he
      · subst he; omega
      · have := ih (lm.2.2 : Int) e he
        omega

theorem retainPairs_b_chain :
    ∀ (lms : List (Nat × Nat × Nat)) (last : Int),
      (retainPairs lms last).Chain' (fun x y => x.2.2 < y.2.2) := by
  intro lms
  induction lms with
  | nil => intro last; simp [retainPairs]
  | cons lm rest ih =>
    intro last
    rw [retainPairs]
    split
    · exact ih last
    · rw [List.chain'_cons']
      refine ⟨?_, ih (lm.2.2 : Int)⟩
      intro y hy
      have hmem : y ∈ retainPairs rest (lm.2.2 : Int) := by
        rcases hrp : retainPairs rest (lm.2.2 : Int) with _ | ⟨z, zs⟩
        · rw [hrp] at hy; simp at hy
        · rw [hrp] at hy
          simp only [List.head?_cons, Option.mem_def, Option.some.injEq] at hy
          subst hy
          exact List.mem_cons_self _ _
      have := retainPairs_b_bound rest (lm.2.2 : Int) y hmem
      omega

theorem pairEmits_lines (DW : WordDiff) (c1 c2 : List (List Word))
    (lm : Nat × Nat × Nat) (pr : diffLine × diffLine)
    (h : pairEmits DW c1 c2 lm = some pr) :
    pr.1.line = lm.1 ∧ pr.2.line = lm.2.2 := by
  simp only [pairEmits] at h
  by_cases hswap : (c1.getD lm.1 []).length < (c2.getD lm.2.2 []).length
  · rw [if_pos hswap, if_pos hswap, if_pos hswap] at h
    by_cases hsm : (DW (c2.getD lm.2.2 []) (c1.getD lm.1 [])).length = 1 ∧
        ((DW (c2.getD lm.2.2 []) (c1.getD lm.1 [])).getD 0
          ⟨diff_type.DIFF_MATCH, 0, 0⟩).type = diff_type.DIFF_MATCH
    · rw [if_pos hsm] at h
      cases h
    · rw [if_neg hsm] at h
      injection h with h
      subst h
      exact ⟨rfl, rfl⟩
  · rw [if_neg hswap, if_neg hswap, if_neg hswap] at h
    by_cases hsm : (DW (c1.getD lm.1 []) (c2.getD lm.2.2 [])).length = 1 ∧
        ((DW (c1.getD lm.1 []) (c2.getD lm.2.2 [])).getD 0
          ⟨diff_type.DIFF_MATCH, 0, 0⟩).type = diff_type.DIFF_MATCH
    · rw [if_pos hsm] at h
      cases h
    · rw [if_neg hsm] at h
      injection h with h
      subst h
      exact ⟨rfl, rfl⟩

theorem emitted_fst_lines_sublist (DW : WordDiff) (c1 c2 : List (List Word)) :
    ∀ (L : List (Nat × Nat × Nat)),
      ((L.filterMap (pairEmits DW c1 c2)).map (fun pr => pr.1.line)).Sublist
        (L.map (fun lm => lm.1)) := by
  intro L
  induction L with
  | nil => simp
  | cons lm rest ih =>
    rw [List.filterMap_cons]
    rcases hp : pairEmits DW c1 c2 lm with _ | pr
    · exact ih.cons lm.1
    · simp only [List.map_cons]
      rw [(pairEmits_lines DW c1 c2 lm pr hp).1]
      exact ih.cons₂ lm.1

theorem emitted_snd_lines_sublist (DW : WordDiff) (c1 c2 : List (List Word)) :
    ∀ (L : List (Nat × Nat × Nat)),
      ((L.filterMap (pairEmits DW c1 c2)).map (fun pr => pr.2.line)).Sublist
        (L.map (fun lm => lm.2.2)) := by
  intro L
  induction L with
  | nil => simp
  | cons lm rest ih =>
    rw [List.filterMap_cons]
    rcases hp : pairEmits DW c1 c2 lm with _ | pr
    · exact ih.cons lm.2.2
    · simp only [List.map_cons]
      rw [(pairEmits_lines DW c1 c2 lm pr hp).2]
      exact ih.cons₂ lm.2.2

/-- Claim C6: after block pairing, the two paired blocks' `changedLines`
lists have equal length, the k-th entry of one pairs with the k-th entry of
the other (they stem from the same retained mapping entry, the first block
carrying its doc-1 line and the second its doc-2 line), and the line indices
are strictly ascending within each block. -/
theorem C6_changed_lines_alignment (DW : WordDiff) (bd1 bd2 : diffInfo)
    (chunk1 chunk2 : List (List Word)) (lms : List (Nat × Nat × Nat))
    (hasc : lms.Chain' (fun x y => x.1 < y.1))
    (h1 : bd1.info.changedLines = []) (h2 : bd2.info.changedLines = []) :
    ((compareLines DW bd1 bd2 chunk1 chunk2 lms).1.info.changedLines.length =
      (compareLines DW bd1 bd2 chunk1 chunk2 lms).2.info.changedLines.length) ∧
    ((compareLines DW bd1 bd2 chunk1 chunk2 lms).1.info.changedLines.map
      (fun cl => cl.line)).Chain' (fun a b => a < b) ∧
    ((compareLines DW bd1 bd2 chunk1 chunk2 lms).2.info.changedLines.map
      (fun cl => cl.line)).Chain' (fun a b => a < b) ∧
    (∀ k, k < (compareLines DW bd1 bd2 chunk1 chunk2 lms).1.info.changedLines.length →
      ∃ lm ∈ lms,
        ((compareLines DW bd1 bd2 chunk1 chunk2 lms).1.info.changedLines.getD k
          { line := 0 }).line = lm.1 ∧
        ((compareLines DW bd1 bd2 chunk1 chunk2 lms).2.info.changedLines.getD k
          { line := 0 }).line = lm.2.2) := by
  have hloop := compareLinesLoop_eq DW chunk1 chunk2 lms (-1) bd1 bd2
  rw [compareLines, hloop]
  simp only [h1, h2, List.nil_append]
  set E := (retainPairs lms (-1)).filterMap (pairEmits DW chunk1 chunk2) with hE
  refine ⟨by simp, ?_, ?_, ?_⟩
  · have hsub1 := emitted_fst_lines_sublist DW chunk1 chunk2 (retainPairs lms (-1))
    have hretsub := retainPairs_sublist lms (-1)
    have hkeys : ((retainPairs lms (-1)).map (fun lm => lm.1)).Chain' (fun a b => a < b) := by
      have hmap : (lms.map (fun lm => lm.1)).Chain' (fun a b => a < b) :=
        (List.chain'_map (fun lm : Nat × Nat × Nat => lm.1)).mpr hasc
      exact hmap.sublist (hretsub.map (fun lm => lm.1))
    have := hkeys.sublist hsub1
    simpa [List.map_map, Function.comp] using this
  · have hsub2 := emitted_snd_lines_sublist DW chunk1 chunk2 (retainPairs lms (-1))
    have hbs : ((retainPairs lms (-1)).map (fun lm => lm.2.2)).Chain' (fun a b => a < b) :=
      (List.chain'_map (fun lm : Nat × Nat × Nat => lm.2.2)).mpr
        (retainPairs_b_chain lms (-1))
    have := hbs.sublist hsub2
    simpa [List.map_map, Function.comp] using this
  · intro k hk
    have hkE : k < E.length := by simpa using hk
    have hk1 : k < (E.map Prod.fst).length := by simpa using hkE
    have hk2 : k < (E.map Prod.snd).length := by simpa using hkE
    rw [List.getD_eq_getElem _ _ hk1, List.getD_eq_getElem _ _ hk2]
    simp only [List.getElem_map]
    have hmem : E[k] ∈ E := List.getElem_mem hkE
    obtain ⟨lm, hlm, hsome⟩ := (List.mem_filterMap ..).mp hmem
    have hlines := pairEmits_lines DW chunk1 chunk2 lm _ hsome
    exact ⟨lm, (retainPairs_sublist lms (-1)).subset hlm, hlines.1, hlines.2⟩

/-- Witness for C6: a single-entry mapping on one-line chunks, with the
hypotheses (ascending keys, empty changed-line lists) discharged
concretely. -/
theorem C6_changed_lines_alignment_witness :
    ([((0 : Nat), (60 : Nat), (0 : Nat))].Chain' (fun x y => x.1 < y.1)) ∧
    ((⟨diff_type.DIFF_IN_1, 0, 1, {}⟩ : diffInfo).info.changedLines = []) ∧
    ((⟨diff_type.DIFF_IN_2, 0, 1, {}⟩ : diffInfo).info.changedLines = []) ∧
    ((compareLines wordDiffModel ⟨diff_type.DIFF_IN_1, 0, 1, {}⟩
        ⟨diff_type.DIFF_IN_2, 0, 1, {}⟩ [[⟨charType.ALPHANUMCHAR, 0, 0, 1, 7⟩]]
        [[⟨charType.ALPHANUMCHAR, 0, 0, 1, 9⟩]]
        [((0 : Nat), (60 : Nat), (0 : Nat))]).1.info.changedLines.length =
      (compareLines wordDiffModel ⟨diff_type.DIFF_IN_1, 0, 1, {}⟩
        ⟨diff_type.DIFF_IN_2, 0, 1, {}⟩ [[⟨charType.ALPHANUMCHAR, 0, 0, 1, 7⟩]]
        [[⟨charType.ALPHANUMCHAR, 0, 0, 1, 9⟩]]
        [((0 : Nat), (60 : Nat), (0 : Nat))]).2.info.changedLines.length) :=
  ⟨List.chain'_singleton _, rfl, rfl,
    (C6_changed_lines_alignment wordDiffModel ⟨diff_type.DIFF_IN_1, 0, 1, {}⟩
      ⟨diff_type.DIFF_IN_2, 0, 1, {}⟩ [[⟨charType.ALPHANUMCHAR, 0, 0, 1, 7⟩]]
      [[⟨charType.ALPHANUMCHAR, 0, 0, 1, 9⟩]] [((0 : Nat), (60 : Nat), (0 : Nat))]
      (List.chain'_singleton _) rfl rfl).1⟩

theorem if_lt_eq_max (a b : Nat) : (if a < b then b else a) = max a b := by
  split <;> omega

/-- The amended claim C3: for every candidate pair `(line1, line2)` that the
collector evaluates (in range, non-empty, not inside a moved matched
section, within the 2x word-count gate), the recorded convergence is the
maximum of the word ratio over the longer line and the byte ratio whose
denominator is the RUNNING maximum `line1Len` — the byte count of `line1`
maxed with the byte counts of all previously evaluated partner lines — and
the triple is recorded iff that value is at least 50; the running maximum is
then extended with the current partner line's byte count.  The running
denominator starts at `line1`'s byte count when the inner loop is entered,
and for the first evaluated pair the code value coincides with the claimed
per-pair formula. -/
theorem C3_amended_running_denominator (DW : WordDiff) (chunk1 chunk2 : List (List Word))
    (info1 info2 : blockDiffInfo) (line1 line2 runLen : Nat) (oc : List conv_key) :
    ((line2 < chunk2.length) →
      ((chunk2.getD line2 []).isEmpty = false) →
      (¬((matchedSection info2 line2).1 ≠ 0 ∧ (matchedSection info2 line2).2 = true)) →
      (¬((if (chunk1.getD line1 []).length < (chunk2.getD line2 []).length then
            (chunk2.getD line2 [], chunk1.getD line1 [])
          else (chunk1.getD line1 [], chunk2.getD line2 [])).1.length >
          2 * (if (chunk1.getD line1 []).length < (chunk2.getD line2 []).length then
            (chunk2.getD line2 [], chunk1.getD line1 [])
          else (chunk1.getD line1 [], chunk2.getD line2 [])).2.length)) →
      collectLine2 DW chunk1 chunk2 info2 line1 line2 runLen oc =
        collectLine2 DW chunk1 chunk2 info2 line1 (line2 + 1)
          (max runLen (lineByteLen (chunk2.getD line2 [])))
          (if codePairConvergence DW (chunk1.getD line1 []) (chunk2.getD line2 [])
              runLen ≥ 50 then
            setInsert
              ⟨codePairConvergence DW (chunk1.getD line1 []) (chunk2.getD line2 []) runLen,
                line1, line2⟩ oc
          else oc)) ∧
    ((line1 < chunk1.length) →
      ((chunk1.getD line1 []).isEmpty = false) →
      (¬((matchedSection info1 line1).1 ≠ 0 ∧ (matchedSection info1 line1).2 = true)) →
      collectLine1 DW chunk1 chunk2 info1 info2 line1 oc =
        collectLine1 DW chunk1 chunk2 info1 info2 (line1 + 1)
          (collectLine2 DW chunk1 chunk2 info2 line1 0
            (lineByteLen (chunk1.getD line1 [])) oc).2) ∧
    (codePairConvergence DW (chunk1.getD line1 []) (chunk2.getD line2 [])
        (lineByteLen (chunk1.getD line1 [])) =
      claimedPairConvergence DW (chunk1.getD line1 []) (chunk2.getD line2 [])) := by
  refine ⟨?_, ?_, ?_⟩
  · intro hlt hne hmm hgate
    conv_lhs => rw [collectLine2]
    rw [dif_pos hlt]
    simp only [hne, Bool.false_eq_true, if_false]
    rw [dif_neg (by
      intro hc
      exact hmm ⟨hc.1, hc.2⟩)]
    rw [if_neg hgate]
    simp only [codePairConvergence]
    rw [if_lt_eq_max runLen (lineByteLen (chunk2.getD line2 []))]
    rw [if_lt_eq_max (diffMatchCount _ * 100 / _) _]
  · intro hlt hne hmm
    conv_lhs => rw [collectLine1]
    rw [dif_pos hlt]
    simp only [hne, Bool.false_eq_true, if_false]
    rw [dif_neg (by
      intro hc
      exact hmm ⟨hc.1, hc.2⟩)]
  · rfl

/-- Counterexample to C3 as stated: one line of 51 bytes (a 50-byte ALNUM
word and a 1-byte OTHER word) against a block whose first line has 200 bytes
(gate-passing, no word matches) and whose second line shares the 50-byte
word.  The claimed per-pair formula gives max(50, 50*100/51) = 98 for the
pair (0, 1), but the recorded triple carries 50 because the byte denominator
is the running maximum 200 left behind by line 0. -/
theorem C3_counterexample :
    collectLine1 wordDiffModel
        [[⟨charType.ALPHANUMCHAR, 0, 0, 50, 1⟩, ⟨charType.OTHERCHAR, 0, 50, 1, 2⟩]]
        [[⟨charType.ALPHANUMCHAR, 0, 0, 100, 3⟩, ⟨charType.OTHERCHAR, 0, 100, 100, 4⟩],
         [⟨charType.ALPHANUMCHAR, 0, 0, 50, 1⟩, ⟨charType.OTHERCHAR, 0, 50, 1, 5⟩]]
        {} {} 0 [] = [⟨50, 0, 1⟩] ∧
    claimedPairConvergence wordDiffModel
        [⟨charType.ALPHANUMCHAR, 0, 0, 50, 1⟩, ⟨charType.OTHERCHAR, 0, 50, 1, 2⟩]
        [⟨charType.ALPHANUMCHAR, 0, 0, 50, 1⟩, ⟨charType.OTHERCHAR, 0, 50, 1, 5⟩] = 98 ∧
    (⟨98, 0, 1⟩ : conv_key) ∉
      collectLine1 wordDiffModel
        [[⟨charType.ALPHANUMCHAR, 0, 0, 50, 1⟩, ⟨charType.OTHERCHAR, 0, 50, 1, 2⟩]]
        [[⟨charType.ALPHANUMCHAR, 0, 0, 100, 3⟩, ⟨charType.OTHERCHAR, 0, 100, 100, 4⟩],
         [⟨charType.ALPHANUMCHAR, 0, 0, 50, 1⟩, ⟨charType.OTHERCHAR, 0, 50, 1, 5⟩]]
        {} {} 0 [] := by
  have h : collectLine1 wordDiffModel
      [[⟨charType.ALPHANUMCHAR, 0, 0, 50, 1⟩, ⟨charType.OTHERCHAR, 0, 50, 1, 2⟩]]
      [[⟨charType.ALPHANUMCHAR, 0, 0, 100, 3⟩, ⟨charType.OTHERCHAR, 0, 100, 100, 4⟩],
       [⟨charType.ALPHANUMCHAR, 0, 0, 50, 1⟩, ⟨charType.OTHERCHAR, 0, 50, 1, 5⟩]]
      {} {} 0 [] = [⟨50, 0, 1⟩] := by
    simp [collectLine1, collectLine2, matchedSection, lineByteLen, diffMatchCount,
      diffMatchByteCount, wordDiffModel, diffModel, lcsList, emitSpans, mergeSpans,
      setInsert, convLt, List.find?, List.range_succ, List.range_zero,
      List.getElem?_cons_zero, List.getElem?_cons_succ]
  refine ⟨h, by simp [claimedPairConvergence, lineByteLen, diffMatchCount,
    diffMatchByteCount, wordDiffModel, diffModel, lcsList, emitSpans, mergeSpans,
    List.range_succ, List.range_zero, List.getElem?_cons_zero,
    List.getElem?_cons_succ], ?_⟩
  rw [h]
  simp

/-- Witness for the amended C3: the same concrete input; the inner-loop step
at pair (0, 1) with running denominator 200 records the triple with score
50. -/
theorem C3_amended_running_denominator_witness :
    ((1 : Nat) < ([[⟨charType.ALPHANUMCHAR, 0, 0, 100, 3⟩, ⟨charType.OTHERCHAR, 0, 100, 100, 4⟩],
        [⟨charType.ALPHANUMCHAR, 0, 0, 50, 1⟩,
          ⟨charType.OTHERCHAR, 0, 50, 1, 5⟩]] : List (List Word)).length) ∧
    collectLine2 wordDiffModel
        [[⟨charType.ALPHANUMCHAR, 0, 0, 50, 1⟩, ⟨charType.OTHERCHAR, 0, 50, 1, 2⟩]]
        [[⟨charType.ALPHANUMCHAR, 0, 0, 100, 3⟩, ⟨charType.OTHERCHAR, 0, 100, 100, 4⟩],
         [⟨charType.ALPHANUMCHAR, 0, 0, 50, 1⟩, ⟨charType.OTHERCHAR, 0, 50, 1, 5⟩]]
        {} 0 1 200 [] =
      collectLine2 wordDiffModel
        [[⟨charType.ALPHANUMCHAR, 0, 0, 50, 1⟩, ⟨charType.OTHERCHAR, 0, 50, 1, 2⟩]]
        [[⟨charType.ALPHANUMCHAR, 0, 0, 100, 3⟩, ⟨charType.OTHERCHAR, 0, 100, 100, 4⟩],
         [⟨charType.ALPHANUMCHAR, 0, 0, 50, 1⟩, ⟨charType.OTHERCHAR, 0, 50, 1, 5⟩]]
        {} 0 2
        (max 200 (lineByteLen
          ([[⟨charType.ALPHANUMCHAR, 0, 0, 100, 3⟩, ⟨charType.OTHERCHAR, 0, 100, 100, 4⟩],
            [⟨charType.ALPHANUMCHAR, 0, 0, 50, 1⟩,
              ⟨charType.OTHERCHAR, 0, 50, 1, 5⟩]].getD 1 [])))
        (if codePairConvergence wordDiffModel
            ([[⟨charType.ALPHANUMCHAR, 0, 0, 50, 1⟩,
              ⟨charType.OTHERCHAR, 0, 50, 1, 2⟩]].getD 0 [])
            ([[⟨charType.ALPHANUMCHAR, 0, 0, 100, 3⟩, ⟨charType.OTHERCHAR, 0, 100, 100, 4⟩],
              [⟨charType.ALPHANUMCHAR, 0, 0, 50, 1⟩,
                ⟨charType.OTHERCHAR, 0, 50, 1, 5⟩]].getD 1 []) 200 ≥ 50 then
          setInsert
            ⟨codePairConvergence wordDiffModel
              ([[⟨charType.ALPHANUMCHAR, 0, 0, 50, 1⟩,
                ⟨charType.OTHERCHAR, 0, 50, 1, 2⟩]].getD 0 [])
              ([[⟨charType.ALPHANUMCHAR, 0, 0, 100, 3⟩,
                ⟨charType.OTHERCHAR, 0, 100, 100, 4⟩],
                [⟨charType.ALPHANUMCHAR, 0, 0, 50, 1⟩,
                  ⟨charType.OTHERCHAR, 0, 50, 1, 5⟩]].getD 1 []) 200, 0, 1⟩ []
        else []) :=
  ⟨by decide,
    (C3_amended_running_denominator wordDiffModel
      [[⟨charType.ALPHANUMCHAR, 0, 0, 50, 1⟩, ⟨charType.OTHERCHAR, 0, 50, 1, 2⟩]]
      [[⟨charType.ALPHANUMCHAR, 0, 0, 100, 3⟩, ⟨charType.OTHERCHAR, 0, 100, 100, 4⟩],
       [⟨charType.ALPHANUMCHAR, 0, 0, 50, 1⟩, ⟨charType.OTHERCHAR, 0, 50, 1, 5⟩]]
      {} {} 0 1 200 []).1 (by decide) (by decide) (by decide) (by decide)⟩

theorem convLt_iff (x y : conv_key) :
    convLt x y = true ↔
      (y.convergence < x.convergence ∨ (x.convergence = y.convergence ∧
        (x.line1 < y.line1 ∨ (x.line1 = y.line1 ∧ x.line2 < y.line2)))) := by
  simp [convLt]

theorem convLt_connex (x y : conv_key) :
    x = y ∨ convLt x y = true ∨ convLt y x = true := by
  obtain ⟨xc, x1, x2⟩ := x
  obtain ⟨yc, y1, y2⟩ := y
  by_cases h1 : xc = yc
  · by_cases h2 : x1 = y1
    · by_cases h3 : x2 = y2
      · subst h1; subst h2; subst h3; exact Or.inl rfl
      · right
        subst h1; subst h2
        rcases Nat.lt_or_ge x2 y2 with h | h
        · left; simp [convLt]; omega
        · right; simp [convLt]; omega
    · right
      subst h1
      rcases Nat.lt_or_ge x1 y1 with h | h
      · left; simp [convLt]; omega
      · right; simp [convLt]; omega
  · right
    rcases Nat.lt_or_ge xc yc with h | h
    · right; simp [convLt]; omega
    · left; simp [convLt]; omega

theorem setInsert_mem (x : conv_key) :
    ∀ (l : List conv_key) (y : conv_key), y ∈ setInsert x l ↔ y = x ∨ y ∈ l := by
  intro l
  induction l with
  | nil => intro y; simp [setInsert]
  | cons z zs ih =>
    intro y
    rw [setInsert]
    by_cases h1 : convLt x z = true
    · rw [if_pos h1]
      simp [List.mem_cons]
      try tauto
    · rw [if_neg h1]
      by_cases h2 : convLt z x = true
      · rw [if_pos h2]
        simp only [List.mem_cons, ih]
        tauto
      · rw [if_neg h2]
        have hxz : x = z := by
          rcases convLt_connex x z with h | h | h
          · exact h
          · exact absurd h h1
          · exact absurd h h2
        subst hxz
        simp only [List.mem_cons]
        tauto

theorem setInsert_sorted (x : conv_key) :
    ∀ (l : List conv_key), l.Pairwise (fun a b => convLt a b = true) →
      (setInsert x l).Pairwise (fun a b => convLt a b = true) := by
  intro l
  induction l with
  | nil => intro _; simp [setInsert]
  | cons z zs ih =>
    intro hp
    rw [List.pairwise_cons] at hp
    rw [setInsert]
    by_cases h1 : convLt x z = true
    · rw [if_pos h1]
      rw [List.pairwise_cons]
      refine ⟨?_, List.pairwise_cons.mpr hp⟩
      intro y hy
      rcases List.mem_cons.mp hy with hy | hy
      · subst hy; exact h1
      · -- transitivity: convLt x z and convLt z y
        have hzy := hp.1 y hy
        rw [convLt_iff] at h1 hzy ⊢
        rcases h1 with h1 | ⟨h1a, h1b⟩ <;> rcases hzy with hzy | ⟨hzya, hzyb⟩
        · left; omega
        · left; omega
        · left; omega
        · right
          constructor
          · omega
          · rcases h1b with h1b | ⟨h1b1, h1b2⟩ <;> rcases hzyb with hzyb | ⟨hzyb1, hzyb2⟩
            · left; omega
            · left; omega
            · left; omega
            · right; constructor <;> omega
    · rw [if_neg h1]
      by_cases h2 : convLt z x = true
      · rw [if_pos h2]
        rw [List.pairwise_cons]
        constructor
        · intro y hy
          rcases (setInsert_mem x zs y).mp hy with hy | hy
          · subst hy; exact h2
          · exact hp.1 y hy
        · exact ih hp.2
      · rw [if_neg h2]
        exact List.pairwise_cons.mpr hp

theorem mapInsert_mem_fresh (k : Nat) (v : Nat × Nat) :
    ∀ (m : List (Nat × Nat × Nat)), (∀ e ∈ m, e.1 ≠ k) →
      ∀ e, e ∈ mapInsert k v m ↔ e = (k, v) ∨ e ∈ m := by
  intro m
  induction m with
  | nil => intro _ e; simp [mapInsert]
  | cons z zs ih =>
    intro hfresh e
    rw [mapInsert]
    by_cases h1 : k < z.1
    · rw [if_pos h1]
      simp [List.mem_cons]
      try tauto
    · rw [if_neg h1]
      have hz : ¬ z.1 = k := hfresh z (List.mem_cons_self _ _)
      rw [if_neg hz]
      simp only [List.mem_cons, ih (fun e he => hfresh e (List.mem_cons_of_mem _ he))]
      tauto

theorem mapInsert_length_fresh (k : Nat) (v : Nat × Nat) :
    ∀ (m : List (Nat × Nat × Nat)), (∀ e ∈ m, e.1 ≠ k) →
      (mapInsert k v m).length = m.length + 1 := by
  intro m
  induction m with
  | nil => intro _; simp [mapInsert]
  | cons z zs ih =>
    intro hfresh
    rw [mapInsert]
    by_cases h1 : k < z.1
    · rw [if_pos h1]; simp
    · rw [if_neg h1]
      have hz : ¬ z.1 = k := hfresh z (List.mem_cons_self _ _)
      rw [if_neg hz]
      simp [ih (fun e he => hfresh e (List.mem_cons_of_mem _ he))]

theorem getD_set_self (l : List Bool) (i : Nat) (h : i < l.length) :
    (l.set i true).getD i false = true := by
  simp [List.getD, List.getElem?_set_eq_of_lt true h]

theorem getD_set_other (l : List Bool) (b : Bool) (i j : Nat) (h : i ≠ j) :
    (l.set i b).getD j false = l.getD j false := by
  simp [List.getD, List.getElem?_set_ne h]

theorem greedyFill_eq_specGreedy (n1 n2 : Nat) :
    ∀ (ts : List conv_key) (used1 used2 : List Bool) (m : List (Nat × Nat × Nat)),
      used1.length = n1 → used2.length = n2 →
      (∀ i, used1.getD i false = true ↔ ∃ e ∈ m, e.1 = i) →
      (∀ i, used2.getD i false = true ↔ ∃ e ∈ m, e.2.2 = i) →
      (∀ t ∈ ts, t.line1 < n1 ∧ t.line2 < n2) →
      greedyFill n1 n2 ts used1 used2 m.length m.length m = specGreedy n1 n2 ts m := by
  intro ts
  induction ts with
  | nil => intro used1 used2 m _ _ _ _ _; rfl
  | cons t rest ih =>
    intro used1 used2 m hlen1 hlen2 hI1 hI2 hbound
    have hb := hbound t (List.mem_cons_self _ _)
    rw [greedyFill, specGreedy]
    by_cases hcond : ∀ e ∈ m, e.1 ≠ t.line1 ∧ e.2.2 ≠ t.line2
    · have hu1 : used1.getD t.line1 false = false := by
        rcases hv : used1.getD t.line1 false with _ | _
        · rfl
        · exfalso
          obtain ⟨e, he, he1⟩ := (hI1 t.line1).mp hv
          exact (hcond e he).1 he1
      have hu2 : used2.getD t.line2 false = false := by
        rcases hv : used2.getD t.line2 false with _ | _
        · rfl
        · exfalso
          obtain ⟨e, he, he2⟩ := (hI2 t.line2).mp hv
          exact (hcond e he).2 he2
      rw [if_pos ⟨hu1, hu2⟩, if_pos hcond]
      have hfresh : ∀ e ∈ m, e.1 ≠ t.line1 := fun e he => (hcond e he).1
      have hlenm := mapInsert_length_fresh t.line1 (t.convergence, t.line2) m hfresh
      have hmem := mapInsert_mem_fresh t.line1 (t.convergence, t.line2) m hfresh
      by_cases hstop : m.length + 1 = n1 ∨ m.length + 1 = n2
      · rw [if_pos hstop, if_pos (by omega)]
      · rw [if_neg hstop, if_neg (by omega)]
        have hrec := ih (used1.set t.line1 true) (used2.set t.line2 true)
          (mapInsert t.line1 (t.convergence, t.line2) m)
          (by simpa using hlen1) (by simpa using hlen2)
          (by
            intro i
            by_cases hi : t.line1 = i
            · subst hi
              rw [getD_set_self used1 t.line1 (by omega)]
              simp only [true_iff]
              exact ⟨(t.line1, t.convergence, t.line2), (hmem _).mpr (Or.inl rfl), rfl⟩
            · rw [getD_set_other used1 true t.line1 i hi]
              rw [hI1 i]
              constructor
              · rintro ⟨e, he, he1⟩
                exact ⟨e, (hmem e).mpr (Or.inr he), he1⟩
              · rintro ⟨e, he, he1⟩
                rcases (hmem e).mp he with he | he
                · subst he; exact absurd he1 hi
                · exact ⟨e, he, he1⟩)
          (by
            intro i
            by_cases hi : t.line2 = i
            · subst hi
              rw [getD_set_self used2 t.line2 (by omega)]
              simp only [true_iff]
              exact ⟨(t.line1, t.convergence, t.line2), (hmem _).mpr (Or.inl rfl), rfl⟩
            · rw [getD_set_other used2 true t.line2 i hi]
              rw [hI2 i]
              constructor
              · rintro ⟨e, he, he2⟩
                exact ⟨e, (hmem e).mpr (Or.inr he), he2⟩
              · rintro ⟨e, he, he2⟩
                rcases (hmem e).mp he with he | he
                · subst he
                  exact absurd he2 hi
                · exact ⟨e, he, he2⟩)
          (fun x hx => hbound x (List.mem_cons_of_mem _ hx))
        rw [hlenm] at hrec
        exact hrec
    · have : ¬(used1.getD t.line1 false = false ∧ used2.getD t.line2 false = false) := by
        intro ⟨hf1, hf2⟩
        apply hcond
        intro e he
        constructor
        · intro he1
          have : used1.getD t.line1 false = true := (hI1 t.line1).mpr ⟨e, he, he1⟩
          rw [this] at hf1
          cases hf1
        · intro he2
          have : used2.getD t.line2 false = true := (hI2 t.line2).mpr ⟨e, he, he2⟩
          rw [this] at hf2
          cases hf2
      rw [if_neg this, if_neg hcond]
      exact ih used1 used2 m hlen1 hlen2 hI1 hI2
        (fun x hx => hbound x (List.mem_cons_of_mem _ hx))

theorem monoScore_foldl (m : List (Nat × Nat × Nat)) :
    ∀ (acc : Nat) (last : Int),
      (m.foldl
        (fun st e => if (e.2.2 : Int) > st.2 then (st.1 + e.2.1, (e.2.2 : Int)) else st)
        (acc, last)).1 =
      acc + ((monoFilter last m).map (fun e => e.2.1)).sum := by
  induction m with
  | nil => intro acc last; simp [monoFilter]
  | cons e es ih =>
    intro acc last
    rw [List.foldl_cons, monoFilter]
    by_cases h : (e.2.2 : Int) > last
    · rw [if_pos h, if_pos h, ih]
      simp [Nat.add_assoc]
    · rw [if_neg h, if_neg h, ih]

theorem monoScore_spec (m : List (Nat × Nat × Nat)) :
    monoScore m = ((monoFilter (-1) m).map (fun e => e.2.1)).sum := by
  rw [monoScore]
  rw [monoScore_foldl m 0 (-1)]
  simp

theorem getD_replicate (n i : Nat) :
    (List.replicate n false).getD i false = false := by
  simp [List.getD]

theorem greedyOf_eq_specGreedy (n1 n2 : Nat) (su : List conv_key)
    (hbound : ∀ t ∈ su, t.line1 < n1 ∧ t.line2 < n2) :
    greedyOf n1 n2 su = specGreedy n1 n2 su [] := by
  rw [greedyOf]
  have h := greedyFill_eq_specGreedy n1 n2 su (List.replicate n1 false)
    (List.replicate n2 false) []
    (by simp) (by simp)
    (by intro i; simp [getD_replicate])
    (by intro i; simp [getD_replicate])
    hbound
  simpa using h

theorem searchFold_spec (n1 n2 : Nat) :
    ∀ (sus : List (List conv_key)) (best : Nat × List (Nat × Nat × Nat)),
      best.1 = monoScore best.2 →
      (sus.foldl (searchStep n1 n2) best).1 =
          monoScore (sus.foldl (searchStep n1 n2) best).2 ∧
        best.1 ≤ (sus.foldl (searchStep n1 n2) best).1 ∧
        (sus.foldl (searchStep n1 n2) best = best ∨
          ∃ su ∈ sus, (sus.foldl (searchStep n1 n2) best).2 = greedyOf n1 n2 su) ∧
        ∀ su ∈ sus,
          monoScore (greedyOf n1 n2 su) ≤ (sus.foldl (searchStep n1 n2) best).1 := by
  intro sus
  induction sus with
  | nil =>
    intro best hb
    refine ⟨hb, Nat.le_refl _, Or.inl rfl, ?_⟩
    intro su hsu
    cases hsu
  | cons su sus ih =>
    intro best hb
    rw [List.foldl_cons]
    by_cases h : best.1 < monoScore (greedyOf n1 n2 su)
    · have hstep : searchStep n1 n2 best su =
          (monoScore (greedyOf n1 n2 su), greedyOf n1 n2 su) := by
        rw [searchStep, greedyOf] at *
        rw [if_pos h]
      rw [hstep]
      obtain ⟨h1, h2, h3, h4⟩ := ih (monoScore (greedyOf n1 n2 su), greedyOf n1 n2 su) rfl
      refine ⟨h1, by omega, ?_, ?_⟩
      · rcases h3 with h3 | ⟨su2, hsu2, h3⟩
        · exact Or.inr ⟨su, List.mem_cons_self _ _, by rw [h3]⟩
        · exact Or.inr ⟨su2, List.mem_cons_of_mem _ hsu2, h3⟩
      · intro su2 hsu2
        rcases List.mem_cons.mp hsu2 with h5 | h5
        · subst h5; omega
        · exact h4 su2 h5
    · have hstep : searchStep n1 n2 best su = best := by
        rw [searchStep, greedyOf] at *
        rw [if_neg h]
      rw [hstep]
      obtain ⟨h1, h2, h3, h4⟩ := ih best hb
      refine ⟨h1, h2, ?_, ?_⟩
      · rcases h3 with h3 | ⟨su2, hsu2, h3⟩
        · exact Or.inl h3
        · exact Or.inr ⟨su2, List.mem_cons_of_mem _ hsu2, h3⟩
      · intro su2 hsu2
        rcases List.mem_cons.mp hsu2 with h5 | h5
        · subst h5; omega
        · exact h4 su2 h5

theorem searchBestMapping_eq_foldl (n1 n2 : Nat) (oc : List conv_key) :
    searchBestMapping n1 n2 oc =
      (((List.range oc.length).map (fun s => oc.drop s)).foldl
        (searchStep n1 n2) ((0 : Nat), ([] : List (Nat × Nat × Nat)))).2 := rfl

/-- C4: the ordering of the candidate set is score descending, then line a
ascending, then line b ascending, and insertion keeps the set sorted in that
order and containing the inserted key; for every starting position the
greedy fill accepts triples in that order subject to each a-line and each
b-line being used at most once, stopping when either side is fully mapped or
the list ends; the monotone-filtered score of a mapping sums the scores of
the entries whose b values strictly increase when traversed in ascending a;
and the mapping finally used is the greedy fill of some starting position
(or empty) achieving the maximal monotone-filtered score over all starting
positions. -/
theorem C4_mapping_search (n1 n2 : Nat) (x : conv_key) (s oc : List conv_key)
    (hbound : ∀ t ∈ oc, t.line1 < n1 ∧ t.line2 < n2)
    (hsorted : s.Pairwise (fun a b => convLt a b = true)) :
    (∀ a b : conv_key, convLt a b = true ↔
      (b.convergence < a.convergence ∨ (a.convergence = b.convergence ∧
        (a.line1 < b.line1 ∨ (a.line1 = b.line1 ∧ a.line2 < b.line2))))) ∧
    ((setInsert x s).Pairwise (fun a b => convLt a b = true) ∧
      ∀ y, y ∈ setInsert x s ↔ y = x ∨ y ∈ s) ∧
    (∀ st : Nat, greedyOf n1 n2 (oc.drop st) = specGreedy n1 n2 (oc.drop st) []) ∧
    (∀ m, monoScore m = ((monoFilter (-1) m).map (fun e => e.2.1)).sum) ∧
    (searchBestMapping n1 n2 oc = [] ∨
      ∃ st, st < oc.length ∧ searchBestMapping n1 n2 oc = greedyOf n1 n2 (oc.drop st)) ∧
    (∀ st, st < oc.length →
      monoScore (greedyOf n1 n2 (oc.drop st)) ≤ monoScore (searchBestMapping n1 n2 oc)) := by
  obtain ⟨h1, h2, h3, h4⟩ := searchFold_spec n1 n2
    ((List.range oc.length).map (fun st => oc.drop st))
    ((0 : Nat), ([] : List (Nat × Nat × Nat))) rfl
  refine ⟨convLt_iff, ⟨setInsert_sorted x s hsorted, setInsert_mem x s⟩, ?_, monoScore_spec,
    ?_, ?_⟩
  · intro st
    exact greedyOf_eq_specGreedy n1 n2 (oc.drop st)
      (fun t ht => hbound t (List.mem_of_mem_drop ht))
  · rcases h3 with h3 | ⟨su, hsu, h3⟩
    · left
      rw [searchBestMapping_eq_foldl, h3]
    · right
      obtain ⟨st, hst, hdrop⟩ := List.mem_map.mp hsu
      refine ⟨st, List.mem_range.mp hst, ?_⟩
      rw [searchBestMapping_eq_foldl, h3, hdrop]
  · intro st hst
    have hmem : oc.drop st ∈ (List.range oc.length).map (fun st => oc.drop st) :=
      List.mem_map.mpr ⟨st, List.mem_range.mpr hst, rfl⟩
    have := h4 (oc.drop st) hmem
    rw [searchBestMapping_eq_foldl, ← h1]
    exact this

theorem C4_mapping_search_witness :
    (∀ t ∈ [(⟨7, 0, 0⟩ : conv_key)], t.line1 < 1 ∧ t.line2 < 1) ∧
    (([] : List conv_key).Pairwise (fun a b => convLt a b = true)) ∧
    (searchBestMapping 1 1 [⟨7, 0, 0⟩] = [] ∨
      ∃ st, st < ([(⟨7, 0, 0⟩ : conv_key)]).length ∧
        searchBestMapping 1 1 [⟨7, 0, 0⟩] =
          greedyOf 1 1 (([(⟨7, 0, 0⟩ : conv_key)]).drop st)) :=
  ⟨by decide, List.Pairwise.nil,
    (C4_mapping_search 1 1 ⟨7, 0, 0⟩ [] [⟨7, 0, 0⟩] (by decide)
      List.Pairwise.nil).2.2.2.2.1⟩

theorem progressStep_fst (p : Progress) (hp : ∀ n, p.oracle n = true) (t : Nat) :
    (progressStep p t).1 = true := by
  rw [progressStep]
  split
  · simp [hp]
  · rfl

theorem blockComparesLoop_fuel_fst (p : Progress) (DW : WordDiff) (w : World)
    (doc1 doc2 : DocCmpInfo) (settings : UserSettings) (hp : ∀ n, p.oracle n = true) :
    ∀ (d i tick : Nat) (bds : List diffInfo), bds.length - i ≤ d →
      (blockComparesLoop p DW w doc1 doc2 settings i tick bds).1 = true := by
  intro d
  induction d with
  | zero =>
    intro i tick bds h
    rw [blockComparesLoop, dif_neg (by omega)]
  | succ d ih =>
    intro i tick bds h
    rw [blockComparesLoop]
    by_cases hi : i < bds.length
    · rw [dif_pos hi]
      simp only [progressStep_fst p hp, if_true]
      apply ih
      split
      · simp only [List.length_set]
        omega
      · omega
    · rw [dif_neg hi]

theorem blockComparesLoop_no_cancel (p : Progress) (DW : WordDiff) (w : World)
    (doc1 doc2 : DocCmpInfo) (settings : UserSettings) (hp : ∀ n, p.oracle n = true)
    (i tick : Nat) (bds : List diffInfo) :
    (blockComparesLoop p DW w doc1 doc2 settings i tick bds).1 = true :=
  blockComparesLoop_fuel_fst p DW w doc1 doc2 settings hp bds.length i tick bds
    (Nat.sub_le _ _)

theorem markAllDiffsLoop_fuel_fst (p : Progress) (blockDiffs : List diffInfo)
    (swapped : Bool) (hp : ∀ n, p.oracle n = true) :
    ∀ (d i : Nat) (st : MarkWalkState), blockDiffs.length - i ≤ d →
      (markAllDiffsLoop p blockDiffs swapped i st).1 = true := by
  intro d
  induction d with
  | zero =>
    intro i st h
    rw [markAllDiffsLoop, dif_neg (by omega)]
  | succ d ih =>
    intro i st h
    rw [markAllDiffsLoop]
    by_cases hi : i < blockDiffs.length
    · rw [dif_pos hi]
      simp only [progressStep_fst p hp, if_true]
      split
      · apply ih; omega
      · apply ih; omega
      · split
        · apply ih; omega
        · apply ih; omega
    · rw [dif_neg hi]

theorem markAllDiffs_no_cancel (p : Progress) (w : World) (tick : Nat)
    (blockDiffs : List diffInfo) (doc1 doc2 : DocCmpInfo) (selectionCompare : Bool)
    (hp : ∀ n, p.oracle n = true) :
    (markAllDiffs p w tick blockDiffs doc1 doc2 selectionCompare).1 = true := by
  rw [markAllDiffs]
  have hl := markAllDiffsLoop_fuel_fst p blockDiffs (decide (doc1.view = SUB_VIEW)) hp
    blockDiffs.length 0
    { w := w, tick := tick, d1 := doc1, d2 := doc2,
      a1 := { line := doc1.sec.off, diffMask := 0 },
      a2 := { line := doc2.sec.off, diffMask := 0 },
      align := [] } (Nat.sub_le _ _)
  simp only [hl, Bool.not_true, progressStep_fst p hp]
  split
  · rename_i hfalse
    exact (Bool.false_ne_true hfalse).elim
  · rfl

theorem runCompareAfterHashes_result_no_cancel (p : Progress)
    (D : List Nat → List Nat → List Span) (DW : WordDiff) (w : World) (sel : Bool)
    (h1 h2 : List Nat) (doc1_1 doc2_1 : DocCmpInfo) (settings : UserSettings) (tick : Nat)
    (hp : ∀ n, p.oracle n = true) :
    (runCompareAfterHashes p D DW w sel h1 h2 doc1_1 doc2_1 settings tick).result =
      if ((D (if h1.length < h2.length then h2 else h1)
            (if h1.length < h2.length then h1 else h2)).map spanToDiffInfo).length = 1 ∧
          (((D (if h1.length < h2.length then h2 else h1)
            (if h1.length < h2.length then h1 else h2)).map spanToDiffInfo).getD 0
              default).type = diff_type.DIFF_MATCH
      then CompareResult.COMPARE_MATCH else CompareResult.COMPARE_MISMATCH := by
  have hbc : ∀ (w1 : World) (d1 d2 : DocCmpInfo) (i tick : Nat) (bds : List diffInfo),
      (blockComparesLoop p DW w1 d1 d2 settings i tick bds).1 = true :=
    fun w1 d1 d2 i tick bds => blockComparesLoop_no_cancel p DW w1 d1 d2 settings hp i tick bds
  have hmk : ∀ (w1 : World) (tick : Nat) (bds : List diffInfo) (d1 d2 : DocCmpInfo)
      (s : Bool), (markAllDiffs p w1 tick bds d1 d2 s).1 = true :=
    fun w1 tick bds d1 d2 s => markAllDiffs_no_cancel p w1 tick bds d1 d2 s hp
  rw [runCompareAfterHashes]
  simp only [progressStep_fst p hp, hbc, hmk, Bool.not_true, Bool.false_eq_true, if_false]
  by_cases hsw : h1.length < h2.length
  · simp only [if_pos hsw]
    split
    · rfl
    · rfl
  · simp only [if_neg hsw]
    split
    · rfl
    · rfl

theorem runCompare_result_no_cancel (p : Progress) (D : List Nat → List Nat → List Span)
    (DW : WordDiff) (w : World) (ms ss : section_t) (settings : UserSettings)
    (hp : ∀ n, p.oracle n = true) :
    (runCompare p D DW w ms ss settings).result =
      if (runCompareLineDiff p D w ms ss settings).length = 1 ∧
          ((runCompareLineDiff p D w ms ss settings).getD 0 default).type =
            diff_type.DIFF_MATCH
      then CompareResult.COMPARE_MATCH else CompareResult.COMPARE_MISMATCH := by
  rw [runCompare, runCompareLineDiff]
  simp only [progressStep_fst p hp, Bool.not_true, Bool.false_eq_true, if_false]
  rw [runCompareAfterHashes_result_no_cancel p D DW w _ _ _ _ _ settings _ hp]

/-- C5: in compare mode, a run that completes without cancellation returns
MATCH if and only if the line-level diff consists of exactly one block of
kind MATCH; whenever the line-level diff is not such a single MATCH block,
the run returns MISMATCH. -/
theorem C5_match_iff_single_match_block
    (p : Progress) (D : List Nat → List Nat → List Span) (DW : WordDiff) (w : World)
    (ms ss : section_t) (settings : UserSettings) (hp : ∀ n, p.oracle n = true) :
    ((runCompare p D DW w ms ss settings).result = CompareResult.COMPARE_MATCH ↔
      ((runCompareLineDiff p D w ms ss settings).length = 1 ∧
        ((runCompareLineDiff p D w ms ss settings).getD 0 default).type =
          diff_type.DIFF_MATCH)) ∧
    (¬((runCompareLineDiff p D w ms ss settings).length = 1 ∧
        ((runCompareLineDiff p D w ms ss settings).getD 0 default).type =
          diff_type.DIFF_MATCH) →
      (runCompare p D DW w ms ss settings).result = CompareResult.COMPARE_MISMATCH) := by
  have h := runCompare_result_no_cancel p D DW w ms ss settings hp
  by_cases hc : (runCompareLineDiff p D w ms ss settings).length = 1 ∧
      ((runCompareLineDiff p D w ms ss settings).getD 0 default).type = diff_type.DIFF_MATCH
  · rw [h, if_pos hc]
    exact ⟨⟨fun _ => hc, fun _ => rfl⟩, fun hn => absurd hc hn⟩
  · rw [h, if_neg hc]
    exact ⟨⟨fun he => absurd he (by decide), fun hcc => absurd hcc hc⟩, fun _ => rfl⟩

theorem C5_match_iff_single_match_block_witness :
    (∀ n, (Progress.mk false (fun _ => true)).oracle n = true) ∧
    ((runCompare (Progress.mk false (fun _ => true)) diffModel wordDiffModel
        (World.mk (Doc.mk [[97]] false) (Doc.mk [[97]] false) [] [])
        (section_t.mk 0 0) (section_t.mk 0 0)
        (UserSettings.mk false false false 0)).result = CompareResult.COMPARE_MATCH ↔
      ((runCompareLineDiff (Progress.mk false (fun _ => true)) diffModel
          (World.mk (Doc.mk [[97]] false) (Doc.mk [[97]] false) [] [])
          (section_t.mk 0 0) (section_t.mk 0 0)
          (UserSettings.mk false false false 0)).length = 1 ∧
        ((runCompareLineDiff (Progress.mk false (fun _ => true)) diffModel
          (World.mk (Doc.mk [[97]] false) (Doc.mk [[97]] false) [] [])
          (section_t.mk 0 0) (section_t.mk 0 0)
          (UserSettings.mk false false false 0)).getD 0 default).type =
            diff_type.DIFF_MATCH)) :=
  ⟨fun _ => rfl,
    (C5_match_iff_single_match_block (Progress.mk false (fun _ => true))
      diffModel wordDiffModel
      (World.mk (Doc.mk [[97]] false) (Doc.mk [[97]] false) [] [])
      (section_t.mk 0 0) (section_t.mk 0 0)
      (UserSettings.mk false false false 0) (fun _ => rfl)).1⟩

theorem map_set_shape {α β : Type _} (f : α → β) :
    ∀ (l : List α) (i : Nat) (a b : α), l[i]? = some b → f a = f b →
      (l.set i a).map f = l.map f := by
  intro l
  induction l with
  | nil => intro i a b h _; cases h
  | cons x xs ih =>
    intro i a b h hf
    cases i with
    | zero =>
      rw [List.getElem?_cons_zero] at h
      injection h with h
      subst h
      simp [List.set, hf]
    | succ n =>
      rw [List.getElem?_cons_succ] at h
      simp [List.set, ih n a b h hf]

theorem getElem?_eq_getD_of_lt (l : List diffInfo) (i : Nat) (h : i < l.length) :
    l[i]? = some (l.getD i default) := by
  simp [List.getD, List.getElem?_eq_getElem h]

theorem appendMatch_shape (bds : List diffInfo) (idx : Nat) (sec : section_t) (fl : Bool) :
    (appendMatch bds idx sec fl).map blockShape = bds.map blockShape := by
  rw [appendMatch]
  rcases h : bds[idx]? with _ | bd
  · rfl
  · exact map_set_shape blockShape bds idx _ bd h rfl

theorem foldl_shape_invariant {α : Type _} (g : List diffInfo → α → List diffInfo)
    (hg : ∀ acc x, (g acc x).map blockShape = acc.map blockShape) :
    ∀ (l : List α) (init : List diffInfo),
      (l.foldl g init).map blockShape = init.map blockShape := by
  intro l
  induction l with
  | nil => intro init; rfl
  | cons x xs ih => intro init; rw [List.foldl_cons, ih, hg]

theorem commitMove_shape (bds : List diffInfo) (st : BestMatch) :
    (commitMove bds st).map blockShape = bds.map blockShape := by
  rw [commitMove]
  refine (foldl_shape_invariant _
    (fun acc (m : Nat × Nat) => appendMatch_shape acc m.1 _ _) _ _).trans ?_
  refine (foldl_shape_invariant _
    (fun acc (m : Nat × Nat) => appendMatch_shape acc m.1 _ _) _ _).trans ?_
  exact appendMatch_shape _ _ _ _

theorem findMovesInner_shape (h1 h2 : List Nat) (di1 : Nat) :
    ∀ (fuel ei1 : Nat) (bds : List diffInfo),
      (findMovesInner h1 h2 di1 fuel ei1 bds).map blockShape = bds.map blockShape := by
  intro fuel
  induction fuel with
  | zero => intro ei1 bds; rfl
  | succ fuel ih =>
    intro ei1 bds
    rw [findMovesInner]
    rcases hdi : bds[di1]? with _ | diff1
    · rfl
    · dsimp only
      split
      · split
        · exact ih _ _
        · split
          · exact ih _ _
          · split
            · exact ih _ _
            · split
              · rw [ih, commitMove_shape]
              · rw [ih, commitMove_shape]
      · rfl

theorem findMoves_shape (bds : List diffInfo) (h1 h2 : List Nat) :
    (findMoves bds h1 h2).map blockShape = bds.map blockShape := by
  rw [findMoves]
  apply foldl_shape_invariant
  intro acc di1
  split
  · exact findMovesInner_shape h1 h2 di1 _ _ _
  · rfl

theorem shape_getD_type (bds bds' : List diffInfo)
    (h : bds'.map blockShape = bds.map blockShape) (i : Nat) :
    (bds'.getD i default).type = (bds.getD i default).type := by
  have h2 : bds'[i]?.map blockShape = bds[i]?.map blockShape := by
    rw [← List.getElem?_map, ← List.getElem?_map, h]
  rcases ha : bds'[i]? with _ | a <;> rcases hb : bds[i]? with _ | b <;>
    rw [ha, hb] at h2
  · simp [List.getD, ha, hb]
  · cases h2
  · cases h2
  · injection h2 with h3
    have := congrArg Prod.fst h3
    simp only [blockShape] at this
    simp [List.getD, ha, hb, this]

theorem compareLinesLoop_shape (DW : WordDiff) (c1 c2 : List (List Word)) :
    ∀ (ms : List (Nat × Nat × Nat)) (last : Int) (st : diffInfo × diffInfo),
      blockShape (compareLinesLoop DW c1 c2 ms last st).1 = blockShape st.1 ∧
      blockShape (compareLinesLoop DW c1 c2 ms last st).2 = blockShape st.2 := by
  intro ms
  induction ms with
  | nil => intro last st; exact ⟨rfl, rfl⟩
  | cons lm rest ih =>
    intro last st
    obtain ⟨bd1, bd2⟩ := st
    rw [compareLinesLoop]
    split
    · exact ih _ _
    · dsimp only
      split
      · split
        · exact ih _ _
        · exact ⟨(ih _ _).1.trans rfl, (ih _ _).2.trans rfl⟩
      · split
        · exact ih _ _
        · exact ⟨(ih _ _).1.trans rfl, (ih _ _).2.trans rfl⟩

theorem compareBlocks_shape (DW : WordDiff) (doc1 doc2 : List (List Nat))
    (settings : UserSettings) (bd1 bd2 : diffInfo) :
    blockShape (compareBlocks DW doc1 doc2 settings bd1 bd2).1 = blockShape bd1 ∧
    blockShape (compareBlocks DW doc1 doc2 settings bd1 bd2).2 = blockShape bd2 := by
  rw [compareBlocks]
  split
  · exact ⟨rfl, rfl⟩
  · exact compareLinesLoop_shape DW _ _ _ _ _

theorem blockComparesLoop_fuel_shape (p : Progress) (DW : WordDiff) (w : World)
    (doc1 doc2 : DocCmpInfo) (settings : UserSettings) :
    ∀ (d i tick : Nat) (bds : List diffInfo), bds.length - i ≤ d →
      (blockComparesLoop p DW w doc1 doc2 settings i tick bds).2.1.map blockShape =
        bds.map blockShape := by
  intro d
  induction d with
  | zero =>
    intro i tick bds h
    rw [blockComparesLoop, dif_neg (by omega)]
  | succ d ih =>
    intro i tick bds h
    rw [blockComparesLoop]
    by_cases hi : i < bds.length
    · rw [dif_pos hi]
      dsimp only
      have hshape : ∀ (bds' : List diffInfo), bds'.map blockShape = bds.map blockShape →
          (if (progressStep p tick).1 = true then
              blockComparesLoop p DW w doc1 doc2 settings (i + 1) (progressStep p tick).2 bds'
            else (false, bds', (progressStep p tick).2)).2.1.map blockShape =
            bds.map blockShape := by
        intro bds' hb
        split
        · rw [ih (i + 1) _ bds' ?_, hb]
          have : bds'.length = bds.length := by
            have := congrArg List.length hb
            simpa using this
          omega
        · exact hb
      apply hshape
      split
      · rename_i hcond
        have hr := compareBlocks_shape DW (getDoc w doc1.view).lines (getDoc w doc2.view).lines
          settings
          { bds.getD (i - 1) default with info :=
              { (bds.getD (i - 1) default).info with matchBlock := some i } }
          { bds.getD i default with info :=
              { (bds.getD i default).info with matchBlock := some (i - 1) } }
        have e1 : (bds.set (i - 1) _).map blockShape = bds.map blockShape :=
          map_set_shape blockShape bds (i - 1) _ (bds.getD (i - 1) default)
            (getElem?_eq_getD_of_lt bds (i - 1) (by omega)) (hr.1.trans rfl)
        refine (map_set_shape blockShape _ i _ (bds.getD i default) ?_
          (hr.2.trans rfl)).trans e1
        rw [List.getElem?_set_ne (by omega)]
        exact getElem?_eq_getD_of_lt bds i hi
      · rfl
    · rw [dif_neg hi]

theorem foldl_world_proj {α β : Type _} (f : World → β) (g : World → α → World)
    (hg : ∀ w x, f (g w x) = f w) :
    ∀ (l : List α) (w : World), f (l.foldl g w) = f w := by
  intro l
  induction l with
  | nil => intro w; rfl
  | cons x xs ih => intro w; rw [List.foldl_cons, ih, hg]

theorem markerAdd_main (w : World) (v l m : Nat) : (markerAdd w v l m).main = w.main := rfl

theorem markerAdd_sub (w : World) (v l m : Nat) : (markerAdd w v l m).sub = w.sub := rfl

theorem markSectionLoop_fuel_docs (bd : diffInfo) (doc : DocCmpInfo) (endOff : Nat) :
    ∀ (d i line : Nat) (w : World), endOff - i ≤ d →
      (markSectionLoop bd doc endOff i line w).main = w.main ∧
      (markSectionLoop bd doc endOff i line w).sub = w.sub := by
  intro d
  induction d with
  | zero =>
    intro i line w h
    rw [markSectionLoop, dif_neg (by omega)]
    exact ⟨rfl, rfl⟩
  | succ d ih =>
    intro i line w h
    rw [markSectionLoop]
    by_cases hi : i < endOff
    · rw [dif_pos hi]
      dsimp only
      split
      · exact ih (i + 1) _ _ (by omega)
      · rename_i hml
        split
        · refine ⟨(ih (i + clampedMatchLen bd doc.sec.len i) _ _ (by omega)).1.trans ?_,
            (ih (i + clampedMatchLen bd doc.sec.len i) _ _ (by omega)).2.trans ?_⟩
          · apply foldl_world_proj World.main
            intro a b
            rfl
          · apply foldl_world_proj World.sub
            intro a b
            rfl
        · split
          · exact ih (i + 1) _ _ (by omega)
          · refine ⟨(ih (i + clampedMatchLen bd doc.sec.len i) _ _ (by omega)).1.trans ?_,
              (ih (i + clampedMatchLen bd doc.sec.len i) _ _ (by omega)).2.trans ?_⟩
            · simp only [markerAdd_main]
              apply foldl_world_proj World.main
              intro a b
              rfl
            · simp only [markerAdd_sub]
              apply foldl_world_proj World.sub
              intro a b
              rfl
    · rw [dif_neg hi]
      exact ⟨rfl, rfl⟩

theorem markSection_main (bd : diffInfo) (doc : DocCmpInfo) (w : World) :
    (markSection bd doc w).main = w.main :=
  (markSectionLoop_fuel_docs bd doc _ _ _ _ _ (Nat.le_refl _)).1

theorem markSection_sub (bd : diffInfo) (doc : DocCmpInfo) (w : World) :
    (markSection bd doc w).sub = w.sub :=
  (markSectionLoop_fuel_docs bd doc _ _ _ _ _ (Nat.le_refl _)).2

theorem markLineDiffs_main (w : World) (bds : List diffInfo) (v1 v2 : Nat)
    (bd : diffInfo) (li : Nat) :
    (markLineDiffs w bds v1 v2 bd li).main = w.main := by
  rw [markLineDiffs]
  simp only [markerAdd_main]
  apply Eq.trans
  · apply foldl_world_proj World.main
    intro a b
    rfl
  · simp only [markerAdd_main]
    apply foldl_world_proj World.main
    intro a b
    rfl

theorem markLineDiffs_sub (w : World) (bds : List diffInfo) (v1 v2 : Nat)
    (bd : diffInfo) (li : Nat) :
    (markLineDiffs w bds v1 v2 bd li).sub = w.sub := by
  rw [markLineDiffs]
  simp only [markerAdd_sub]
  apply Eq.trans
  · apply foldl_world_proj World.sub
    intro a b
    rfl
  · simp only [markerAdd_sub]
    apply foldl_world_proj World.sub
    intro a b
    rfl

theorem pushAlign_w (sw : Bool) (st : MarkWalkState) : (pushAlign sw st).w = st.w := rfl

theorem markPairedChanged_fuel_docs (bds : List diffInfo) (bd mb : diffInfo) (sw : Bool) :
    ∀ (d j : Nat) (st : MarkWalkState), bd.info.changedLines.length - j ≤ d →
      (markPairedChanged bds bd mb sw j st).w.main = st.w.main ∧
      (markPairedChanged bds bd mb sw j st).w.sub = st.w.sub := by
  intro d
  induction d with
  | zero =>
    intro j st h
    rw [markPairedChanged, dif_neg (by omega)]
    exact ⟨rfl, rfl⟩
  | succ d ih =>
    intro j st h
    rw [markPairedChanged]
    by_cases hj : j < bd.info.changedLines.length
    · rw [dif_pos hj]
      dsimp only
      have ih1 : ∀ st2, (markPairedChanged bds bd mb sw (j + 1) st2).w.main = st2.w.main ∧
          (markPairedChanged bds bd mb sw (j + 1) st2).w.sub = st2.w.sub :=
        fun st2 => ih (j + 1) st2 (by omega)
      refine ⟨(ih1 _).1.trans ?_, (ih1 _).2.trans ?_⟩ <;>
        · simp only [markLineDiffs_main, markLineDiffs_sub, pushAlign_w]
          repeat' split
          all_goals simp [markSection_main, markSection_sub, pushAlign_w,
            markLineDiffs_main, markLineDiffs_sub]
    · rw [dif_neg hj]
      exact ⟨rfl, rfl⟩

theorem markWalkMatch_w (sw : Bool) (bd : diffInfo) (st : MarkWalkState) :
    (markWalkMatch sw bd st).w = st.w := rfl

theorem markWalkIn2_docs (sw : Bool) (bd : diffInfo) (st : MarkWalkState) :
    (markWalkIn2 sw bd st).w.main = st.w.main ∧ (markWalkIn2 sw bd st).w.sub = st.w.sub := by
  rw [markWalkIn2]
  exact ⟨markSection_main _ _ _, markSection_sub _ _ _⟩

theorem markWalkIn1Alone_docs (sw : Bool) (bd : diffInfo) (st : MarkWalkState) :
    (markWalkIn1Alone sw bd st).w.main = st.w.main ∧
    (markWalkIn1Alone sw bd st).w.sub = st.w.sub := by
  rw [markWalkIn1Alone]
  exact ⟨markSection_main _ _ _, markSection_sub _ _ _⟩

theorem markWalkIn1Paired_docs (bds : List diffInfo) (sw : Bool) (bd mb : diffInfo)
    (st : MarkWalkState) :
    (markWalkIn1Paired bds sw bd mb st).w.main = st.w.main ∧
    (markWalkIn1Paired bds sw bd mb st).w.sub = st.w.sub := by
  rw [markWalkIn1Paired]
  dsimp only
  have hp := markPairedChanged_fuel_docs bds bd mb sw bd.info.changedLines.length 0
    { st with
        d1 := { st.d1 with sec := { st.d1.sec with off := 0 } },
        d2 := { st.d2 with sec := { st.d2.sec with off := 0 } } } (Nat.le_refl _)
  constructor <;>
    · repeat' split
      all_goals simp [markSection_main, markSection_sub, pushAlign_w, hp.1, hp.2]

theorem markAllDiffsLoop_fuel_docs (p : Progress) (blockDiffs : List diffInfo) (sw : Bool) :
    ∀ (d i : Nat) (st : MarkWalkState), blockDiffs.length - i ≤ d →
      (markAllDiffsLoop p blockDiffs sw i st).2.w.main = st.w.main ∧
      (markAllDiffsLoop p blockDiffs sw i st).2.w.sub = st.w.sub := by
  intro d
  induction d with
  | zero =>
    intro i st h
    rw [markAllDiffsLoop, dif_neg (by omega)]
    exact ⟨rfl, rfl⟩
  | succ d ih =>
    intro i st h
    rw [markAllDiffsLoop]
    by_cases hi : i < blockDiffs.length
    · rw [dif_pos hi]
      dsimp only
      have ih1 : ∀ (i2 : Nat) (st2 : MarkWalkState), i + 1 ≤ i2 →
          (markAllDiffsLoop p blockDiffs sw i2 st2).2.w.main = st2.w.main ∧
          (markAllDiffsLoop p blockDiffs sw i2 st2).2.w.sub = st2.w.sub :=
        fun i2 st2 hle => ih i2 st2 (by omega)
      split
      · split
        · exact ⟨((ih1 (i + 1) _ (by omega)).1).trans
              (congrArg World.main (markWalkMatch_w sw (blockDiffs.getD i default) st)),
            ((ih1 (i + 1) _ (by omega)).2).trans
              (congrArg World.sub (markWalkMatch_w sw (blockDiffs.getD i default) st))⟩
        · exact ⟨((ih1 (i + 1) _ (by omega)).1).trans
              (markWalkIn2_docs sw (blockDiffs.getD i default) st).1,
            ((ih1 (i + 1) _ (by omega)).2).trans
              (markWalkIn2_docs sw (blockDiffs.getD i default) st).2⟩
        · split
          · exact ⟨((ih1 (i + 2) _ (by omega)).1).trans
                (markWalkIn1Paired_docs blockDiffs sw (blockDiffs.getD i default) _ st).1,
              ((ih1 (i + 2) _ (by omega)).2).trans
                (markWalkIn1Paired_docs blockDiffs sw (blockDiffs.getD i default) _ st).2⟩
          · exact ⟨((ih1 (i + 1) _ (by omega)).1).trans
                (markWalkIn1Alone_docs sw (blockDiffs.getD i default) st).1,
              ((ih1 (i + 1) _ (by omega)).2).trans
                (markWalkIn1Alone_docs sw (blockDiffs.getD i default) st).2⟩
      · split
        · exact ⟨congrArg World.main (markWalkMatch_w sw (blockDiffs.getD i default) st),
            congrArg World.sub (markWalkMatch_w sw (blockDiffs.getD i default) st)⟩
        · exact ⟨(markWalkIn2_docs sw (blockDiffs.getD i default) st).1,
            (markWalkIn2_docs sw (blockDiffs.getD i default) st).2⟩
        · split
          · exact ⟨(markWalkIn1Paired_docs blockDiffs sw (blockDiffs.getD i default) _ st).1,
                (markWalkIn1Paired_docs blockDiffs sw (blockDiffs.getD i default) _ st).2⟩
          · exact ⟨(markWalkIn1Alone_docs sw (blockDiffs.getD i default) st).1,
              (markWalkIn1Alone_docs sw (blockDiffs.getD i default) st).2⟩
    · rw [dif_neg hi]
      exact ⟨rfl, rfl⟩

theorem markAllDiffs_main (p : Progress) (w : World) (tick : Nat) (bds : List diffInfo)
    (d1 d2 : DocCmpInfo) (sel : Bool) :
    (markAllDiffs p w tick bds d1 d2 sel).2.w.main = w.main := by
  rw [markAllDiffs]
  have hl : ∀ (sw : Bool) (st0 : MarkWalkState),
      (markAllDiffsLoop p bds sw 0 st0).2.w.main = st0.w.main :=
    fun sw st0 => (markAllDiffsLoop_fuel_docs p bds sw bds.length 0 st0 (Nat.le_refl _)).1
  split
  · exact hl _ _
  · split
    · exact hl _ _
    · exact hl _ _

theorem markAllDiffs_sub (p : Progress) (w : World) (tick : Nat) (bds : List diffInfo)
    (d1 d2 : DocCmpInfo) (sel : Bool) :
    (markAllDiffs p w tick bds d1 d2 sel).2.w.sub = w.sub := by
  rw [markAllDiffs]
  have hl : ∀ (sw : Bool) (st0 : MarkWalkState),
      (markAllDiffsLoop p bds sw 0 st0).2.w.sub = st0.w.sub :=
    fun sw st0 => (markAllDiffsLoop_fuel_docs p bds sw bds.length 0 st0 (Nat.le_refl _)).2
  split
  · exact hl _ _
  · split
    · exact hl _ _
    · exact hl _ _

theorem computeLineHashes_view (p : Progress) (doc : List (List Nat)) (di : DocCmpInfo)
    (settings : UserSettings) (tick : Nat) :
    (computeLineHashes p doc di settings tick).2.1.view = di.view := by
  rw [computeLineHashes]
  split
  · rfl
  · split
    · rfl
    · rfl

theorem runCompareDocInfos_views (p : Progress) (w : World) (ms ss : section_t)
    (settings : UserSettings) :
    (runCompareDocInfos p w ms ss settings).1.view = MAIN_VIEW ∧
    (runCompareDocInfos p w ms ss settings).2.view = SUB_VIEW := by
  rw [runCompareDocInfos]
  exact ⟨computeLineHashes_view p _ _ settings 0, computeLineHashes_view p _ _ settings _⟩

theorem runCompare_afterHashes_form (p : Progress) (D : List Nat → List Nat → List Span)
    (DW : WordDiff) (w : World) (ms ss : section_t) (settings : UserSettings)
    (hp : ∀ n, p.oracle n = true) :
    runCompare p D DW w ms ss settings =
      runCompareAfterHashes p D DW w (decide (ms.len ≠ 0 ∨ ss.len ≠ 0))
        (runCompareHashes p w ms ss settings).1
        (runCompareHashes p w ms ss settings).2
        (runCompareDocInfos p w ms ss settings).1
        (runCompareDocInfos p w ms ss settings).2
        settings
        (runCompareTick2 p w ms ss settings) := by
  rw [runCompare, runCompareHashes, runCompareDocInfos, runCompareTick2]
  simp only [progressStep_fst p hp, Bool.not_true, Bool.false_eq_true, if_false]

theorem runCompareMovesDiff_first_type (p : Progress) (D : List Nat → List Nat → List Span)
    (w : World) (ms ss : section_t) (settings : UserSettings) :
    ((runCompareMovesDiff p D w ms ss settings).getD 0 default).type =
      ((runCompareLineDiff p D w ms ss settings).getD 0 default).type := by
  rw [runCompareMovesDiff, runCompareLineDiff]
  dsimp only
  split
  · exact shape_getD_type _ _ (findMoves_shape _ _ _) 0
  · rfl

theorem runCompareNewlineCond_iff (p : Progress) (D : List Nat → List Nat → List Span)
    (w : World) (ms ss : section_t) (settings : UserSettings) :
    runCompareNewlineCond p D w ms ss settings ↔
      (((runCompareMovesDiff p D w ms ss settings).getD 0 default).type ≠
          diff_type.DIFF_MATCH ∧
        ((runCompareDocInfos p w ms ss settings).1.sec.off = 0 ∨
          (runCompareDocInfos p w ms ss settings).2.sec.off = 0)) := by
  rw [runCompareNewlineCond, runCompareMovesDiff_first_type]

theorem blockComparesLoop_shape0 (p : Progress) (DW : WordDiff) (w : World)
    (doc1 doc2 : DocCmpInfo) (settings : UserSettings) (tick : Nat) (bds : List diffInfo) :
    (blockComparesLoop p DW w doc1 doc2 settings 0 tick bds).2.1.map blockShape =
      bds.map blockShape :=
  blockComparesLoop_fuel_shape p DW w doc1 doc2 settings bds.length 0 tick bds (Nat.sub_le _ _)

theorem insert_save_chain (w : World) (vA vB : Nat)
    (h : (vA = MAIN_VIEW ∧ vB = SUB_VIEW) ∨ (vA = SUB_VIEW ∧ vB = MAIN_VIEW)) :
    (if !(getDoc w vB).modified
      then setSavePoint (insertLeadingNewline
            (if !(getDoc w vA).modified then setSavePoint (insertLeadingNewline w vA) vA
             else insertLeadingNewline w vA) vB) vB
      else insertLeadingNewline
            (if !(getDoc w vA).modified then setSavePoint (insertLeadingNewline w vA) vA
             else insertLeadingNewline w vA) vB).main =
        { lines := [] :: w.main.lines, modified := w.main.modified } ∧
    (if !(getDoc w vB).modified
      then setSavePoint (insertLeadingNewline
            (if !(getDoc w vA).modified then setSavePoint (insertLeadingNewline w vA) vA
             else insertLeadingNewline w vA) vB) vB
      else insertLeadingNewline
            (if !(getDoc w vA).modified then setSavePoint (insertLeadingNewline w vA) vA
             else insertLeadingNewline w vA) vB).sub =
        { lines := [] :: w.sub.lines, modified := w.sub.modified } := by
  rcases h with ⟨hA, hB⟩ | ⟨hA, hB⟩ <;> subst hA <;> subst hB <;>
    cases hm : w.main.modified <;> cases hs : w.sub.modified <;>
      simp [insertLeadingNewline, setSavePoint, setDoc, getDoc, MAIN_VIEW, SUB_VIEW, hm, hs]

theorem runCompareAfterHashes_frame (p : Progress) (D : List Nat → List Nat → List Span)
    (DW : WordDiff) (w : World) (sel : Bool) (h1 h2 : List Nat)
    (doc1_1 doc2_1 : DocCmpInfo) (settings : UserSettings) (tick : Nat)
    (bd1L : List diffInfo) (d1 d2 : DocCmpInfo)
    (hbd1 : bd1L = (if settings.DetectMoves then
        findMoves ((D (if h1.length < h2.length then h2 else h1)
            (if h1.length < h2.length then h1 else h2)).map spanToDiffInfo)
          (if h1.length < h2.length then h2 else h1)
          (if h1.length < h2.length then h1 else h2)
      else (D (if h1.length < h2.length then h2 else h1)
            (if h1.length < h2.length then h1 else h2)).map spanToDiffInfo))
    (hd1 : d1 = (if h1.length < h2.length then doc2_1 else doc1_1))
    (hd2 : d2 = (if h1.length < h2.length then doc1_1 else doc2_1))
    (hv1 : doc1_1.view = MAIN_VIEW) (hv2 : doc2_1.view = SUB_VIEW)
    (hp : ∀ n, p.oracle n = true) :
    ((bd1L.getD 0 default).type ≠ diff_type.DIFF_MATCH ∧
        (doc1_1.sec.off = 0 ∨ doc2_1.sec.off = 0) →
      (runCompareAfterHashes p D DW w sel h1 h2 doc1_1 doc2_1 settings tick).w.main =
          { lines := [] :: w.main.lines, modified := w.main.modified } ∧
        (runCompareAfterHashes p D DW w sel h1 h2 doc1_1 doc2_1 settings tick).w.sub =
          { lines := [] :: w.sub.lines, modified := w.sub.modified } ∧
        (runCompareAfterHashes p D DW w sel h1 h2 doc1_1 doc2_1 settings tick).blocks.map
            blockShape =
          bd1L.map (fun bd =>
            if bd.type = diff_type.DIFF_IN_1 ∨ bd.type = diff_type.DIFF_MATCH then
              (bd.type, bd.off + (d1.sec.off + 1), bd.len)
            else (bd.type, bd.off + (d2.sec.off + 1), bd.len))) ∧
    (¬((bd1L.getD 0 default).type ≠ diff_type.DIFF_MATCH ∧
        (doc1_1.sec.off = 0 ∨ doc2_1.sec.off = 0)) →
      (runCompareAfterHashes p D DW w sel h1 h2 doc1_1 doc2_1 settings tick).w.main =
          w.main ∧
        (runCompareAfterHashes p D DW w sel h1 h2 doc1_1 doc2_1 settings tick).w.sub =
          w.sub) := by
  have hDper : (d1.sec.off = 0 ∨ d2.sec.off = 0) ↔
      (doc1_1.sec.off = 0 ∨ doc2_1.sec.off = 0) := by
    rw [hd1, hd2]
    split
    · exact Or.comm
    · exact Iff.rfl
  have hbc : ∀ (w1 : World) (da db : DocCmpInfo) (i tk : Nat) (bds : List diffInfo),
      (blockComparesLoop p DW w1 da db settings i tk bds).1 = true :=
    fun w1 da db i tk bds => blockComparesLoop_no_cancel p DW w1 da db settings hp i tk bds
  have hmk : ∀ (w1 : World) (tk : Nat) (bds : List diffInfo) (da db : DocCmpInfo)
      (s : Bool), (markAllDiffs p w1 tk bds da db s).1 = true :=
    fun w1 tk bds da db s => markAllDiffs_no_cancel p w1 tk bds da db s hp
  rw [runCompareAfterHashes]
  simp only [progressStep_fst p hp, hbc, hmk, Bool.not_true, Bool.false_eq_true, if_false]
  rw [← hbd1, ← hd1, ← hd2]
  by_cases hsm : ((D (if h1.length < h2.length then h2 else h1)
      (if h1.length < h2.length then h1 else h2)).map spanToDiffInfo).length = 1 ∧
      (((D (if h1.length < h2.length then h2 else h1)
        (if h1.length < h2.length then h1 else h2)).map spanToDiffInfo).getD 0
          default).type = diff_type.DIFF_MATCH
  · rw [if_pos hsm]
    constructor
    · intro hcond
      exfalso
      apply hcond.1
      rw [hbd1]
      by_cases hdm : settings.DetectMoves = true
      · rw [if_pos hdm]
        exact (shape_getD_type _ _ (findMoves_shape _ _ _) 0).trans hsm.2
      · rw [if_neg hdm]
        exact hsm.2
    · intro _
      exact ⟨rfl, rfl⟩
  · rw [if_neg hsm]
    by_cases hnn : (bd1L.getD 0 default).type ≠ diff_type.DIFF_MATCH ∧
        (d1.sec.off = 0 ∨ d2.sec.off = 0)
    · rw [if_pos hnn, if_pos hnn, if_pos hnn]
      have hchain := insert_save_chain w d1.view d2.view (by
        rw [hd1, hd2]
        split
        · exact Or.inr ⟨hv2, hv1⟩
        · exact Or.inl ⟨hv1, hv2⟩)
      constructor
      · intro _
        refine ⟨?_, ?_, ?_⟩
        · rw [markAllDiffs_main]
          exact hchain.1
        · rw [markAllDiffs_sub]
          exact hchain.2
        · rw [blockComparesLoop_shape0]
          rw [if_pos (Or.inl (Nat.succ_ne_zero d1.sec.off))]
          rw [List.map_map]
          apply List.map_congr_left
          intro bd _
          dsimp only [Function.comp]
          by_cases ht : bd.type = diff_type.DIFF_IN_1 ∨ bd.type = diff_type.DIFF_MATCH
          · rw [if_pos ht, if_pos ht]
            rfl
          · rw [if_neg ht, if_neg ht]
            rfl
      · intro hcond
        exact absurd ⟨hnn.1, hDper.mp hnn.2⟩ hcond
    · rw [if_neg hnn, if_neg hnn, if_neg hnn]
      constructor
      · intro hcond
        exact absurd ⟨hcond.1, hDper.mpr hcond.2⟩ hnn
      · intro _
        exact ⟨markAllDiffs_main _ _ _ _ _ _ _, markAllDiffs_sub _ _ _ _ _ _ _⟩

/-- C8: the only text mutation of a cancellation-free compare run is the
insertion of one leading empty line into both documents, performed exactly
when the first block of the line-level diff is not MATCH and at least one
compared section starts at offset 0; when it happens each document keeps its
original modify flag (the save-point is restored for documents that were
unmodified), the final block shapes are the moves-diff shapes with offsets
shifted by the respective +1-adjusted section offsets, and in every other
case both documents are left completely unchanged. -/
theorem C8_leading_newline_frame
    (p : Progress) (D : List Nat → List Nat → List Span) (DW : WordDiff) (w : World)
    (ms ss : section_t) (settings : UserSettings) (hp : ∀ n, p.oracle n = true) :
    (runCompareNewlineCond p D w ms ss settings →
      (runCompare p D DW w ms ss settings).w.main =
          { lines := [] :: w.main.lines, modified := w.main.modified } ∧
        (runCompare p D DW w ms ss settings).w.sub =
          { lines := [] :: w.sub.lines, modified := w.sub.modified } ∧
        (runCompare p D DW w ms ss settings).blocks.map blockShape =
          (runCompareMovesDiff p D w ms ss settings).map (fun bd =>
            if bd.type = diff_type.DIFF_IN_1 ∨ bd.type = diff_type.DIFF_MATCH then
              (bd.type, bd.off +
                ((if runCompareSwap p w ms ss settings then
                    (runCompareDocInfos p w ms ss settings).2
                  else (runCompareDocInfos p w ms ss settings).1).sec.off + 1), bd.len)
            else
              (bd.type, bd.off +
                ((if runCompareSwap p w ms ss settings then
                    (runCompareDocInfos p w ms ss settings).1
                  else (runCompareDocInfos p w ms ss settings).2).sec.off + 1), bd.len))) ∧
    (¬runCompareNewlineCond p D w ms ss settings →
      (runCompare p D DW w ms ss settings).w.main = w.main ∧
      (runCompare p D DW w ms ss settings).w.sub = w.sub) ∧
    ((runCompare p D DW w ms ss settings).w.main.modified = w.main.modified ∧
      (runCompare p D DW w ms ss settings).w.sub.modified = w.sub.modified) := by
  have hviews := runCompareDocInfos_views p w ms ss settings
  have hswap_iff : runCompareSwap p w ms ss settings = true ↔
      (runCompareHashes p w ms ss settings).1.length <
        (runCompareHashes p w ms ss settings).2.length :=
    ⟨fun h => of_decide_eq_true h, fun h => decide_eq_true h⟩
  have hd1 : (if runCompareSwap p w ms ss settings then
        (runCompareDocInfos p w ms ss settings).2
      else (runCompareDocInfos p w ms ss settings).1) =
      (if (runCompareHashes p w ms ss settings).1.length <
          (runCompareHashes p w ms ss settings).2.length then
        (runCompareDocInfos p w ms ss settings).2
      else (runCompareDocInfos p w ms ss settings).1) := by
    by_cases hP : (runCompareHashes p w ms ss settings).1.length <
        (runCompareHashes p w ms ss settings).2.length
    · rw [if_pos (hswap_iff.mpr hP), if_pos hP]
    · rw [if_neg (fun hc => hP (hswap_iff.mp hc)), if_neg hP]
  have hd2 : (if runCompareSwap p w ms ss settings then
        (runCompareDocInfos p w ms ss settings).1
      else (runCompareDocInfos p w ms ss settings).2) =
      (if (runCompareHashes p w ms ss settings).1.length <
          (runCompareHashes p w ms ss settings).2.length then
        (runCompareDocInfos p w ms ss settings).1
      else (runCompareDocInfos p w ms ss settings).2) := by
    by_cases hP : (runCompareHashes p w ms ss settings).1.length <
        (runCompareHashes p w ms ss settings).2.length
    · rw [if_pos (hswap_iff.mpr hP), if_pos hP]
    · rw [if_neg (fun hc => hP (hswap_iff.mp hc)), if_neg hP]
  have hframe := runCompareAfterHashes_frame p D DW w (decide (ms.len ≠ 0 ∨ ss.len ≠ 0))
    (runCompareHashes p w ms ss settings).1 (runCompareHashes p w ms ss settings).2
    (runCompareDocInfos p w ms ss settings).1 (runCompareDocInfos p w ms ss settings).2
    settings (runCompareTick2 p w ms ss settings)
    (runCompareMovesDiff p D w ms ss settings)
    (if runCompareSwap p w ms ss settings then
        (runCompareDocInfos p w ms ss settings).2
      else (runCompareDocInfos p w ms ss settings).1)
    (if runCompareSwap p w ms ss settings then
        (runCompareDocInfos p w ms ss settings).1
      else (runCompareDocInfos p w ms ss settings).2)
    rfl hd1 hd2 hviews.1 hviews.2 hp
  rw [runCompareNewlineCond_iff p D w ms ss settings,
    runCompare_afterHashes_form p D DW w ms ss settings hp]
  refine ⟨hframe.1, hframe.2, ?_⟩
  by_cases hC : ((runCompareMovesDiff p D w ms ss settings).getD 0 default).type ≠
      diff_type.DIFF_MATCH ∧
      ((runCompareDocInfos p w ms ss settings).1.sec.off = 0 ∨
        (runCompareDocInfos p w ms ss settings).2.sec.off = 0)
  · have h := hframe.1 hC
    exact ⟨by rw [h.1], by rw [h.2.1]⟩
  · have h := hframe.2 hC
    exact ⟨by rw [h.1], by rw [h.2]⟩

theorem C8_leading_newline_frame_witness :
    (∀ n, (Progress.mk false (fun _ => true)).oracle n = true) ∧
    ((runCompare (Progress.mk false (fun _ => true)) diffModel wordDiffModel
        (World.mk (Doc.mk [[97]] false) (Doc.mk [[98]] false) [] [])
        (section_t.mk 0 0) (section_t.mk 0 0)
        (UserSettings.mk false false false 0)).w.main.modified =
          (World.mk (Doc.mk [[97]] false) (Doc.mk [[98]] false) [] []).main.modified ∧
      (runCompare (Progress.mk false (fun _ => true)) diffModel wordDiffModel
        (World.mk (Doc.mk [[97]] false) (Doc.mk [[98]] false) [] [])
        (section_t.mk 0 0) (section_t.mk 0 0)
        (UserSettings.mk false false false 0)).w.sub.modified =
          (World.mk (Doc.mk [[97]] false) (Doc.mk [[98]] false) [] []).sub.modified) :=
  ⟨fun _ => rfl,
    (C8_leading_newline_frame (Progress.mk false (fun _ => true)) diffModel
      wordDiffModel (World.mk (Doc.mk [[97]] false) (Doc.mk [[98]] false) [] [])
      (section_t.mk 0 0) (section_t.mk 0 0)
      (UserSettings.mk false false false 0) (fun _ => rfl)).2.2⟩

theorem ite_ne_error (c : Prop) [inst : Decidable c] (a b : CompareResult)
    (ha : a ≠ CompareResult.COMPARE_ERROR) (hb : b ≠ CompareResult.COMPARE_ERROR) :
    (if c then a else b) ≠ CompareResult.COMPARE_ERROR := by
  split
  · exact ha
  · exact hb

theorem runCompareAfterHashes_ne_error (p : Progress) (D : List Nat → List Nat → List Span)
    (DW : WordDiff) (w : World) (sel : Bool) (h1 h2 : List Nat)
    (doc1_1 doc2_1 : DocCmpInfo) (settings : UserSettings) (tick : Nat) :
    (runCompareAfterHashes p D DW w sel h1 h2 doc1_1 doc2_1 settings tick).result ≠
      CompareResult.COMPARE_ERROR := by
  rw [runCompareAfterHashes]
  simp only [apply_ite CompareOut.result]
  repeat' apply ite_ne_error
  all_goals decide

theorem runCompare_ne_error (p : Progress) (D : List Nat → List Nat → List Span)
    (DW : WordDiff) (w : World) (ms ss : section_t) (settings : UserSettings) :
    (runCompare p D DW w ms ss settings).result ≠ CompareResult.COMPARE_ERROR := by
  rw [runCompare]
  simp only [apply_ite CompareOut.result]
  repeat' apply ite_ne_error
  all_goals first
    | exact runCompareAfterHashes_ne_error p D DW w _ _ _ _ _ settings _
    | decide

theorem runFindUnique_ne_error (p : Progress) (w : World) (ms ss : section_t)
    (settings : UserSettings) :
    (runFindUnique p w ms ss settings).1 ≠ CompareResult.COMPARE_ERROR := by
  rw [runFindUnique]
  simp only [apply_ite (Prod.fst (β := World × Nat × List AlignmentPair))]
  repeat' apply ite_ne_error
  all_goals decide

/-- C9: the try/catch of compareViews catches every exception of the guarded
body, closes the progress dialog on every exit path, shows a message box and
returns ERROR exactly on an exception; the normal outcome is passed through
unchanged, and since neither runCompare nor runFindUnique can produce ERROR,
compareViews returns ERROR only on an exception (and in the embedded total
bodies never does), with the dialog closed and no message box. -/
theorem C9_error_handling (progressInfo : Bool)
    (body : Except EngineExc CompareResult) (p : Progress)
    (D : List Nat → List Nat → List Span) (DW : WordDiff) (w : World)
    (ms ss : section_t) (fu : Bool) (settings : UserSettings) :
    ((compareViewsCatch progressInfo body).2.1 = false) ∧
    (∀ e, body = Except.error e →
      compareViewsCatch progressInfo body =
        (CompareResult.COMPARE_ERROR, false, true)) ∧
    (∀ r, body = Except.ok r → compareViewsCatch progressInfo body = (r, false, false)) ∧
    ((compareViewsCatch progressInfo body).1 = CompareResult.COMPARE_ERROR →
      (∃ e, body = Except.error e) ∨ body = Except.ok CompareResult.COMPARE_ERROR) ∧
    ((runCompare p D DW w ms ss settings).result ≠ CompareResult.COMPARE_ERROR) ∧
    ((runFindUnique p w ms ss settings).1 ≠ CompareResult.COMPARE_ERROR) ∧
    ((compareViews p D DW w ms ss fu settings progressInfo).1 ≠
        CompareResult.COMPARE_ERROR ∧
      (compareViews p D DW w ms ss fu settings progressInfo).2.1 = false ∧
      (compareViews p D DW w ms ss fu settings progressInfo).2.2 = false) := by
  refine ⟨?_, ?_, ?_, ?_, runCompare_ne_error p D DW w ms ss settings,
    runFindUnique_ne_error p w ms ss settings, ?_, rfl, rfl⟩
  · cases body
    · rfl
    · rfl
  · intro e he
    rw [he]
    rfl
  · intro r hr
    rw [hr]
    rfl
  · intro herr
    cases hb : body with
    | error e => exact Or.inl ⟨e, rfl⟩
    | ok r =>
      right
      rw [hb] at herr
      have hr : r = CompareResult.COMPARE_ERROR := herr
      rw [hr]
  · rw [compareViews, compareViewsCatch]
    split
    · exact runFindUnique_ne_error p w ms ss settings
    · exact runCompare_ne_error p D DW w ms ss settings

theorem C9_error_handling_witness :
    ((compareViewsCatch true (Except.error EngineExc.exc)).2.1 = false) ∧
    compareViewsCatch true (Except.error EngineExc.exc) =
      (CompareResult.COMPARE_ERROR, false, true) :=
  ⟨(C9_error_handling true (Except.error EngineExc.exc)
      (Progress.mk false (fun _ => true)) diffModel wordDiffModel
      (World.mk (Doc.mk [] false) (Doc.mk [] false) [] [])
      (section_t.mk 0 0) (section_t.mk 0 0) false
      (UserSettings.mk false false false 0)).1,
    (C9_error_handling true (Except.error EngineExc.exc)
      (Progress.mk false (fun _ => true)) diffModel wordDiffModel
      (World.mk (Doc.mk [] false) (Doc.mk [] false) [] [])
      (section_t.mk 0 0) (section_t.mk 0 0) false
      (UserSettings.mk false false false 0)).2.1 EngineExc.exc rfl⟩

end Engine
